import Mathlib

/-!
# pixel_engine: access descriptors and the conflict check

A shallow embedding of `include/pixel_engine/app/system.h` (class `BasicSystem`,
its `infos_adder` family, `add_infos` and `contrary_to`).

* A `type_info` address is a natural number (`TypeInfo`).
* A template argument carries its type identity and its const qualification (`TypeArg`).
* A system parameter list is a `List Param`; the constructor of `System<Args...>` runs
  `add_infos<Args...>()` on a freshly initialised `BasicSystem`.
-/

namespace pixel_engine.entity

/-! ## Data model -/

/-- Identity of a C++ type: the address of its `type_info` object. -/
abbrev TypeInfo := Nat

/-- A template type argument: the identity of the unqualified type and whether the
argument is const qualified (`std::is_const_v`). -/
structure TypeArg where
  id : TypeInfo
  is_const : Bool
deriving DecidableEq, Repr

/-- The closed set of system parameter kinds handled by `add_infos_inernal`. -/
inductive Param where
  | Command
  | Query (includes withs excludes : List TypeArg)
  | Resource (t : TypeArg)
  | EventReader (t : TypeArg)
  | EventWriter (t : TypeArg)
  | State (t : TypeArg)
  | NextState (t : TypeArg)
deriving DecidableEq, Repr

/-- One element of `query_types`: the tuple
`(query_include_types, query_include_const, query_exclude_types)`. -/
abbrev QueryTypes := List TypeInfo × List TypeInfo × List TypeInfo

/-- The data members of `BasicSystem<Ret>` with their in-class initialisers. -/
structure BasicSystem where
  has_command : Bool := false
  has_query : Bool := false
  avg_time : ℚ := 0
  query_types : List QueryTypes := []
  resource_types : List TypeInfo := []
  resource_const : List TypeInfo := []
  event_read_types : List TypeInfo := []
  event_write_types : List TypeInfo := []
  state_types : List TypeInfo := []
  next_state_types : List TypeInfo := []

/-! ## Building the descriptor (system.h lines 30-161) -/

/-- The adder `info_add<Arg>::add`: push the identity of `remove_const_t<Arg>`. -/
def info_add (arg : TypeArg) (infos : List TypeInfo) : List TypeInfo :=
  infos ++ [arg.id]

/-- The adder `const_infos_adder<Arg>::add`: push only when `Arg` is const. -/
def const_infos_adder (arg : TypeArg) (infos : List TypeInfo) : List TypeInfo :=
  if arg.is_const then infos ++ [arg.id] else infos

/-- The adder `non_const_infos_adder<Arg>::add`: push only when `Arg` is not const. -/
def non_const_infos_adder (arg : TypeArg) (infos : List TypeInfo) : List TypeInfo :=
  if !arg.is_const then infos ++ [arg.id] else infos

/-- The tuple a `Query<Get<Includes...>, With<Withs...>, Without<Excludes...>>` adder
builds in its local vectors (lines 63-67): the four fold expressions, left to right. -/
def query_tuple (includes withs excludes : List TypeArg) : QueryTypes :=
  let query_include_types : List TypeInfo := []
  let query_exclude_types : List TypeInfo := []
  let query_include_const : List TypeInfo := []
  let query_include_types := includes.foldl (fun v a => non_const_infos_adder a v) query_include_types
  let query_include_const := includes.foldl (fun v a => const_infos_adder a v) query_include_const
  let query_include_types := withs.foldl (fun v a => info_add a v) query_include_types
  let query_exclude_types := excludes.foldl (fun v a => info_add a v) query_exclude_types
  (query_include_types, query_include_const, query_exclude_types)

/-- The static member `infos_adder<Arg>::add`. Its first parameter `query_types` is
declared WITHOUT `&` in every specialisation, so it is a copy of the vector of the caller;
the other six vectors are references. The state returned here is what the caller
observes afterwards. `Command` has no specialisation and is never passed in. -/
def infos_adder (arg : Param) (s : BasicSystem) : BasicSystem :=
  match arg with
  | .Command => s
  | .Query includes withs excludes =>
      -- the by-value parameter: initialised from the member, modified, then destroyed
      let query_types := s.query_types
      let _query_types := query_types ++ [query_tuple includes withs excludes]
      s
  | .Resource t =>
      if t.is_const then { s with resource_const := info_add t s.resource_const }
      else { s with resource_types := info_add t s.resource_types }
  | .EventReader t => { s with event_read_types := info_add t s.event_read_types }
  | .EventWriter t => { s with event_write_types := info_add t s.event_write_types }
  | .State t => { s with state_types := info_add t s.state_types }
  | .NextState t => { s with next_state_types := info_add t s.next_state_types }

/-- The body of `add_infos_inernal<Arg, Args...>` for its head argument `Arg`
(lines 143-154); the recursion on `Args...` is in `add_infos`. -/
def add_infos_inernal (s : BasicSystem) (arg : Param) : BasicSystem :=
  match arg with
  | .Command => { s with has_command := true }
  | .Query includes withs excludes =>
      infos_adder (.Query includes withs excludes) { s with has_query := true }
  | other => infos_adder other s

/-- The member `add_infos<Args...>`: nothing for an empty pack, otherwise the head is
handled by `add_infos_inernal` and the tail by `add_infos` again. -/
def add_infos (s : BasicSystem) : List Param → BasicSystem
  | [] => s
  | arg :: args => add_infos (add_infos_inernal s arg) args

/-- The constructor `System<Args...>::System(app, func)`: default members, then
`add_infos<Args...>()`. -/
def System (args : List Param) : BasicSystem :=
  add_infos {} args

/-! ## The conflict check `contrary_to` (system.h lines 165-287) -/

/-- One pass of the innermost block of the query loops (lines 172-227) for one pair of
query tuples, threading the flag `query_contrary`, which is declared outside the loops.
`end_ne found_in end_of ty` is the outcome of
`std::find(found_in.begin(), found_in.end(), ty) != end_of.end()` where the two
containers differ (lines 178-179 and 191-192): the comparison of iterators into
different vectors is left to the implementation. -/
def query_pair (end_ne : List TypeInfo → List TypeInfo → TypeInfo → Bool)
    (q oq : QueryTypes) (query_contrary : Bool) : Bool :=
  let query_include_types := q.1
  let query_include_const := q.2.1
  let query_exclude_types := q.2.2
  let other_query_include_types := oq.1
  let other_query_include_const := oq.2.1
  let other_query_exclude_types := oq.2.2
  let query_contrary :=
    if query_include_types.any (fun ty =>
        other_query_include_types.contains ty
          || end_ne other_query_include_const other_query_exclude_types ty)
    then true else query_contrary
  let query_contrary :=
    if !query_contrary then
      if other_query_include_types.any (fun ty =>
          query_include_types.contains ty
            || end_ne query_include_const query_exclude_types ty)
      then true else query_contrary
    else query_contrary
  let query_contrary :=
    if query_contrary then
      if query_exclude_types.any (fun ty =>
          other_query_include_types.contains ty || other_query_include_const.contains ty)
      then false else query_contrary
    else query_contrary
  let query_contrary :=
    if query_contrary then
      if other_query_exclude_types.any (fun ty =>
          query_include_types.contains ty || query_include_const.contains ty)
      then false else query_contrary
    else query_contrary
  query_contrary

/-- A loop of the shape of lines 234-243 (and 244-251, 254-263, 264-272): for each
`ty` of `xs`, set the flag when `ty` occurs in `ys`, and set it when `ty` occurs in
`zs`; the flag is never cleared and the loop never breaks. -/
def mark_found2 (xs ys zs : List TypeInfo) (flag : Bool) : Bool :=
  xs.foldl (fun flag ty =>
    let flag := if ys.contains ty then true else flag
    let flag := if zs.contains ty then true else flag
    flag) flag

/-- A loop of the shape of lines 274-279 (and 280-284): for each `ty` of `xs`, set the
flag when `ty` occurs in `ys`. -/
def mark_found1 (xs ys : List TypeInfo) (flag : Bool) : Bool :=
  xs.foldl (fun flag ty => if ys.contains ty then true else flag) flag

/-- The member `BasicSystem::contrary_to(other)`, statement by statement. -/
def contrary_to (end_ne : List TypeInfo → List TypeInfo → TypeInfo → Bool)
    (self other : BasicSystem) : Bool :=
  if self.has_command && (other.has_command || other.has_query) then true
  else if self.has_query && (other.has_command || other.has_query) then true
  else
    let query_contrary := false
    let query_contrary :=
      self.query_types.foldl (fun qc q =>
        other.query_types.foldl (fun qc oq => query_pair end_ne q oq qc) qc) query_contrary
    let resource_one_empty := self.resource_types.isEmpty || other.resource_types.isEmpty
    let resource_contrary := !resource_one_empty
    let resource_contrary :=
      if !resource_one_empty then
        let resource_contrary :=
          mark_found2 self.resource_types other.resource_const other.resource_types
            resource_contrary
        mark_found2 other.resource_types self.resource_const self.resource_types
          resource_contrary
      else resource_contrary
    let event_contrary := false
    let event_contrary :=
      mark_found2 self.event_write_types other.event_write_types other.event_read_types
        event_contrary
    let event_contrary :=
      mark_found2 other.event_write_types self.event_write_types self.event_read_types
        event_contrary
    let state_contrary := false
    let state_contrary :=
      mark_found1 self.next_state_types other.next_state_types state_contrary
    let state_contrary :=
      mark_found1 other.next_state_types self.next_state_types state_contrary
    query_contrary || resource_contrary || event_contrary || state_contrary

/-! ## Reading a parameter list -/

/-- Whether a parameter is a `Query<...>` (`is_template_of<Query, Arg>`). -/
def Param.is_query : Param → Bool
  | .Query _ _ _ => true
  | _ => false

/-- Whether a parameter is `Command` (`std::is_same_v<Arg, Command>`). -/
def Param.is_command : Param → Bool
  | .Command => true
  | _ => false

/-- Type `T` of a `Resource<T>` parameter with `T` not const. -/
def Param.resource_mut : Param → Option TypeInfo
  | .Resource t => if t.is_const then none else some t.id
  | _ => none

/-- Type `T` of a `Resource<const T>` parameter. -/
def Param.resource_ro : Param → Option TypeInfo
  | .Resource t => if t.is_const then some t.id else none
  | _ => none

/-- Type `T` of an `EventReader<T>` parameter. -/
def Param.event_read : Param → Option TypeInfo
  | .EventReader t => some t.id
  | _ => none

/-- Type `T` of an `EventWriter<T>` parameter. -/
def Param.event_write : Param → Option TypeInfo
  | .EventWriter t => some t.id
  | _ => none

/-- Type `T` of a `State<T>` parameter. -/
def Param.state_read : Param → Option TypeInfo
  | .State t => some t.id
  | _ => none

/-- Type `T` of a `NextState<T>` parameter. -/
def Param.state_next_write : Param → Option TypeInfo
  | .NextState t => some t.id
  | _ => none

/-! ## The conflict predicate of the specification and the stage runner

`SystemRunner::run`, `get_next`, `should_run`, `done` and `all_load` are declared in
`entity.h` (lines 92-130) but their bodies are not among the sources. The dispatch
protocol below follows section 4.5 of the specification; the compatibility test it
consults is the one the repository has, `BasicSystem::contrary_to`, applied to the
descriptors `SystemNode::system` built by the constructor. The predicate of section 4.2
is written out next to it, on the descriptor of section 4.2, for comparison. -/

/-- The access descriptor in the words of section 4.2 of the specification: two flags,
the per-query triples `(include_mut, include_ro, exclude)` and the six lists of type
identities. -/
structure AccessDescriptor where
  has_command : Bool
  has_query : Bool
  queries : List QueryTypes
  resource_mut : List TypeInfo
  resource_ro : List TypeInfo
  event_read : List TypeInfo
  event_write : List TypeInfo
  state_read : List TypeInfo
  state_next_write : List TypeInfo
deriving DecidableEq, Repr

/-- The triple of one `Query<Get<...>, With<...>, Without<...>>` parameter, none for
the other parameter kinds. The content of the triple is the one the adder of the
repository computes for the parameter (`query_tuple`). -/
def Param.query_triple : Param → Option QueryTypes
  | .Query includes withs excludes => some (query_tuple includes withs excludes)
  | _ => none

/-- The access descriptor in the words of section 4.2 of the specification, derived from
the parameter type list of a system: every parameter contributes to the flag or the list
of its kind. -/
def spec_access (ps : List Param) : AccessDescriptor :=
  { has_command := ps.any Param.is_command
    has_query := ps.any Param.is_query
    queries := ps.filterMap Param.query_triple
    resource_mut := ps.filterMap Param.resource_mut
    resource_ro := ps.filterMap Param.resource_ro
    event_read := ps.filterMap Param.event_read
    event_write := ps.filterMap Param.event_write
    state_read := ps.filterMap Param.state_read
    state_next_write := ps.filterMap Param.state_next_write }

/-- The overlap test of rule 2 of section 4.2 of the specification on two query triples
`(include_mut, include_ro, exclude)`: some component type is included by both with at
least one side mutable (include∩include, include∩include_ro). -/
def spec_overlap (qa qb : QueryTypes) : Bool :=
  qa.1.any (fun ty => qb.1.contains ty || qb.2.1.contains ty)
    || qb.1.any (fun ty => qa.1.contains ty || qa.2.1.contains ty)

/-- The separation test of rule 2 of section 4.2 of the specification: the exclude set
of one side contains a component type the other side includes. -/
def spec_separated (qa qb : QueryTypes) : Bool :=
  qa.2.2.any (fun ty => qb.1.contains ty || qb.2.1.contains ty)
    || qb.2.2.any (fun ty => qa.1.contains ty || qa.2.1.contains ty)

/-- The conflict predicate in the words of section 4.2 of the specification, rule by
rule (1 command, 2 queries, 3 resources, 4 events, 5 next-state). This is the
specification side of the comparison; the test of the repository is `contrary_to`. -/
def spec_conflict (a b : AccessDescriptor) : Bool :=
  ((a.has_command && (b.has_command || b.has_query))
      || (b.has_command && (a.has_command || a.has_query)))
    || (a.has_query && b.has_query
        && a.queries.any (fun qa =>
            b.queries.any (fun qb => spec_overlap qa qb && !spec_separated qa qb)))
    || (a.resource_mut.any (fun ty => b.resource_mut.contains ty || b.resource_ro.contains ty)
        || b.resource_mut.any (fun ty => a.resource_mut.contains ty || a.resource_ro.contains ty))
    || (a.event_write.any (fun ty => b.event_write.contains ty || b.event_read.contains ty)
        || b.event_write.any (fun ty => a.event_write.contains ty || a.event_read.contains ty))
    || a.state_next_write.any (fun ty => b.state_next_write.contains ty)

/-- Modelled from the spec: a System Node of section 3 as the stage runner sees it; the
code of the runner itself is not among the sources. Nodes are named by their index in the
arena; `args` is the parameter type list of the function of the node; `conditions` are
evaluated by the caller of a scan. -/
structure StageNode where
  args : List Param
  user_before : List Nat
  main_thread : Bool

/-- The member `SystemNode::system` (entity.h line 48): the descriptor the constructor
`System<Args...>` builds for the function of the node. -/
def StageNode.system (n : StageNode) : BasicSystem :=
  System n.args

/-- The field `access` of a System Node in section 3 of the specification: the access
descriptor of section 4.2 for the parameter type list of the node. -/
def StageNode.access (n : StageNode) : AccessDescriptor :=
  spec_access n.args

/-- Modelled from the spec: the three sets the dispatcher of section 4.5 maintains. -/
structure RunnerState where
  pending : List Nat
  in_flight : List Nat
  done : List Nat
deriving DecidableEq, Repr

/-- Modelled from the spec: what can happen next in the run loop of section 4.5: a scan
pass of the dispatcher, given the truth value the conditions of each node have now, or the
completion of an in-flight node on a worker. -/
inductive RunnerEvent where
  | scan (conditions : Nat → Bool)
  | complete (n : Nat)

/-- Modelled from the spec: step 2a/2b of section 4.5, one scan of `pending` in scan
order. A node whose predecessors are all done and whose conditions are false is removed
and recorded as done; the first node whose predecessors are all done, whose conditions
are true and which is compatible with every in-flight node is dispatched, unless it is a
main-thread node and something is in flight, in which case it is skipped this scan.
Compatible is decided by the test of the repository: `contrary_to` of the descriptor of
the node against the descriptor of the in-flight node answers false.
Returns the remaining pending list, the done list and the dispatched node if any. -/
def scan_pending (end_ne : List TypeInfo → List TypeInfo → TypeInfo → Bool)
    (node : Nat → StageNode) (conditions : Nat → Bool) (in_flight : List Nat) :
    List Nat → List Nat → List Nat × List Nat × Option Nat
  | [], done => ([], done, none)
  | n :: rest, done =>
    if (node n).user_before.all (fun b => done.contains b) then
      if !conditions n then
        scan_pending end_ne node conditions in_flight rest (done ++ [n])
      else if in_flight.all
          (fun m => !contrary_to end_ne (node n).system (node m).system) then
        if (node n).main_thread && !in_flight.isEmpty then
          let r := scan_pending end_ne node conditions in_flight rest done
          (n :: r.1, r.2.1, r.2.2)
        else (rest, done, some n)
      else
        let r := scan_pending end_ne node conditions in_flight rest done
        (n :: r.1, r.2.1, r.2.2)
    else
      let r := scan_pending end_ne node conditions in_flight rest done
      (n :: r.1, r.2.1, r.2.2)

/-- Modelled from the spec: one transition of the run loop of section 4.5: a scan
pass moves the dispatched node, if any, to `in_flight` (step 2b); a completion moves an
in-flight node to `done` (step 2c). -/
def runner_step (end_ne : List TypeInfo → List TypeInfo → TypeInfo → Bool)
    (node : Nat → StageNode) (s : RunnerState) : RunnerEvent → RunnerState
  | .scan conditions =>
    let r := scan_pending end_ne node conditions s.in_flight s.pending s.done
    match r.2.2 with
    | some n => { pending := r.1, in_flight := n :: s.in_flight, done := r.2.1 }
    | none => { pending := r.1, in_flight := s.in_flight, done := r.2.1 }
  | .complete n =>
    if s.in_flight.contains n then
      { pending := s.pending, in_flight := s.in_flight.erase n, done := s.done ++ [n] }
    else s

/-- Modelled from the spec: step 1 of section 4.5: everything pending, in scan order. -/
def runner_init (scan_order : List Nat) : RunnerState :=
  { pending := scan_order, in_flight := [], done := [] }

/-- Modelled from the spec: the state of a stage pass after a sequence of events. -/
def runner_run (end_ne : List TypeInfo → List TypeInfo → TypeInfo → Bool)
    (node : Nat → StageNode) (scan_order : List Nat)
    (events : List RunnerEvent) : RunnerState :=
  events.foldl (runner_step end_ne node) (runner_init scan_order)

/-! ## The application: nodes, sets and registration (entity.h)

A shallow embedding of `include/pixel_engine/app/entity.h`: `SystemNode`, the members
of `App` that registration reads and writes, `configure_system_sets`, `configure_sets`,
`add_system_inner`, `add_system_main_inner`, `add_plugin` and `LoopPlugin`.

* A `std::shared_ptr<SystemNode>` is the index of the node in the list of allocated
  nodes (`App.heap`); a null pointer is `none`.
* A stage (scheduler) type, a set type and a plugin type are natural numbers (their
  `typeid`); a set value is a natural number.
* `scheduler.h`, `command.h` and the body of `App::check_locked` are not among the
  sources; what registration needs of them is collected in `Deps`.
-/

/-- A value held in a `std::any` of the resource map: the type it was stored as and an
encoding of the object (`of`), a `State<T>` object with the members `m_state` and
`just_created` that `state_update` writes, a `NextState<T>` object with the member
`m_state` it reads, or a default constructed `std::any` (`empty`). -/
inductive StdAny where
  | of (type_hash : Nat) (value : Nat)
  | State (m_state : Nat) (just_created : Bool)
  | NextState (m_state : Nat)
  | empty
deriving DecidableEq, Repr

/-- The public member `systems_all` of `SystemRunner` (entity.h line 124), the only one
the sources under study write. -/
structure SystemRunner where
  systems_all : List Nat := []
deriving DecidableEq, Repr

/-- The data members of `SystemNode` (entity.h lines 45-54). `scheduler` is the dynamic
type of the object behind the `shared_ptr<Scheduler>`; `sets` is the map from the hash of
a set type to the value the node has in it. -/
structure SystemNode where
  in_main_thread : Bool
  scheduler : Nat
  scheduler_type : Nat
  system : BasicSystem
  conditions : List Nat := []
  user_defined_before : List Nat := []
  app_generated_before : List Nat := []
  sets : Nat → Option Nat := fun _ => none
  avg_reach_time : ℚ := 0

/-- The key `typeid(T).hash_code()` of a plugin type in `m_plugins`: `LoopPlugin` or
another class derived from `Plugin`. -/
inductive PluginType where
  | LoopPlugin
  | other (type_hash : Nat)
deriving DecidableEq, Repr

/-- The members of `App` that registration uses (entity.h lines 212-227), together with
`heap`, the `SystemNode` objects created so far by `std::make_shared`.
`m_in_set_systems` is only ever read through `operator[]`, so a missing key and an
empty vector are the same thing; of `m_plugins` only the keys are ever consulted. An
event is a natural number and `m_events` maps the hash of an event type to its deque. -/
structure App where
  m_loop_enabled : Bool := false
  m_resources : Nat → Option StdAny := fun _ => none
  m_events : Nat → Option (List Nat) := fun _ => none
  m_system_sets : Nat → Option (List Nat) := fun _ => none
  m_in_set_systems : Nat → List Nat := fun _ => []
  m_state_update : List BasicSystem := []
  m_systems : List Nat := []
  m_plugins : List PluginType := []
  m_runners : Nat → Option SystemRunner := fun _ => none
  heap : List SystemNode := []

/-- The error a registration call can end with (section 7 of the specification). -/
inductive RegError where
  | CycleDetected
deriving DecidableEq, Repr

/-- What the sources use of the files that are not among them.
* `is_base_of base derived`: in `scheduler.h`, stage type `derived` is a class publicly
  derived from the different class `base`.
* `check_locked app node`: the call `check_locked(node, node)` of `entity.cpp` ends with
  an error.
* `insert_resource type_hash value resources`: the resource map after
  `Command::insert_resource(value)` of `command.h`, `type_hash` being the hash of the
  type of `value`.
* `init_resource type_hash value resources`: the resource map after
  `Command::init_resource<T>()` of `command.h`, `value` being a default constructed `T`. -/
structure Deps where
  is_base_of : Nat → Nat → Bool
  check_locked : App → Nat → Bool
  insert_resource : Nat → StdAny → (Nat → Option StdAny) → (Nat → Option StdAny)
  init_resource : Nat → StdAny → (Nat → Option StdAny) → (Nat → Option StdAny)

/-- The test `dynamic_cast<Sch*>(p) != NULL` for a non-null `p` whose object has dynamic
type `dyn`: `dyn` is `Sch` or derived from it. -/
def dynamic_cast (deps : Deps) (Sch dyn : Nat) : Bool :=
  dyn == Sch || deps.is_base_of Sch dyn

/-- Assignment `m[key] = value` of an `unordered_map` with an optional lookup. -/
def map_set {α : Type} (m : Nat → Option α) (key : Nat) (value : α) : Nat → Option α :=
  fun k => if k = key then some value else m k

/-- The call `m[key].push_back(x)` of a map of vectors. -/
def map_push (m : Nat → List Nat) (key : Nat) (x : Nat) : Nat → List Nat :=
  fun k => if k = key then m k ++ [x] else m k

/-- Apply `f` to the node behind a pointer; nothing happens for an index that is not
allocated. -/
def update_node (heap : List SystemNode) (n : Nat) (f : SystemNode → SystemNode) :
    List SystemNode :=
  match heap[n]? with
  | some node => heap.set n (f node)
  | none => heap

/-- The statement `target->user_defined_before.insert(x)` on an `unordered_set`. -/
def insert_before (heap : List SystemNode) (target x : Nat) : List SystemNode :=
  update_node heap target
    (fun node => { node with user_defined_before := node.user_defined_before.insert x })

/-- The inner loop of `configure_system_sets` (lines 352-367) for one configured set
value `set`: every node listed under the set type whose value is `set` and whose
scheduler casts to `SchT` is linked with `node`, in the direction `before` selects. -/
def configure_system_sets_inner (deps : Deps) (SchT T node set : Nat) (before : Bool)
    (app : App) : App :=
  (app.m_in_set_systems T).foldl (fun app systems =>
    match app.heap[systems]? with
    | none => app
    | some sn =>
      match sn.sets T with
      | none => app
      | some sys_set =>
        if sys_set == set && dynamic_cast deps SchT sn.scheduler then
          if before then { app with heap := insert_before app.heap node systems }
          else { app with heap := insert_before app.heap systems node }
        else app) app

/-- The loop of `configure_system_sets` over the configured order (lines 345-368):
`before` is set to false only at the value of the new node, immediately before the
`break`. -/
def configure_system_sets_loop (deps : Deps) (SchT T node set_of_T : Nat) :
    Bool → List Nat → App → App
  | _, [], app => app
  | before, set :: rest, app =>
    if set == set_of_T then
      -- before = false; break;
      app
    else
      configure_system_sets_loop deps SchT T node set_of_T before rest
        (configure_system_sets_inner deps SchT T node set before app)

/-- The member `configure_system_sets<SchT, T, Args...>(node, in_sets)` (lines 340-379):
`types` is the pack `T, Args...` still to process and `in_sets` the map
`in_sets.sets`, as the list of (set type, value) it was initialised from. -/
def configure_system_sets (deps : Deps) (SchT node : Nat) (in_sets : List (Nat × Nat)) :
    List Nat → App → App
  | [], app => app
  | T :: Args, app =>
    let set_of_T := (in_sets.lookup T).getD 0
    let app :=
      match app.m_system_sets T with
      | some order => configure_system_sets_loop deps SchT T node set_of_T true order app
      | none => app
    let app := { app with m_in_set_systems := map_push app.m_in_set_systems T node }
    let heap := update_node app.heap node (fun n => { n with sets := map_set n.sets T set_of_T })
    let app := { app with heap := heap }
    configure_system_sets deps SchT node in_sets Args app

/-- The body of the loops of `configure_sets` (lines 495-497): `system1` is inserted
into the set of `system2` unless their `scheduler_type` pointers differ. -/
def configure_sets_insert (heap : List SystemNode) (system1 system2 : Nat) :
    List SystemNode :=
  match heap[system1]?, heap[system2]? with
  | some n1, some n2 =>
    if n1.scheduler_type != n2.scheduler_type then heap
    else insert_before heap system2 system1
  | _, _ => heap

/-- The two inner loops of `configure_sets` (lines 493-499) for one pair of groups
`in_set_systems[i]`, `in_set_systems[j]`. -/
def configure_sets_group_pair (group_i group_j : List Nat) (heap : List SystemNode) :
    List SystemNode :=
  group_i.foldl (fun heap system1 =>
    group_j.foldl (fun heap system2 => configure_sets_insert heap system1 system2) heap) heap

/-- The two outer loops of `configure_sets` (lines 491-501) over `in_set_systems`: the
head is `in_set_systems[i]`, the tail holds the `in_set_systems[j]` with `j > i`. -/
def configure_sets_edges : List (List Nat) → List SystemNode → List SystemNode
  | [], heap => heap
  | group_i :: later, heap =>
    configure_sets_edges later
      (later.foldl (fun heap group_j => configure_sets_group_pair group_i group_j heap) heap)

/-- The member `configure_sets<T>(arg, args...)` (lines 472-503). -/
def configure_sets (T : Nat) (arg : Nat) (args : List Nat) (app : App) : App :=
  let app := { app with m_system_sets := map_set app.m_system_sets T (arg :: args) }
  let in_set_systems : List (List Nat) :=
    ((app.m_system_sets T).getD []).map (fun set =>
      (app.m_in_set_systems T).filter (fun systems =>
        match app.heap[systems]? with
        | some sn =>
          (match sn.sets T with
           | some sys_set => sys_set == set
           | none => false)
        | none => false))
  { app with heap := configure_sets_edges in_set_systems app.heap }

/-- The loop over `afters.nodes` (lines 527-532 and 628-633). -/
def afters_loop (deps : Deps) (Sch new_node : Nat) (afters : List (Option Nat))
    (heap : List SystemNode) : List SystemNode :=
  afters.foldl (fun heap before_node =>
    match before_node with
    | none => heap
    | some b =>
      match heap[b]? with
      | none => heap
      | some bn =>
        if dynamic_cast deps Sch bn.scheduler then insert_before heap new_node b
        else heap) heap

/-- The loop over `befores.nodes` (lines 533-538 and 634-639). -/
def befores_loop (deps : Deps) (Sch new_node : Nat) (befores : List (Option Nat))
    (heap : List SystemNode) : List SystemNode :=
  befores.foldl (fun heap after_node =>
    match after_node with
    | none => heap
    | some a =>
      match heap[a]? with
      | none => heap
      | some an =>
        if dynamic_cast deps Sch an.scheduler then insert_before heap a new_node
        else heap) heap

/-- The member `add_system_inner<Sch, Args...>` (lines 515-546), which `add_system` calls
with the optional arguments it was given or their defaults. `args` is the parameter
list of the function; the pointer written through `node` is the index of the new node,
`app.heap.length`. -/
def add_system_inner (deps : Deps) (Sch : Nat) (args : List Param)
    (befores afters : List (Option Nat)) (conditions : List Nat)
    (in_sets : List (Nat × Nat)) (app : App) : Except RegError App :=
  let new_node := app.heap.length
  let node : SystemNode :=
    { in_main_thread := false, scheduler := Sch, scheduler_type := Sch, system := System args }
  let app := { app with heap := app.heap ++ [node] }
  let heap := update_node app.heap new_node (fun n => { n with conditions := conditions })
  let app := { app with heap := heap }
  let app := { app with heap := afters_loop deps Sch new_node afters app.heap }
  let app := { app with heap := befores_loop deps Sch new_node befores app.heap }
  let app := configure_system_sets deps Sch new_node in_sets (in_sets.map (·.1)) app
  if deps.check_locked app new_node then .error .CycleDetected
  else .ok { app with m_systems := app.m_systems ++ [new_node] }

/-- The member `add_system_main_inner<Sch, Args...>` (lines 616-647), which
`add_system_main` calls. -/
def add_system_main_inner (deps : Deps) (Sch : Nat) (args : List Param)
    (befores afters : List (Option Nat)) (conditions : List Nat)
    (in_sets : List (Nat × Nat)) (app : App) : Except RegError App :=
  let new_node := app.heap.length
  let node : SystemNode :=
    { in_main_thread := true, scheduler := Sch, scheduler_type := Sch, system := System args }
  let app := { app with heap := app.heap ++ [node] }
  let heap := update_node app.heap new_node (fun n => { n with conditions := conditions })
  let app := { app with heap := heap }
  let app := { app with heap := afters_loop deps Sch new_node afters app.heap }
  let app := { app with heap := befores_loop deps Sch new_node befores app.heap }
  let app := configure_system_sets deps Sch new_node in_sets (in_sets.map (·.1)) app
  if deps.check_locked app new_node then .error .CycleDetected
  else .ok { app with m_systems := app.m_systems ++ [new_node] }

/-- The member `System<Args...>::run` (system.h lines 342-349) as far as the system
object is concerned: `delta` is the measured duration in milliseconds. The function runs
on the values `App::get_values` hands it and has no access to the system object. -/
def System_run (s : BasicSystem) (delta : ℚ) : BasicSystem :=
  { s with avg_time := delta * (1 / 10) + s.avg_time * (9 / 10) }

/-- Modelled from the spec: `App::check_locked(node, node2)` is declared at entity.h
lines 461-462 and its body is not among the sources. Section 4.3: a depth-first search
from the new node through `user_before` that rejects reaching the node itself. The
search is cut after `fuel` edges. -/
def reaches_self (heap : List SystemNode) (node2 : Nat) : Nat → Nat → Bool
  | 0, _ => false
  | fuel + 1, node =>
    match heap[node]? with
    | none => false
    | some n =>
      n.user_defined_before.any (fun before =>
        before == node2 || reaches_self heap node2 fuel before)

/-- Modelled from the spec: the call `check_locked(node, node)` reports a cycle when
`node` reaches itself through `user_defined_before`; a cycle through `node` has at most
as many edges as there are nodes. -/
def check_locked (app : App) (node : Nat) : Bool :=
  reaches_self app.heap node app.heap.length node

/-- Modelled from the spec: `Command::insert_resource` of `command.h`, which is not
among the sources. Section 3: a resource is created on first insert, one instance per
type. -/
def insert_resource (type_hash : Nat) (value : StdAny) (resources : Nat → Option StdAny) :
    Nat → Option StdAny :=
  match resources type_hash with
  | some _ => resources
  | none => map_set resources type_hash value

/-- Modelled from the spec: `Command::init_resource` of `command.h`, which is not among
the sources. Section 3: a resource is created on first insert, one instance per type. -/
def init_resource (type_hash : Nat) (value : StdAny) (resources : Nat → Option StdAny) :
    Nat → Option StdAny :=
  match resources type_hash with
  | some _ => resources
  | none => map_set resources type_hash value

/-- Modelled from the spec: the missing parts as the specification describes them, with
no stage type derived from another. -/
def spec_deps : Deps :=
  { is_base_of := fun _ _ => false
    check_locked := check_locked
    insert_resource := insert_resource
    init_resource := init_resource }

/-- The members `add_system<Sch, Args...>(scheduler, func, args...)` (lines 561-601):
each optional argument is taken from the pack by its type, or default constructed
(`before()`, `after()`, no condition, `in_set()`), and passed to `add_system_inner`. -/
def add_system (deps : Deps) (Sch : Nat) (args : List Param)
    (befores afters : List (Option Nat)) (conditions : List Nat)
    (in_sets : List (Nat × Nat)) (app : App) : Except RegError App :=
  add_system_inner deps Sch args befores afters conditions in_sets app

/-- The members `add_system_main<Sch, Args...>(scheduler, func, args...)`
(lines 662-704), which pass on to `add_system_main_inner`. -/
def add_system_main (deps : Deps) (Sch : Nat) (args : List Param)
    (befores afters : List (Option Nat)) (conditions : List Nat)
    (in_sets : List (Nat × Nat)) (app : App) : Except RegError App :=
  add_system_main_inner deps Sch args befores afters conditions in_sets app

/-- The constructor `App()`: every member has its in-class initialiser. -/
def App_new : App := {}

/-- The protected member `enable_loop` (line 229). -/
def enable_loop (app : App) : App :=
  { app with m_loop_enabled := true }

/-- The protected member `disable_loop` (line 230). -/
def disable_loop (app : App) : App :=
  { app with m_loop_enabled := false }

/-- The number standing for the hash of a plugin type in the resource map. -/
def PluginType.hash_code : PluginType → Nat
  | .LoopPlugin => 0
  | .other type_hash => type_hash + 1

/-- The member `add_plugin<T>(plugin)` (lines 710-721). `build` is `plugin.build(*this)`
and `value` encodes the plugin object stored as a resource. `m_plugins` holds the keys
present in the map. -/
def add_plugin (deps : Deps) (T : PluginType) (value : Nat)
    (build : App → Except RegError App) (app : App) : Except RegError App :=
  if app.m_plugins.contains T then .ok app
  else
    match build app with
    | .error e => .error e
    | .ok app =>
      let app := { app with m_plugins := app.m_plugins.insert T }
      .ok { app with
        m_resources :=
          deps.insert_resource T.hash_code (.of T.hash_code value) app.m_resources }

/-- The member `LoopPlugin::build` (line 777). -/
def LoopPlugin_build (app : App) : Except RegError App :=
  .ok (enable_loop app)

/-- A call of the public registration interface of `App`. The `build` of a plugin other
than `LoopPlugin` is the sequence of such calls it makes on the app it is given;
`enable_loop` is protected and `LoopPlugin` is the only friend of `App`. -/
inductive RegOp where
  | add_system (Sch : Nat) (args : List Param) (befores afters : List (Option Nat))
      (conditions : List Nat) (in_sets : List (Nat × Nat))
  | add_system_main (Sch : Nat) (args : List Param) (befores afters : List (Option Nat))
      (conditions : List Nat) (in_sets : List (Nat × Nat))
  | configure_sets (T arg : Nat) (args : List Nat)
  | add_loop_plugin
  | add_plugin (type_hash value : Nat) (build : List RegOp)

mutual
/-- The effect of one registration call. -/
def apply_op (deps : Deps) : RegOp → App → Except RegError App
  | .add_system Sch args befores afters conditions in_sets, app =>
    add_system deps Sch args befores afters conditions in_sets app
  | .add_system_main Sch args befores afters conditions in_sets, app =>
    add_system_main deps Sch args befores afters conditions in_sets app
  | .configure_sets T arg args, app => .ok (configure_sets T arg args app)
  | .add_loop_plugin, app => add_plugin deps .LoopPlugin 0 LoopPlugin_build app
  | .add_plugin type_hash value build, app =>
    add_plugin deps (.other type_hash) value (fun app => apply_ops deps build app) app
/-- The effect of a sequence of registration calls; an error ends the sequence. -/
def apply_ops (deps : Deps) : List RegOp → App → Except RegError App
  | [], app => .ok app
  | op :: ops, app =>
    match apply_op deps op app with
    | .error e => .error e
    | .ok app => apply_ops deps ops app
end

mutual
/-- Whether a registration call adds a `LoopPlugin`, itself or inside the build of the
plugin it adds. -/
def op_adds_loop_plugin : RegOp → Bool
  | .add_loop_plugin => true
  | .add_plugin _ _ build => adds_loop_plugin build
  | _ => false
/-- Whether a sequence of registration calls adds a `LoopPlugin` anywhere, also inside
the build of a plugin. -/
def adds_loop_plugin : List RegOp → Bool
  | [] => false
  | op :: ops => op_adds_loop_plugin op || adds_loop_plugin ops
end

/-- The set `user_defined_before` of the node behind a pointer. -/
def user_before (heap : List SystemNode) (b : Nat) : List Nat :=
  match heap[b]? with
  | some node => node.user_defined_before
  | none => []

/-- The relation between the allocated nodes before and after a piece of code that only
inserts into `user_defined_before` sets: no node is created, every other member of every
node is as before, no entry is removed, and every new entry `a` in the set of node `b`
satisfies `P a b`. -/
structure HeapStep (P : Nat → Nat → Prop) (heap heap' : List SystemNode) : Prop where
  length_eq : heap'.length = heap.length
  frame : ∀ (m : Nat) (n : SystemNode), heap[m]? = some n →
    ∃ n', heap'[m]? = some n' ∧ n' = { n with user_defined_before := n'.user_defined_before }
  kept : ∀ a b, a ∈ user_before heap b → a ∈ user_before heap' b
  added : ∀ a b, a ∈ user_before heap' b → a ∈ user_before heap b ∨ P a b

/-- The member `scheduler_type` of the node behind a pointer. -/
def stage_type_of (heap : List SystemNode) (m : Nat) : Option Nat :=
  match heap[m]? with
  | some node => some node.scheduler_type
  | none => none

/-- The dynamic type of the scheduler of the node behind a pointer. -/
def scheduler_of (heap : List SystemNode) (m : Nat) : Option Nat :=
  match heap[m]? with
  | some node => some node.scheduler
  | none => none

/-- The value `sets[typeid(T).hash_code()]` of the node behind a pointer, if any. -/
def set_value_of (heap : List SystemNode) (m T : Nat) : Option Nat :=
  match heap[m]? with
  | some node => node.sets T
  | none => none

/-- The property of reachable states that the nodes with a value in a set type are the
nodes listed under that set type. -/
def sets_listed (app : App) : Prop :=
  ∀ n T v, set_value_of app.heap n T = some v → n ∈ app.m_in_set_systems T

/-- The relation between the allocated nodes before and after a piece of registration
code, as far as ordering is concerned: no node is created, every node keeps its
scheduler and its `scheduler_type`, no entry of a `user_defined_before` set is removed,
and every new entry `a` in the set of node `b` satisfies `P a b`. -/
structure EdgeStep (P : Nat → Nat → Prop) (heap heap' : List SystemNode) : Prop where
  length_eq : heap'.length = heap.length
  scheduler_eq : ∀ m, scheduler_of heap' m = scheduler_of heap m
  stage_type_eq : ∀ m, stage_type_of heap' m = stage_type_of heap m
  kept : ∀ a b, a ∈ user_before heap b → a ∈ user_before heap' b
  added : ∀ a b, a ∈ user_before heap' b → a ∈ user_before heap b ∨ P a b

/-- The node `std::make_shared<SystemNode>(scheduler, system, &typeid(Sch), in_main)`
builds (lines 522-525 and 623-626, constructor at lines 56-63). -/
def new_system_node (in_main : Bool) (Sch : Nat) (args : List Param) : SystemNode :=
  { in_main_thread := in_main, scheduler := Sch, scheduler_type := Sch, system := System args }

/-- The state of the app when `add_system_inner` (`in_main` false, after line 542) or
`add_system_main_inner` (`in_main` true, after line 643) calls `check_locked`. -/
def node_prepared (deps : Deps) (in_main : Bool) (Sch : Nat) (args : List Param)
    (befores afters : List (Option Nat)) (conditions : List Nat)
    (in_sets : List (Nat × Nat)) (app : App) : App :=
  let new_node := app.heap.length
  let app := { app with heap := app.heap ++ [new_system_node in_main Sch args] }
  let heap := update_node app.heap new_node (fun n => { n with conditions := conditions })
  let app := { app with heap := heap }
  let app := { app with heap := afters_loop deps Sch new_node afters app.heap }
  let app := { app with heap := befores_loop deps Sch new_node befores app.heap }
  configure_system_sets deps Sch new_node in_sets (in_sets.map (·.1)) app

/-- The app a sequence of registration calls leaves when none of them ends with an
error (and a new app otherwise). -/
def registered (deps : Deps) (ops : List RegOp) : App :=
  match apply_ops deps ops App_new with
  | .ok app => app
  | .error _ => App_new

/-! ## System parameters, states, conditions and runners (entity.h, system.h, app.h)

* The key `typeid(X).hash_code()` of a resource or event type is a natural number; for a
  state type `T` the keys of `State<T>` and `NextState<T>` are passed as `State_T` and
  `NextState_T`.
* `resource.h`, `event.h` and `state.h` are not among the sources: an accessor is
  modelled by what `value_type<...>::get` builds it from, a state object by the members
  the lambda of `state_update` uses.
-/

/-- A `Resource<Res>` accessor as `value_type<Resource<Res>>::get` builds it: default
constructed (`Resource<Res>()`), or from the address of the `std::any` stored under a
key of `m_resources` (`Resource<Res>(&m_resources[key])`). -/
inductive Resource where
  | empty
  | of (slot : Nat)
deriving DecidableEq, Repr

/-- An `EventWriter<Evt>`, built from the `shared_ptr` to a deque of `m_events`: the key
of that deque. -/
structure EventWriter where
  queue : Nat
deriving DecidableEq, Repr

/-- An `EventReader<Evt>`, built from the `shared_ptr` to a deque of `m_events`: the key
of that deque. -/
structure EventReader where
  queue : Nat
deriving DecidableEq, Repr

/-- The call `m_resources[key]` (`unordered_map::operator[]`): a default constructed
`std::any` is inserted when the key is absent; the result is the map afterwards and the
key of the slot the returned reference designates. -/
def resources_index (resources : Nat → Option StdAny) (key : Nat) :
    (Nat → Option StdAny) × Nat :=
  match resources key with
  | some _ => (resources, key)
  | none => (map_set resources key .empty, key)

/-- The member `value_type<Resource<Res>>::get(app)` (entity.h lines 277-288); `Res` is
`typeid(Res).hash_code()`. -/
def value_type_Resource_get (Res : Nat) (app : App) : App × Resource :=
  if (app.m_resources Res).isSome then
    let slot := resources_index app.m_resources Res
    ({ app with m_resources := slot.1 }, .of slot.2)
  else (app, .empty)

/-- The member `value_type<EventWriter<Evt>>::get(app)` (entity.h lines 290-300); `Evt`
is `typeid(Evt).hash_code()`. After the `if`, `m_events[Evt]` is present and the writer
is built from it. -/
def value_type_EventWriter_get (Evt : Nat) (app : App) : App × EventWriter :=
  let app :=
    if (app.m_events Evt).isNone then { app with m_events := map_set app.m_events Evt [] }
    else app
  (app, { queue := Evt })

/-- The member `value_type<EventReader<Evt>>::get(app)` (entity.h lines 302-312). -/
def value_type_EventReader_get (Evt : Nat) (app : App) : App × EventReader :=
  let app :=
    if (app.m_events Evt).isNone then { app with m_events := map_set app.m_events Evt [] }
    else app
  (app, { queue := Evt })

/-- Modelled from the spec: `Resource::has_value` of `resource.h`, which is not among
the sources. Section 7, MissingResource: the accessor of a resource that does not exist
is a view without a value; an accessor built from a stored resource has one. -/
def Resource.has_value : Resource → Bool
  | .empty => false
  | .of _ => true

/-- The assignment `state->just_created = value` through a `Resource<State<T>>`. The
object under the key of `State<T>` is a `State<T>`; nothing else is written. -/
def State_set_just_created (state : Resource) (value : Bool)
    (resources : Nat → Option StdAny) : Nat → Option StdAny :=
  match state with
  | .empty => resources
  | .of slot =>
    match resources slot with
    | some (.State m_state _) => map_set resources slot (.State m_state value)
    | _ => resources

/-- The assignment `state->m_state = value` through a `Resource<State<T>>`. -/
def State_set_m_state (state : Resource) (value : Nat)
    (resources : Nat → Option StdAny) : Nat → Option StdAny :=
  match state with
  | .empty => resources
  | .of slot =>
    match resources slot with
    | some (.State _ just_created) => map_set resources slot (.State value just_created)
    | _ => resources

/-- The read `state_next->m_state` through a `Resource<NextState<T>>`. -/
def NextState_m_state (state_next : Resource) (resources : Nat → Option StdAny) :
    Option Nat :=
  match state_next with
  | .empty => none
  | .of slot =>
    match resources slot with
    | some (.NextState m_state) => some m_state
    | _ => none

/-- The lambda that `state_update<T>()` returns (entity.h lines 323-332), applied to its
two accessors: the two assignments are made when both accessors have a value. -/
def state_update (state state_next : Resource) (app : App) : App :=
  if state.has_value && state_next.has_value then
    let resources := State_set_just_created state false app.m_resources
    match NextState_m_state state_next resources with
    | some m_state => { app with m_resources := State_set_m_state state m_state resources }
    | none => { app with m_resources := resources }
  else app

/-- One call of the function of the system
`System<Resource<State<T>>, Resource<NextState<T>>>` that `insert_state` registers:
`run_system_v` fetches the two parameters with `value_type<...>::get` (`get_values`,
lines 318-321) and applies the lambda to them. -/
def run_state_update (State_T NextState_T : Nat) (app : App) : App :=
  let state := value_type_Resource_get State_T app
  let state_next := value_type_Resource_get NextState_T state.1
  state_update state.2 state_next.2 state_next.1

/-- Modelled from the spec: the constructor `State(state)` of `state.h`, which is not
among the sources. Section 8, P6: `just_created` is true after insertion. -/
def State_new (state : Nat) : StdAny := .State state true

/-- Modelled from the spec: the constructor `NextState(state)` of `state.h`, which is
not among the sources. -/
def NextState_new (state : Nat) : StdAny := .NextState state

/-- The system object `insert_state<T>` and `init_state<T>` push onto `m_state_update`:
`System<Resource<State<T>>, Resource<NextState<T>>>`. -/
def state_update_system (State_T NextState_T : Nat) : BasicSystem :=
  System [.Resource ⟨State_T, false⟩, .Resource ⟨NextState_T, false⟩]

/-- The member `insert_state<T>(state)` (entity.h lines 739-750). -/
def insert_state (deps : Deps) (State_T NextState_T state : Nat) (app : App) : App :=
  let resources := deps.insert_resource State_T (State_new state) app.m_resources
  let resources := deps.insert_resource NextState_T (NextState_new state) resources
  let app := { app with m_resources := resources }
  { app with
    m_state_update := app.m_state_update ++ [state_update_system State_T NextState_T] }

/-- The member `init_state<T>()` (entity.h lines 757-768); `default_state` is the value
initialised `T()`. -/
def init_state (deps : Deps) (State_T NextState_T default_state : Nat) (app : App) : App :=
  let resources := deps.init_resource State_T (State_new default_state) app.m_resources
  let resources := deps.init_resource NextState_T (NextState_new default_state) resources
  let app := { app with m_resources := resources }
  { app with
    m_state_update := app.m_state_update ++ [state_update_system State_T NextState_T] }

/-- Modelled from the spec: `State<T>::is_state` of `state.h`, which is not among the
sources. Section 4.6: `in_state<T>(v)` is true iff `State<T>.current == v`. -/
def State_is_state (state : Resource) (v : Nat) (resources : Nat → Option StdAny) : Bool :=
  match state with
  | .empty => false
  | .of slot =>
    match resources slot with
    | some (.State m_state _) => m_state == v
    | _ => false

/-- An object that a `std::shared_ptr<condition>` can point to, by its dynamic type: a
`condition` (system.h lines 353-356) or a `condition_state<T>` with its member
`m_state` (lines 358-373). -/
inductive condition where
  | base
  | condition_state (State_T : Nat) (m_state : Nat)
deriving DecidableEq, Repr

/-- The member `condition::if_run(app)` (system.h line 355). -/
def condition.if_run (_self : condition) (_app : App) : Bool := true

/-- The member `condition_state<T>::if_run(app)` (system.h lines 366-369):
`run_system_v(m_func)` fetches the `Resource<State<T>>` and `m_func` returns
`state->is_state(m_state)`. -/
def condition_state_if_run (State_T m_state : Nat) (app : App) : Bool :=
  let state := value_type_Resource_get State_T app
  State_is_state state.2 m_state state.1.m_resources

/-- What the declaration of a member function says about overriding: whether it is
declared `virtual`, and whether it carries the specifier `override`. -/
structure MemberFunctionDecl where
  is_virtual : Bool
  is_override : Bool
deriving DecidableEq, Repr

/-- The declaration of `condition::if_run` (system.h line 355):
`bool if_run(App* app) { return true; }`, without `virtual`. -/
def condition_if_run_decl : MemberFunctionDecl :=
  { is_virtual := false, is_override := false }

/-- The declaration of `condition_state<T>::if_run` (system.h line 369):
`bool if_run(App* app) override`. -/
def condition_state_if_run_decl : MemberFunctionDecl :=
  { is_virtual := false, is_override := true }

/-- The check made when a class is completed, for a member function `derived` of the
class and the member function `base` of the same name and parameter list in its base
class: a member marked `override` that does not override a virtual member function of a
base class makes the program ill-formed. -/
def override_well_formed (base derived : MemberFunctionDecl) : Bool :=
  !derived.is_override || base.is_virtual

/-- Why a program that instantiates a class is rejected by the compiler. -/
inductive Diagnostic where
  | marked_override_but_does_not_override
deriving DecidableEq, Repr

/-- The function `in_state(state)` of app.h (lines 63-66):
`std::make_shared<entity::condition_state<T>>(state)` needs the class
`condition_state<T>` complete, and completing it checks its member `if_run` against
the member of the base class `condition`. When the check fails the program that calls
`in_state` is rejected and no condition exists; otherwise the result is a
`condition_state<T>` behind a `std::shared_ptr<condition>`. -/
def in_state (State_T state : Nat) : Except Diagnostic condition :=
  if override_well_formed condition_if_run_decl condition_state_if_run_decl then
    .ok (.condition_state State_T state)
  else .error .marked_override_but_does_not_override

/-- The member `SystemRunner::add_system(node)` (entity.h lines 93-95). -/
def SystemRunner.add_system (runner : SystemRunner) (node : Nat) : SystemRunner :=
  { runner with systems_all := runner.systems_all ++ [node] }

/-- The local `runner` of `load_runner<T>` after its loop over `m_systems` (entity.h
lines 382-389). The `scheduler` of a node is never null. -/
def load_runner_loop (deps : Deps) (T : Nat) (app : App) : SystemRunner :=
  app.m_systems.foldl (fun runner node =>
    match app.heap[node]? with
    | none => runner
    | some n =>
      if dynamic_cast deps T n.scheduler then runner.add_system node else runner) {}

/-- The call `m.insert(std::make_pair(key, value))` of an `unordered_map`: nothing is
inserted when the key is present. -/
def map_insert {α : Type} (m : Nat → Option α) (key : Nat) (value : α) : Nat → Option α :=
  match m key with
  | some _ => m
  | none => map_set m key value

/-- The member `load_runner<T>()` (entity.h lines 380-391). -/
def load_runner (deps : Deps) (T : Nat) (app : App) : App :=
  { app with m_runners := map_insert app.m_runners T (load_runner_loop deps T app) }

/-! ## The call `std::sort` (entity.h lines 100 and 107)

`std::sort` is not code of the repository: what a call returns is fixed by the standard
library the program is built with. The definitions below follow the implementation of
libstdc++ (GCC 12, `bits/stl_algo.h` and `bits/stl_heap.h`): `__introsort_loop` down to
ranges of at most 16 elements, with heap sort once the depth limit is used up, and then
`__final_insertion_sort`. The vector is a list of node indices, an iterator is a
position in it, and `comp` is the comparison object applied to two elements. -/

/-- The constant `_S_threshold` of `stl_algo.h`. -/
def S_threshold : Nat := 16

/-- The loop of `std::__lg(n)`: the position of the highest set bit. -/
def lg_loop : Nat → Nat → Nat
  | 0, _ => 0
  | fuel + 1, n => if 2 ≤ n then lg_loop fuel (n / 2) + 1 else 0

/-- The function `std::__lg(n)` of `stl_algobase.h` for `n > 0`: the floor of the binary
logarithm. Halving `n` times from `n` always ends. -/
def lg (n : Nat) : Nat :=
  lg_loop n n

/-- The call `std::iter_swap(i, j)` on two positions of the vector. -/
def iter_swap (a : List Nat) (i j : Nat) : List Nat :=
  (a.set i (a.getD j 0)).set j (a.getD i 0)

/-- The function `std::__move_median_to_first(result, a, b, c, comp)` (`stl_algo.h`
lines 82-99). -/
def move_median_to_first (comp : Nat → Nat → Bool) (v : List Nat) (result a b c : Nat) :
    List Nat :=
  if comp (v.getD a 0) (v.getD b 0) then
    if comp (v.getD b 0) (v.getD c 0) then iter_swap v result b
    else if comp (v.getD a 0) (v.getD c 0) then iter_swap v result c
    else iter_swap v result a
  else if comp (v.getD a 0) (v.getD c 0) then iter_swap v result a
  else if comp (v.getD b 0) (v.getD c 0) then iter_swap v result c
  else iter_swap v result b

/-- The loop `while (comp(first, pivot)) ++first;` of `__unguarded_partition`; it is
given as many steps as there are positions from `first` to the end of the vector. -/
def partition_scan_up (comp : Nat → Nat → Bool) (v : List Nat) (pivot : Nat) :
    Nat → Nat → Nat
  | 0, first => first
  | fuel + 1, first =>
    if comp (v.getD first 0) (v.getD pivot 0) then
      partition_scan_up comp v pivot fuel (first + 1)
    else first

/-- The loop `while (comp(pivot, last)) --last;` of `__unguarded_partition`; it stops at
the first position of the vector at the latest. -/
def partition_scan_down (comp : Nat → Nat → Bool) (v : List Nat) (pivot : Nat) : Nat → Nat
  | 0 => 0
  | last + 1 =>
    if comp (v.getD pivot 0) (v.getD (last + 1) 0) then
      partition_scan_down comp v pivot last
    else last + 1

/-- The loop `while (true)` of `std::__unguarded_partition(first, last, pivot, comp)`
(`stl_algo.h` lines 1861-1878): the vector and the position returned. Every turn but the
last moves `first` up by at least one position below `last`, so the turns are at most the
length of the vector. -/
def unguarded_partition_loop (comp : Nat → Nat → Bool) (pivot : Nat) :
    Nat → List Nat → Nat → Nat → List Nat × Nat
  | 0, v, first, _ => (v, first)
  | fuel + 1, v, first, last =>
    let first := partition_scan_up comp v pivot (v.length - first) first
    let last := last - 1
    let last := partition_scan_down comp v pivot last
    if !(decide (first < last)) then (v, first)
    else unguarded_partition_loop comp pivot fuel (iter_swap v first last) (first + 1) last

/-- The function `std::__unguarded_partition(first, last, pivot, comp)`. -/
def unguarded_partition (comp : Nat → Nat → Bool) (v : List Nat) (first last pivot : Nat) :
    List Nat × Nat :=
  unguarded_partition_loop comp pivot v.length v first last

/-- The function `std::__unguarded_partition_pivot(first, last, comp)` (`stl_algo.h`
lines 1883-1890). -/
def unguarded_partition_pivot (comp : Nat → Nat → Bool) (v : List Nat) (first last : Nat) :
    List Nat × Nat :=
  let mid := first + (last - first) / 2
  let v := move_median_to_first comp v first (first + 1) mid (last - 1)
  unguarded_partition comp v (first + 1) last first

/-- The function `std::__push_heap(first, holeIndex, topIndex, value, comp)`
(`stl_heap.h` lines 135-147); the first argument counts the turns of the loop, of which
there are at most `holeIndex` since the hole moves to a smaller index in each. -/
def push_heap (comp : Nat → Nat → Bool) (first topIndex value : Nat) :
    Nat → List Nat → Nat → List Nat
  | 0, v, holeIndex => v.set (first + holeIndex) value
  | fuel + 1, v, holeIndex =>
    let parent := (holeIndex - 1) / 2
    if decide (holeIndex > topIndex) && comp (v.getD (first + parent) 0) value then
      push_heap comp first topIndex value fuel
        (v.set (first + holeIndex) (v.getD (first + parent) 0)) parent
    else v.set (first + holeIndex) value

/-- The first loop of `std::__adjust_heap` (`stl_heap.h` lines 229-237): the vector,
`holeIndex` and `secondChild` after it. `secondChild` grows in each turn and stays below
`len`. -/
def adjust_heap_loop (comp : Nat → Nat → Bool) (first len : Nat) :
    Nat → List Nat → Nat → Nat → List Nat × Nat × Nat
  | 0, v, holeIndex, secondChild => (v, holeIndex, secondChild)
  | fuel + 1, v, holeIndex, secondChild =>
    if secondChild < (len - 1) / 2 then
      let secondChild := 2 * (secondChild + 1)
      let secondChild :=
        if comp (v.getD (first + secondChild) 0) (v.getD (first + (secondChild - 1)) 0) then
          secondChild - 1
        else secondChild
      let v := v.set (first + holeIndex) (v.getD (first + secondChild) 0)
      adjust_heap_loop comp first len fuel v secondChild secondChild
    else (v, holeIndex, secondChild)

/-- The function `std::__adjust_heap(first, holeIndex, len, value, comp)` (`stl_heap.h`
lines 224-249). `len` is a signed distance: for `len` zero the quotient `(len - 2) / 2` is
negative and equals no `secondChild`, which the test `2 ≤ len` says here. -/
def adjust_heap (comp : Nat → Nat → Bool) (v : List Nat) (first holeIndex len value : Nat) :
    List Nat :=
  let topIndex := holeIndex
  let r := adjust_heap_loop comp first len len v holeIndex holeIndex
  let v := r.1
  let holeIndex := r.2.1
  let secondChild := r.2.2
  let r :=
    if len % 2 == 0 && decide (2 ≤ len) && secondChild == (len - 2) / 2 then
      let secondChild := 2 * (secondChild + 1)
      (v.set (first + holeIndex) (v.getD (first + (secondChild - 1)) 0), secondChild - 1)
    else (v, holeIndex)
  push_heap comp first topIndex value r.2 r.1 r.2

/-- The function `std::__pop_heap(first, last, result, comp)` (`stl_heap.h` lines
254-267). -/
def pop_heap (comp : Nat → Nat → Bool) (v : List Nat) (first last result : Nat) : List Nat :=
  let value := v.getD result 0
  let v := v.set result (v.getD first 0)
  adjust_heap comp v first 0 (last - first) value

/-- The loop `while (true)` of `std::__make_heap` (`stl_heap.h` lines 352-361), by the
value of `parent`. -/
def make_heap_loop (comp : Nat → Nat → Bool) (first len : Nat) : Nat → List Nat → List Nat
  | 0, v => adjust_heap comp v first 0 len (v.getD (first + 0) 0)
  | parent + 1, v =>
    make_heap_loop comp first len parent
      (adjust_heap comp v first (parent + 1) len (v.getD (first + (parent + 1)) 0))

/-- The function `std::__make_heap(first, last, comp)` (`stl_heap.h` lines 340-362). -/
def make_heap (comp : Nat → Nat → Bool) (v : List Nat) (first last : Nat) : List Nat :=
  if last - first < 2 then v
  else
    let len := last - first
    make_heap_loop comp first len ((len - 2) / 2) v

/-- The function `std::__sort_heap(first, last, comp)` (`stl_heap.h` lines 419-427), by
the value of `last`. -/
def sort_heap (comp : Nat → Nat → Bool) (first : Nat) : Nat → List Nat → List Nat
  | 0, v => v
  | last + 1, v =>
    if (last + 1) - first > 1 then sort_heap comp first last (pop_heap comp v first last last)
    else v

/-- The function `std::__heap_select(first, middle, last, comp)` (`stl_algo.h` lines
1625-1633). -/
def heap_select (comp : Nat → Nat → Bool) (v : List Nat) (first middle last : Nat) :
    List Nat :=
  (List.range' middle (last - middle)).foldl
    (fun v i =>
      if comp (v.getD i 0) (v.getD first 0) then pop_heap comp v first middle i else v)
    (make_heap comp v first middle)

/-- The function `std::__partial_sort(first, middle, last, comp)` (`stl_algo.h` lines
1895-1902). -/
def partial_sort (comp : Nat → Nat → Bool) (v : List Nat) (first middle last : Nat) :
    List Nat :=
  sort_heap comp first middle (heap_select comp v first middle last)

/-- The function `std::__introsort_loop(first, last, depth_limit, comp)` (`stl_algo.h`
lines 1908-1925), by the value of `depth_limit`, which each turn of the loop lowers by one
before the call on the upper part and the next turn on the lower part. -/
def introsort_loop (comp : Nat → Nat → Bool) : Nat → List Nat → Nat → Nat → List Nat
  | 0, v, first, last =>
    if last - first > S_threshold then partial_sort comp v first last last else v
  | depth_limit + 1, v, first, last =>
    if last - first > S_threshold then
      let r := unguarded_partition_pivot comp v first last
      let cut := r.2
      let v := introsort_loop comp depth_limit r.1 cut last
      introsort_loop comp depth_limit v first cut
    else v

/-- The loop of `std::__unguarded_linear_insert(last, comp)` (`stl_algo.h` lines
1782-1797) with the value `val` taken out of the vector, by the value of `last`. The
element before the first position of the vector cannot be read: the loop ends there. -/
def unguarded_linear_insert_loop (comp : Nat → Nat → Bool) (val : Nat) :
    Nat → List Nat → List Nat
  | 0, v => v.set 0 val
  | next + 1, v =>
    if comp val (v.getD next 0) then
      unguarded_linear_insert_loop comp val next (v.set (next + 1) (v.getD next 0))
    else v.set (next + 1) val

/-- The function `std::__unguarded_linear_insert(last, comp)`. -/
def unguarded_linear_insert (comp : Nat → Nat → Bool) (v : List Nat) (last : Nat) : List Nat :=
  unguarded_linear_insert_loop comp (v.getD last 0) last v

/-- The call `std::move_backward(first, last, result)`: the elements of the positions
from `first` up to `last` are moved so that they end before `result`. -/
def move_backward (v : List Nat) (first last result : Nat) : List Nat :=
  v.take (result - (last - first)) ++ ((v.drop first).take (last - first) ++ v.drop result)

/-- One turn of the loop of `std::__insertion_sort(first, last, comp)` (`stl_algo.h` lines
1809-1820) at the position `i`, for a range that starts at the first position of the
vector. -/
def insertion_sort_turn (comp : Nat → Nat → Bool) (v : List Nat) (i : Nat) : List Nat :=
  if comp (v.getD i 0) (v.getD 0 0) then
    let val := v.getD i 0
    (move_backward v 0 i (i + 1)).set 0 val
  else unguarded_linear_insert comp v i

/-- The function `std::__insertion_sort(first, last, comp)` (`stl_algo.h` lines
1802-1821) on a range that starts at the first position of the vector. -/
def insertion_sort (comp : Nat → Nat → Bool) (v : List Nat) (last : Nat) : List Nat :=
  if last == 0 then v
  else (List.range' 1 (last - 1)).foldl (insertion_sort_turn comp) v

/-- The function `std::__unguarded_insertion_sort(first, last, comp)` (`stl_algo.h`
lines 1826-1833). -/
def unguarded_insertion_sort (comp : Nat → Nat → Bool) (v : List Nat) (first last : Nat) :
    List Nat :=
  (List.range' first (last - first)).foldl (unguarded_linear_insert comp) v

/-- The function `std::__final_insertion_sort(first, last, comp)` (`stl_algo.h` lines
1844-1855) on the whole vector. -/
def final_insertion_sort (comp : Nat → Nat → Bool) (v : List Nat) : List Nat :=
  if v.length > S_threshold then
    unguarded_insertion_sort comp (insertion_sort comp v S_threshold) S_threshold v.length
  else insertion_sort comp v v.length

/-- The call `std::sort(v.begin(), v.end(), comp)` (`stl_algo.h` lines 1932-1941): the
content of the vector after the call. -/
def std_sort (comp : Nat → Nat → Bool) (v : List Nat) : List Nat :=
  if v.length != 0 then
    final_insertion_sort comp (introsort_loop comp (lg v.length * 2) v 0 v.length)
  else v

/-- The member `SystemRunner::sort_depth()` (entity.h lines 106-112): the runner after
the call; `user_before_depth` is the value `SystemNode::user_before_depth()` returns for
each node. -/
def SystemRunner.sort_depth (user_before_depth : Nat → Nat) (runner : SystemRunner) :
    SystemRunner :=
  { runner with
    systems_all :=
      std_sort (fun a b => decide (user_before_depth a < user_before_depth b))
        runner.systems_all }

/-- The property of the states that registration reaches: the registered systems are the
allocated nodes in the order of their creation, and the scheduler object of every node
is of the type recorded in its `scheduler_type`. -/
def systems_registered (app : App) : Prop :=
  app.m_systems = List.range app.heap.length
    ∧ ∀ m, scheduler_of app.heap m = stage_type_of app.heap m

/-- The app in which the member `in_main_thread` of the node behind `node` is `in_main`
and everything else is as in `app`. -/
def with_in_main_thread (node : Nat) (in_main : Bool) (app : App) : App :=
  { app with
    heap := update_node app.heap node (fun n => { n with in_main_thread := in_main }) }
/-! ## Loop lemmas -/

theorem contains_true_iff (xs : List TypeInfo) (ty : TypeInfo) :
    xs.contains ty = true ↔ ty ∈ xs := by
  simp

theorem mark_found2_eq (xs ys zs : List TypeInfo) (flag : Bool) :
    mark_found2 xs ys zs flag
      = (flag || xs.any (fun ty => ys.contains ty || zs.contains ty)) := by
  unfold mark_found2
  induction xs generalizing flag with
  | nil => simp
  | cons x xs ih =>
    simp only [List.foldl_cons, List.any_cons]
    rw [ih]
    cases flag <;> cases ys.contains x <;> cases zs.contains x <;> simp

theorem mark_found1_eq (xs ys : List TypeInfo) (flag : Bool) :
    mark_found1 xs ys flag = (flag || xs.any (fun ty => ys.contains ty)) := by
  unfold mark_found1
  induction xs generalizing flag with
  | nil => simp
  | cons x xs ih =>
    simp only [List.foldl_cons, List.any_cons]
    rw [ih]
    cases flag <;> cases ys.contains x <;> simp

/-! ## The descriptor as a function of the parameter list -/

theorem add_infos_has_command (s : BasicSystem) (ps : List Param) :
    (add_infos s ps).has_command = (s.has_command || ps.any Param.is_command) := by
  induction ps generalizing s with
  | nil => simp [add_infos]
  | cons p ps ih =>
    rw [add_infos, ih]
    cases p <;> simp [add_infos_inernal, infos_adder, Param.is_command]
    split <;> simp

theorem add_infos_has_query (s : BasicSystem) (ps : List Param) :
    (add_infos s ps).has_query = (s.has_query || ps.any Param.is_query) := by
  induction ps generalizing s with
  | nil => simp [add_infos]
  | cons p ps ih =>
    rw [add_infos, ih]
    cases p <;> simp [add_infos_inernal, infos_adder, Param.is_query]
    split <;> simp

theorem add_infos_query_types (s : BasicSystem) (ps : List Param) :
    (add_infos s ps).query_types = s.query_types := by
  induction ps generalizing s with
  | nil => simp [add_infos]
  | cons p ps ih =>
    rw [add_infos, ih]
    cases p <;> simp [add_infos_inernal, infos_adder]
    split <;> simp

theorem add_infos_resource_types (s : BasicSystem) (ps : List Param) :
    (add_infos s ps).resource_types = s.resource_types ++ ps.filterMap Param.resource_mut := by
  induction ps generalizing s with
  | nil => simp [add_infos]
  | cons p ps ih =>
    rw [add_infos, ih]
    cases p <;> simp [add_infos_inernal, infos_adder, Param.resource_mut, info_add]
    split <;> simp_all [List.filterMap_cons, Param.resource_mut]

theorem add_infos_resource_const (s : BasicSystem) (ps : List Param) :
    (add_infos s ps).resource_const = s.resource_const ++ ps.filterMap Param.resource_ro := by
  induction ps generalizing s with
  | nil => simp [add_infos]
  | cons p ps ih =>
    rw [add_infos, ih]
    cases p <;> simp [add_infos_inernal, infos_adder, Param.resource_ro, info_add]
    split <;> simp_all [List.filterMap_cons, Param.resource_ro]

theorem add_infos_event_read_types (s : BasicSystem) (ps : List Param) :
    (add_infos s ps).event_read_types
      = s.event_read_types ++ ps.filterMap Param.event_read := by
  induction ps generalizing s with
  | nil => simp [add_infos]
  | cons p ps ih =>
    rw [add_infos, ih]
    cases p <;> simp [add_infos_inernal, infos_adder, Param.event_read, info_add]
    split <;> simp

theorem add_infos_event_write_types (s : BasicSystem) (ps : List Param) :
    (add_infos s ps).event_write_types
      = s.event_write_types ++ ps.filterMap Param.event_write := by
  induction ps generalizing s with
  | nil => simp [add_infos]
  | cons p ps ih =>
    rw [add_infos, ih]
    cases p <;> simp [add_infos_inernal, infos_adder, Param.event_write, info_add]
    split <;> simp

theorem add_infos_state_types (s : BasicSystem) (ps : List Param) :
    (add_infos s ps).state_types = s.state_types ++ ps.filterMap Param.state_read := by
  induction ps generalizing s with
  | nil => simp [add_infos]
  | cons p ps ih =>
    rw [add_infos, ih]
    cases p <;> simp [add_infos_inernal, infos_adder, Param.state_read, info_add]
    split <;> simp

theorem add_infos_next_state_types (s : BasicSystem) (ps : List Param) :
    (add_infos s ps).next_state_types
      = s.next_state_types ++ ps.filterMap Param.state_next_write := by
  induction ps generalizing s with
  | nil => simp [add_infos]
  | cons p ps ih =>
    rw [add_infos, ih]
    cases p <;> simp [add_infos_inernal, infos_adder, Param.state_next_write, info_add]
    split <;> simp

theorem add_infos_avg_time (s : BasicSystem) (ps : List Param) :
    (add_infos s ps).avg_time = s.avg_time := by
  induction ps generalizing s with
  | nil => simp [add_infos]
  | cons p ps ih =>
    rw [add_infos, ih]
    cases p <;> simp [add_infos_inernal, infos_adder]
    split <;> simp

/-- With no stored query tuple on the calling side the query loops do not run, and
`contrary_to` is the disjunction of its two early returns and the three remaining
flags. -/
theorem contrary_to_of_query_types_nil
    (end_ne : List TypeInfo → List TypeInfo → TypeInfo → Bool) (a b : BasicSystem)
    (h : a.query_types = []) :
    contrary_to end_ne a b =
      ((a.has_command && (b.has_command || b.has_query))
        || (a.has_query && (b.has_command || b.has_query))
        || (!(a.resource_types.isEmpty || b.resource_types.isEmpty))
        || (a.event_write_types.any
              (fun ty => b.event_write_types.contains ty || b.event_read_types.contains ty)
            || b.event_write_types.any
              (fun ty => a.event_write_types.contains ty || a.event_read_types.contains ty))
        || (a.next_state_types.any (fun ty => b.next_state_types.contains ty)
            || b.next_state_types.any (fun ty => a.next_state_types.contains ty))) := by
  unfold contrary_to
  simp only [h, List.foldl_nil, mark_found2_eq, mark_found1_eq]
  cases a.has_command <;> cases a.has_query <;> cases b.has_command <;> cases b.has_query <;>
    cases a.resource_types.isEmpty <;> cases b.resource_types.isEmpty <;> simp

/-! ## Descriptors of constructed systems -/

theorem System_has_command (ps : List Param) :
    (System ps).has_command = ps.any Param.is_command := by
  simp [System, add_infos_has_command]

theorem System_has_query (ps : List Param) :
    (System ps).has_query = ps.any Param.is_query := by
  simp [System, add_infos_has_query]

theorem System_query_types (ps : List Param) : (System ps).query_types = [] := by
  simp [System, add_infos_query_types]

theorem System_resource_types (ps : List Param) :
    (System ps).resource_types = ps.filterMap Param.resource_mut := by
  simp [System, add_infos_resource_types]

theorem System_resource_const (ps : List Param) :
    (System ps).resource_const = ps.filterMap Param.resource_ro := by
  simp [System, add_infos_resource_const]

theorem System_event_read_types (ps : List Param) :
    (System ps).event_read_types = ps.filterMap Param.event_read := by
  simp [System, add_infos_event_read_types]

theorem System_event_write_types (ps : List Param) :
    (System ps).event_write_types = ps.filterMap Param.event_write := by
  simp [System, add_infos_event_write_types]

theorem System_state_types (ps : List Param) :
    (System ps).state_types = ps.filterMap Param.state_read := by
  simp [System, add_infos_state_types]

theorem System_next_state_types (ps : List Param) :
    (System ps).next_state_types = ps.filterMap Param.state_next_write := by
  simp [System, add_infos_next_state_types]

/-- The conflict check between two constructed systems, in terms of their parameter
lists. -/
theorem contrary_to_System
    (end_ne : List TypeInfo → List TypeInfo → TypeInfo → Bool) (ps qs : List Param) :
    contrary_to end_ne (System ps) (System qs) =
      ((ps.any Param.is_command && (qs.any Param.is_command || qs.any Param.is_query))
        || (ps.any Param.is_query && (qs.any Param.is_command || qs.any Param.is_query))
        || (!((ps.filterMap Param.resource_mut).isEmpty
              || (qs.filterMap Param.resource_mut).isEmpty))
        || ((ps.filterMap Param.event_write).any
              (fun ty => (qs.filterMap Param.event_write).contains ty
                || (qs.filterMap Param.event_read).contains ty)
            || (qs.filterMap Param.event_write).any
              (fun ty => (ps.filterMap Param.event_write).contains ty
                || (ps.filterMap Param.event_read).contains ty))
        || ((ps.filterMap Param.state_next_write).any
              (fun ty => (qs.filterMap Param.state_next_write).contains ty)
            || (qs.filterMap Param.state_next_write).any
              (fun ty => (ps.filterMap Param.state_next_write).contains ty))) := by
  rw [contrary_to_of_query_types_nil end_ne _ _ (System_query_types ps)]
  simp only [System_has_command, System_has_query, System_resource_types,
    System_event_read_types, System_event_write_types, System_next_state_types]

theorem any_is_command_iff (ps : List Param) :
    ps.any Param.is_command = true ↔ Param.Command ∈ ps := by
  simp only [List.any_eq_true]
  constructor
  · rintro ⟨p, hp, h⟩
    cases p <;> simp [Param.is_command] at h
    exact hp
  · intro h
    exact ⟨_, h, rfl⟩

theorem any_is_query_iff (ps : List Param) :
    ps.any Param.is_query = true ↔ ∃ i w x, Param.Query i w x ∈ ps := by
  simp only [List.any_eq_true]
  constructor
  · rintro ⟨p, hp, h⟩
    cases p <;> simp [Param.is_query] at h
    exact ⟨_, _, _, hp⟩
  · rintro ⟨i, w, x, h⟩
    exact ⟨_, h, rfl⟩

/-! ## Claims about the conflict check and the descriptor -/

/-- C1 (the code at the failing input): a system whose only parameter is a mutable
`Resource<X>` and a system whose only parameter is `Resource<const X>` are NOT reported
as conflicting, in either direction: the side with no mutable resource makes
`resource_one_empty` true and the search of `resource_const` is skipped. -/
theorem C1_resource_mut_vs_const_not_contrary
    (end_ne : List TypeInfo → List TypeInfo → TypeInfo → Bool) (X : TypeInfo) :
    contrary_to end_ne (System [.Resource ⟨X, false⟩]) (System [.Resource ⟨X, true⟩]) = false
      ∧ contrary_to end_ne (System [.Resource ⟨X, true⟩]) (System [.Resource ⟨X, false⟩])
          = false := by
  constructor <;> rfl

/-- C2 (the code at the failing input): two systems that each write one resource are
reported as conflicting whatever the two resource types are, in particular for
`Resource<X>` against `Resource<Y>` with `X ≠ Y`: `resource_contrary` starts as
`!resource_one_empty`, which is true as soon as both sides write some resource. -/
theorem C2_distinct_resource_writers_contrary
    (end_ne : List TypeInfo → List TypeInfo → TypeInfo → Bool) (X Y : TypeInfo) :
    contrary_to end_ne (System [.Resource ⟨X, false⟩]) (System [.Resource ⟨Y, false⟩])
      = true := by
  rw [contrary_to_System]
  simp [Param.resource_mut, Param.is_command, Param.is_query]

/-- C4: if either parameter list contains `Command` and the other contains `Command` or
some `Query`, then `contrary_to` between the two constructed systems is true. -/
theorem C4_command_conflicts
    (end_ne : List TypeInfo → List TypeInfo → TypeInfo → Bool) (ps qs : List Param)
    (h : (Param.Command ∈ ps ∧ (Param.Command ∈ qs ∨ ∃ i w x, Param.Query i w x ∈ qs))
      ∨ (Param.Command ∈ qs ∧ (Param.Command ∈ ps ∨ ∃ i w x, Param.Query i w x ∈ ps))) :
    contrary_to end_ne (System ps) (System qs) = true := by
  rw [contrary_to_System]
  simp only [← any_is_command_iff, ← any_is_query_iff] at h
  rcases h with ⟨h1, h2 | h2⟩ | ⟨h1, h2 | h2⟩ <;> simp [h1, h2]

/-- C4 at a concrete pair: a system with `Command` against a system with a query. -/
theorem C4_command_conflicts_witness :
    contrary_to (fun _ _ _ => false) (System [.Command, .Resource ⟨1, true⟩])
        (System [.Query [⟨2, false⟩] [] []]) = true
      ∧ contrary_to (fun _ _ _ => false) (System [.Query [⟨2, false⟩] [] []])
        (System [.Command, .Resource ⟨1, true⟩]) = true :=
  ⟨C4_command_conflicts _ _ _ (Or.inl ⟨by decide, Or.inr ⟨[⟨2, false⟩], [], [], by decide⟩⟩),
   C4_command_conflicts _ _ _ (Or.inr ⟨by decide, Or.inr ⟨[⟨2, false⟩], [], [], by decide⟩⟩)⟩

theorem mem_filterMap_resource_mut (ps : List Param) (ty : TypeInfo) :
    ty ∈ ps.filterMap Param.resource_mut ↔ Param.Resource ⟨ty, false⟩ ∈ ps := by
  simp only [List.mem_filterMap]
  constructor
  · rintro ⟨p, hp, h⟩
    cases p <;> simp [Param.resource_mut] at h
    rename_i t
    obtain ⟨h1, h2⟩ := h
    cases t
    simp_all
  · intro h
    exact ⟨_, h, by simp [Param.resource_mut]⟩

theorem mem_filterMap_resource_ro (ps : List Param) (ty : TypeInfo) :
    ty ∈ ps.filterMap Param.resource_ro ↔ Param.Resource ⟨ty, true⟩ ∈ ps := by
  simp only [List.mem_filterMap]
  constructor
  · rintro ⟨p, hp, h⟩
    cases p <;> simp [Param.resource_ro] at h
    rename_i t
    obtain ⟨h1, h2⟩ := h
    cases t
    simp_all
  · intro h
    exact ⟨_, h, by simp [Param.resource_ro]⟩

theorem mem_filterMap_event_read (ps : List Param) (ty : TypeInfo) :
    ty ∈ ps.filterMap Param.event_read ↔ ∃ a, Param.EventReader a ∈ ps ∧ a.id = ty := by
  simp only [List.mem_filterMap]
  constructor
  · rintro ⟨p, hp, h⟩
    cases p <;> simp [Param.event_read] at h
    exact ⟨_, hp, h⟩
  · rintro ⟨a, h, rfl⟩
    exact ⟨_, h, rfl⟩

theorem mem_filterMap_event_write (ps : List Param) (ty : TypeInfo) :
    ty ∈ ps.filterMap Param.event_write ↔ ∃ a, Param.EventWriter a ∈ ps ∧ a.id = ty := by
  simp only [List.mem_filterMap]
  constructor
  · rintro ⟨p, hp, h⟩
    cases p <;> simp [Param.event_write] at h
    exact ⟨_, hp, h⟩
  · rintro ⟨a, h, rfl⟩
    exact ⟨_, h, rfl⟩

theorem mem_filterMap_state_read (ps : List Param) (ty : TypeInfo) :
    ty ∈ ps.filterMap Param.state_read ↔ ∃ a, Param.State a ∈ ps ∧ a.id = ty := by
  simp only [List.mem_filterMap]
  constructor
  · rintro ⟨p, hp, h⟩
    cases p <;> simp [Param.state_read] at h
    exact ⟨_, hp, h⟩
  · rintro ⟨a, h, rfl⟩
    exact ⟨_, h, rfl⟩

theorem mem_filterMap_state_next_write (ps : List Param) (ty : TypeInfo) :
    ty ∈ ps.filterMap Param.state_next_write ↔ ∃ a, Param.NextState a ∈ ps ∧ a.id = ty := by
  simp only [List.mem_filterMap]
  constructor
  · rintro ⟨p, hp, h⟩
    cases p <;> simp [Param.state_next_write] at h
    exact ⟨_, hp, h⟩
  · rintro ⟨a, h, rfl⟩
    exact ⟨_, h, rfl⟩

/-- A parameter list made of event readers and writers only has no command, no query,
no mutable resource and no next-state. -/
theorem only_events_facts (ps : List Param)
    (hps : ∀ p ∈ ps, ∃ t, p = Param.EventReader t ∨ p = Param.EventWriter t) :
    ps.any Param.is_command = false ∧ ps.any Param.is_query = false
      ∧ ps.filterMap Param.resource_mut = [] ∧ ps.filterMap Param.state_next_write = [] := by
  refine ⟨?_, ?_, ?_, ?_⟩
  · rw [List.any_eq_false]
    intro p hp
    obtain ⟨t, rfl | rfl⟩ := hps p hp <;> simp [Param.is_command]
  · rw [List.any_eq_false]
    intro p hp
    obtain ⟨t, rfl | rfl⟩ := hps p hp <;> simp [Param.is_query]
  · rw [List.filterMap_eq_nil_iff]
    intro p hp
    obtain ⟨t, rfl | rfl⟩ := hps p hp <;> simp [Param.resource_mut]
  · rw [List.filterMap_eq_nil_iff]
    intro p hp
    obtain ⟨t, rfl | rfl⟩ := hps p hp <;> simp [Param.state_next_write]

/-- A parameter list made of `State` and `NextState` only has no command, no query,
no mutable resource and no event writer. -/
theorem only_states_facts (ps : List Param)
    (hps : ∀ p ∈ ps, ∃ t, p = Param.State t ∨ p = Param.NextState t) :
    ps.any Param.is_command = false ∧ ps.any Param.is_query = false
      ∧ ps.filterMap Param.resource_mut = [] ∧ ps.filterMap Param.event_write = [] := by
  refine ⟨?_, ?_, ?_, ?_⟩
  · rw [List.any_eq_false]
    intro p hp
    obtain ⟨t, rfl | rfl⟩ := hps p hp <;> simp [Param.is_command]
  · rw [List.any_eq_false]
    intro p hp
    obtain ⟨t, rfl | rfl⟩ := hps p hp <;> simp [Param.is_query]
  · rw [List.filterMap_eq_nil_iff]
    intro p hp
    obtain ⟨t, rfl | rfl⟩ := hps p hp <;> simp [Param.resource_mut]
  · rw [List.filterMap_eq_nil_iff]
    intro p hp
    obtain ⟨t, rfl | rfl⟩ := hps p hp <;> simp [Param.event_write]

/-- C5: when both parameter lists contain a query, some type is fetched mutably by a
query of one list and fetched (mutably or read-only) by a query of the other, and
neither query lists in its Without a type the other query fetches, then `contrary_to`
between the two constructed systems is true, in both directions. (The second early
return of `contrary_to` fires for any two systems that both have a query.) -/
theorem C5_overlapping_queries_conflict
    (end_ne : List TypeInfo → List TypeInfo → TypeInfo → Bool) (ps qs : List Param)
    (ia wa xa ib wb xb : List TypeArg) (ty : TypeInfo) (c : Bool)
    (ha : Param.Query ia wa xa ∈ ps) (hb : Param.Query ib wb xb ∈ qs)
    (_hmut : (⟨ty, false⟩ : TypeArg) ∈ ia) (_hother : (⟨ty, c⟩ : TypeArg) ∈ ib)
    (_hsep_a : ∀ x ∈ xa, ∀ y ∈ ib, x.id ≠ y.id)
    (_hsep_b : ∀ x ∈ xb, ∀ y ∈ ia, x.id ≠ y.id) :
    contrary_to end_ne (System ps) (System qs) = true
      ∧ contrary_to end_ne (System qs) (System ps) = true := by
  have hp : ps.any Param.is_query = true := (any_is_query_iff ps).2 ⟨_, _, _, ha⟩
  have hq : qs.any Param.is_query = true := (any_is_query_iff qs).2 ⟨_, _, _, hb⟩
  constructor <;> rw [contrary_to_System] <;> simp [hp, hq]

/-- C5 at a concrete pair: `Query<Get<T1, const T2>, With<>, Without<T5>>` against
`Query<Get<const T1>, With<T3>>`. -/
theorem C5_overlapping_queries_conflict_witness :
    contrary_to (fun _ _ _ => false)
        (System [.Query [⟨1, false⟩, ⟨2, true⟩] [] [⟨5, false⟩]])
        (System [.Query [⟨1, true⟩] [⟨3, false⟩] []]) = true
      ∧ contrary_to (fun _ _ _ => false)
        (System [.Query [⟨1, true⟩] [⟨3, false⟩] []])
        (System [.Query [⟨1, false⟩, ⟨2, true⟩] [] [⟨5, false⟩]]) = true :=
  C5_overlapping_queries_conflict _ _ _ [⟨1, false⟩, ⟨2, true⟩] [] [⟨5, false⟩]
    [⟨1, true⟩] [⟨3, false⟩] [] 1 true (by decide) (by decide) (by decide) (by decide)
    (by decide) (by decide)

/-- C6 (the code at the failing inputs): `Query<Get<A>>` against `Query<Get<B>>` (any
`A`, `B`, so also `A ≠ B`) and `Query<Get<const A>>` against `Query<Get<const A>>` are
both reported as conflicting: the second early return fires whenever both sides have a
query, before any component type is looked at. -/
theorem C6_disjoint_queries_contrary
    (end_ne : List TypeInfo → List TypeInfo → TypeInfo → Bool) (A B : TypeInfo) :
    contrary_to end_ne (System [.Query [⟨A, false⟩] [] []])
        (System [.Query [⟨B, false⟩] [] []]) = true
      ∧ contrary_to end_ne (System [.Query [⟨A, true⟩] [] []])
        (System [.Query [⟨A, true⟩] [] []]) = true := by
  constructor <;> rfl

/-- C7: for two systems whose parameters are only `EventReader` and `EventWriter`,
`contrary_to` is true exactly when some event type is written by one side and read or
written by the other; and when both sides only read, it is false. -/
theorem C7_event_conflict_iff
    (end_ne : List TypeInfo → List TypeInfo → TypeInfo → Bool) (ps qs : List Param)
    (hps : ∀ p ∈ ps, ∃ t, p = Param.EventReader t ∨ p = Param.EventWriter t)
    (hqs : ∀ q ∈ qs, ∃ t, q = Param.EventReader t ∨ q = Param.EventWriter t) :
    (contrary_to end_ne (System ps) (System qs) = true ↔
      ∃ ty : TypeInfo,
        ((∃ a, Param.EventWriter a ∈ ps ∧ a.id = ty)
          ∧ ((∃ b, Param.EventWriter b ∈ qs ∧ b.id = ty)
            ∨ (∃ b, Param.EventReader b ∈ qs ∧ b.id = ty)))
        ∨ ((∃ a, Param.EventWriter a ∈ qs ∧ a.id = ty)
          ∧ ((∃ b, Param.EventWriter b ∈ ps ∧ b.id = ty)
            ∨ (∃ b, Param.EventReader b ∈ ps ∧ b.id = ty))))
      ∧ ((∀ p ∈ ps, ∃ t, p = Param.EventReader t) → (∀ q ∈ qs, ∃ t, q = Param.EventReader t) →
          contrary_to end_ne (System ps) (System qs) = false) := by
  obtain ⟨hpc, hpq, hpr, hpn⟩ := only_events_facts ps hps
  obtain ⟨hqc, hqq, hqr, hqn⟩ := only_events_facts qs hqs
  have key : contrary_to end_ne (System ps) (System qs) = true ↔
      ∃ ty : TypeInfo,
        (ty ∈ ps.filterMap Param.event_write
          ∧ (ty ∈ qs.filterMap Param.event_write ∨ ty ∈ qs.filterMap Param.event_read))
        ∨ (ty ∈ qs.filterMap Param.event_write
          ∧ (ty ∈ ps.filterMap Param.event_write ∨ ty ∈ ps.filterMap Param.event_read)) := by
    rw [contrary_to_System, hpc, hpq, hpr, hpn, hqc, hqq, hqr, hqn]
    simp only [Bool.false_and, Bool.false_or, List.isEmpty_nil, Bool.or_self, Bool.not_true,
      List.any_nil, Bool.or_false, Bool.or_eq_true, List.any_eq_true, 
      contains_true_iff]
    constructor
    · rintro (⟨ty, h1, h2⟩ | ⟨ty, h1, h2⟩)
      · exact ⟨ty, Or.inl ⟨h1, h2⟩⟩
      · exact ⟨ty, Or.inr ⟨h1, h2⟩⟩
    · rintro ⟨ty, ⟨h1, h2⟩ | ⟨h1, h2⟩⟩
      · exact Or.inl ⟨ty, h1, h2⟩
      · exact Or.inr ⟨ty, h1, h2⟩
  refine ⟨?_, ?_⟩
  · rw [key]
    simp only [mem_filterMap_event_write, mem_filterMap_event_read]
  · intro hp hq
    rw [← Bool.not_eq_true, key]
    rintro ⟨ty, ⟨h1, _⟩ | ⟨h1, _⟩⟩
    · obtain ⟨a, ha, _⟩ := (mem_filterMap_event_write ps ty).1 h1
      obtain ⟨t, ht⟩ := hp _ ha
      cases ht
    · obtain ⟨a, ha, _⟩ := (mem_filterMap_event_write qs ty).1 h1
      obtain ⟨t, ht⟩ := hq _ ha
      cases ht

/-- C7 at concrete systems: a writer of event 7 conflicts with a reader of events 7
and 8; a reader of event 7 does not. -/
theorem C7_event_conflict_iff_witness :
    (∀ p ∈ [Param.EventWriter ⟨7, false⟩],
        ∃ t, p = Param.EventReader t ∨ p = Param.EventWriter t)
      ∧ contrary_to (fun _ _ _ => false) (System [.EventWriter ⟨7, false⟩])
          (System [.EventReader ⟨7, false⟩, .EventReader ⟨8, false⟩]) = true
      ∧ contrary_to (fun _ _ _ => false) (System [.EventReader ⟨7, false⟩])
          (System [.EventReader ⟨7, false⟩, .EventReader ⟨8, false⟩]) = false :=
  ⟨by simp,
   (C7_event_conflict_iff _ [.EventWriter ⟨7, false⟩]
      [.EventReader ⟨7, false⟩, .EventReader ⟨8, false⟩] (by simp) (by simp)).1.2
      ⟨7, Or.inl ⟨⟨⟨7, false⟩, by simp, rfl⟩, Or.inr ⟨⟨7, false⟩, by simp, rfl⟩⟩⟩,
   (C7_event_conflict_iff _ [.EventReader ⟨7, false⟩]
      [.EventReader ⟨7, false⟩, .EventReader ⟨8, false⟩] (by simp) (by simp)).2
      (by simp) (by simp)⟩

/-- C8: for two systems whose parameters are only `State` and `NextState`,
`contrary_to` is true exactly when some state type occurs as `NextState` on both sides;
and a system with only `State` parameters conflicts with no such system, in either
direction. -/
theorem C8_state_conflict_iff
    (end_ne : List TypeInfo → List TypeInfo → TypeInfo → Bool) (ps qs : List Param)
    (hps : ∀ p ∈ ps, ∃ t, p = Param.State t ∨ p = Param.NextState t)
    (hqs : ∀ q ∈ qs, ∃ t, q = Param.State t ∨ q = Param.NextState t) :
    (contrary_to end_ne (System ps) (System qs) = true ↔
      ∃ ty : TypeInfo,
        (∃ a, Param.NextState a ∈ ps ∧ a.id = ty) ∧ (∃ b, Param.NextState b ∈ qs ∧ b.id = ty))
      ∧ ((∀ p ∈ ps, ∃ t, p = Param.State t) →
          contrary_to end_ne (System ps) (System qs) = false
            ∧ contrary_to end_ne (System qs) (System ps) = false) := by
  obtain ⟨hpc, hpq, hpr, hpn⟩ := only_states_facts ps hps
  obtain ⟨hqc, hqq, hqr, hqn⟩ := only_states_facts qs hqs
  have key : ∀ xs ys : List Param,
      xs.any Param.is_command = false → xs.any Param.is_query = false →
      xs.filterMap Param.resource_mut = [] → xs.filterMap Param.event_write = [] →
      ys.any Param.is_command = false → ys.any Param.is_query = false →
      ys.filterMap Param.resource_mut = [] → ys.filterMap Param.event_write = [] →
      (contrary_to end_ne (System xs) (System ys) = true ↔
        ∃ ty : TypeInfo, ty ∈ xs.filterMap Param.state_next_write
          ∧ ty ∈ ys.filterMap Param.state_next_write) := by
    intro xs ys h1 h2 h3 h4 h5 h6 h7 h8
    rw [contrary_to_System, h1, h2, h3, h4, h5, h6, h7, h8]
    simp only [Bool.false_and, Bool.false_or, List.isEmpty_nil, Bool.or_self, Bool.not_true,
      List.any_nil, Bool.or_false, Bool.or_eq_true, List.any_eq_true, 
      contains_true_iff]
    constructor
    · rintro (⟨ty, h1, h2⟩ | ⟨ty, h1, h2⟩)
      · exact ⟨ty, h1, h2⟩
      · exact ⟨ty, h2, h1⟩
    · rintro ⟨ty, h1, h2⟩
      exact Or.inl ⟨ty, h1, h2⟩
  refine ⟨?_, ?_⟩
  · rw [key ps qs hpc hpq hpr hpn hqc hqq hqr hqn]
    simp only [mem_filterMap_state_next_write]
  · intro hp
    have hnone : ∀ ty, ty ∉ ps.filterMap Param.state_next_write := by
      intro ty h
      obtain ⟨a, ha, _⟩ := (mem_filterMap_state_next_write ps ty).1 h
      obtain ⟨t, ht⟩ := hp _ ha
      cases ht
    constructor
    · rw [← Bool.not_eq_true, key ps qs hpc hpq hpr hpn hqc hqq hqr hqn]
      rintro ⟨ty, h1, _⟩
      exact hnone ty h1
    · rw [← Bool.not_eq_true, key qs ps hqc hqq hqr hqn hpc hpq hpr hpn]
      rintro ⟨ty, _, h1⟩
      exact hnone ty h1

/-- C8 at concrete systems: two `NextState` writers of state 4 conflict; a `State`
reader of state 4 and a `NextState` writer of state 4 do not, in either direction. -/
theorem C8_state_conflict_iff_witness :
    (∀ p ∈ [Param.State ⟨4, false⟩, Param.NextState ⟨4, false⟩],
        ∃ t, p = Param.State t ∨ p = Param.NextState t)
      ∧ contrary_to (fun _ _ _ => false) (System [.State ⟨4, false⟩, .NextState ⟨4, false⟩])
          (System [.NextState ⟨4, false⟩]) = true
      ∧ contrary_to (fun _ _ _ => false) (System [.State ⟨4, false⟩])
          (System [.NextState ⟨4, false⟩]) = false
      ∧ contrary_to (fun _ _ _ => false) (System [.NextState ⟨4, false⟩])
          (System [.State ⟨4, false⟩]) = false :=
  ⟨by simp,
   (C8_state_conflict_iff _ [.State ⟨4, false⟩, .NextState ⟨4, false⟩]
      [.NextState ⟨4, false⟩] (by simp) (by simp)).1.2
      ⟨4, ⟨⟨4, false⟩, by simp, rfl⟩, ⟨⟨4, false⟩, by simp, rfl⟩⟩,
   (C8_state_conflict_iff _ [.State ⟨4, false⟩] [.NextState ⟨4, false⟩]
      (by simp) (by simp)).2 (by simp)⟩

/-- C9: the descriptor built by the constructor from a parameter list: `has_command`
holds iff the list contains `Command`, `has_query` iff it contains a `Query`, and the
six type lists are, in parameter order, the types of the non-const `Resource`, the const
`Resource`, the `EventReader`, the `EventWriter`, the `State` and the `NextState`
parameters; so a `Resource<const T>` adds `T` to `resource_const` only. -/
theorem C9_descriptor_of_parameters (ps : List Param) :
    ((System ps).has_command = true ↔ Param.Command ∈ ps)
      ∧ ((System ps).has_query = true ↔ ∃ i w x, Param.Query i w x ∈ ps)
      ∧ (System ps).resource_types = ps.filterMap Param.resource_mut
      ∧ (System ps).resource_const = ps.filterMap Param.resource_ro
      ∧ (System ps).event_read_types = ps.filterMap Param.event_read
      ∧ (System ps).event_write_types = ps.filterMap Param.event_write
      ∧ (System ps).state_types = ps.filterMap Param.state_read
      ∧ (System ps).next_state_types = ps.filterMap Param.state_next_write
      ∧ (∀ T : TypeInfo,
          (T ∈ (System ps).resource_types ↔ Param.Resource ⟨T, false⟩ ∈ ps)
          ∧ (T ∈ (System ps).resource_const ↔ Param.Resource ⟨T, true⟩ ∈ ps)
          ∧ (T ∈ (System ps).event_read_types ↔ ∃ a, Param.EventReader a ∈ ps ∧ a.id = T)
          ∧ (T ∈ (System ps).event_write_types ↔ ∃ a, Param.EventWriter a ∈ ps ∧ a.id = T)
          ∧ (T ∈ (System ps).state_types ↔ ∃ a, Param.State a ∈ ps ∧ a.id = T)
          ∧ (T ∈ (System ps).next_state_types ↔ ∃ a, Param.NextState a ∈ ps ∧ a.id = T)) := by
  refine ⟨?_, ?_, System_resource_types ps, System_resource_const ps,
    System_event_read_types ps, System_event_write_types ps, System_state_types ps,
    System_next_state_types ps, ?_⟩
  · rw [System_has_command, any_is_command_iff]
  · rw [System_has_query, any_is_query_iff]
  · intro T
    rw [System_resource_types, System_resource_const, System_event_read_types,
      System_event_write_types, System_state_types, System_next_state_types]
    exact ⟨mem_filterMap_resource_mut ps T, mem_filterMap_resource_ro ps T,
      mem_filterMap_event_read ps T, mem_filterMap_event_write ps T,
      mem_filterMap_state_read ps T, mem_filterMap_state_next_write ps T⟩

/-- C10 (the code at the failing input): the descriptor of every constructed system has
NO query tuple, whatever its parameter list; in particular a system whose only
parameter is `Query<Get<A, const B>, With<C>, Without<D>>` has an empty `query_types`,
although the adder did build the tuple `([A, C], [B], [D])` in its own copy. -/
theorem C10_query_types_never_stored (ps : List Param) (A B C D : TypeInfo) :
    (System ps).query_types = []
      ∧ (System [.Query [⟨A, false⟩, ⟨B, true⟩] [⟨C, false⟩] [⟨D, false⟩]]).query_types = []
      ∧ query_tuple [⟨A, false⟩, ⟨B, true⟩] [⟨C, false⟩] [⟨D, false⟩] = ([A, C], [B], [D]) :=
  ⟨System_query_types ps, rfl, rfl⟩

/-! ## The stage runner and the conflict predicate of the specification -/

theorem any_any_swap {α β : Type} (xs : List α) (ys : List β) (f : α → β → Bool) :
    xs.any (fun x => ys.any (fun y => f x y)) = ys.any (fun y => xs.any (fun x => f x y)) := by
  rw [Bool.eq_iff_iff]
  simp only [List.any_eq_true]
  constructor
  · rintro ⟨x, hx, y, hy, h⟩
    exact ⟨y, hy, x, hx, h⟩
  · rintro ⟨y, hy, x, hx, h⟩
    exact ⟨x, hx, y, hy, h⟩

theorem any_contains_swap (xs ys : List TypeInfo) :
    xs.any (fun ty => ys.contains ty) = ys.any (fun ty => xs.contains ty) := by
  rw [Bool.eq_iff_iff]
  simp only [List.any_eq_true, contains_true_iff]
  constructor
  · rintro ⟨x, hx, h⟩
    exact ⟨x, h, hx⟩
  · rintro ⟨x, hx, h⟩
    exact ⟨x, h, hx⟩

theorem spec_overlap_symm (qa qb : QueryTypes) : spec_overlap qa qb = spec_overlap qb qa := by
  unfold spec_overlap
  rw [Bool.or_comm]

theorem spec_separated_symm (qa qb : QueryTypes) :
    spec_separated qa qb = spec_separated qb qa := by
  unfold spec_separated
  rw [Bool.or_comm]

/-- The conflict predicate of section 4.2 is symmetric. -/
theorem spec_conflict_symm (a b : AccessDescriptor) : spec_conflict a b = spec_conflict b a := by
  unfold spec_conflict
  rw [any_any_swap a.queries b.queries, any_contains_swap a.state_next_write]
  simp only [spec_overlap_symm, spec_separated_symm]
  cases a.has_command <;> cases a.has_query <;> cases b.has_command <;> cases b.has_query <;>
    simp [Bool.or_comm]

/-- A node dispatched by a scan is not `contrary_to` any node in flight. -/
theorem scan_pending_dispatch (end_ne : List TypeInfo → List TypeInfo → TypeInfo → Bool)
    (node : Nat → StageNode) (conditions : Nat → Bool)
    (in_flight pending done : List Nat) (n : Nat)
    (h : (scan_pending end_ne node conditions in_flight pending done).2.2 = some n) :
    ∀ m ∈ in_flight, contrary_to end_ne (node n).system (node m).system = false := by
  induction pending generalizing done with
  | nil => simp [scan_pending] at h
  | cons p rest ih =>
    unfold scan_pending at h
    split at h
    · split at h
      · exact ih _ h
      · split at h
        · split at h
          · exact ih _ h
          · simp only [Option.some.injEq] at h
            subst h
            rename_i hc _
            intro m hm
            have := (List.all_eq_true.1 hc) m hm
            simpa using this
        · exact ih _ h
    · exact ih _ h

/-- After any sequence of scans and completions, a node in flight was not `contrary_to`
the nodes that were in flight before it and still are: this is all the guard of the
dispatcher gives. -/
theorem runner_run_not_contrary (end_ne : List TypeInfo → List TypeInfo → TypeInfo → Bool)
    (node : Nat → StageNode) (scan_order : List Nat) (events : List RunnerEvent) :
    (runner_run end_ne node scan_order events).in_flight.Pairwise (fun a b =>
      contrary_to end_ne (node a).system (node b).system = false) := by
  have step : ∀ (evs : List RunnerEvent) (s : RunnerState),
      s.in_flight.Pairwise (fun a b =>
        contrary_to end_ne (node a).system (node b).system = false) →
      (evs.foldl (runner_step end_ne node) s).in_flight.Pairwise (fun a b =>
        contrary_to end_ne (node a).system (node b).system = false) := by
    intro evs
    induction evs with
    | nil => intro s h; exact h
    | cons e evs ih =>
      intro s h
      apply ih
      cases e with
      | scan conditions =>
        unfold runner_step
        simp only
        split
        · rename_i n hn
          simp only [List.pairwise_cons]
          exact ⟨scan_pending_dispatch end_ne node conditions s.in_flight s.pending s.done n hn,
            h⟩
        · exact h
      | complete n =>
        unfold runner_step
        simp only
        split
        · exact h.sublist (List.erase_sublist n s.in_flight)
        · exact h
  exact step events (runner_init scan_order) List.Pairwise.nil

/-- A run of the modelled dispatcher on three nodes: node 0 writes resource 1, node 1
writes resource 1 too, node 2 writes event 2. After three scans nodes 0 and 2 are in
flight together and node 1 is held back; once node 0 completes, node 1 is dispatched. -/
theorem runner_run_example (end_ne : List TypeInfo → List TypeInfo → TypeInfo → Bool) :
    let node : Nat → StageNode := fun n =>
      match n with
      | 0 => ⟨[.Resource ⟨1, false⟩], [], false⟩
      | 1 => ⟨[.Resource ⟨1, false⟩], [], false⟩
      | _ => ⟨[.EventWriter ⟨2, false⟩], [], false⟩
    runner_run end_ne node [0, 1, 2] [.scan (fun _ => true), .scan (fun _ => true),
        .scan (fun _ => true)]
        = { pending := [1], in_flight := [2, 0], done := [] }
      ∧ runner_run end_ne node [0, 1, 2] [.scan (fun _ => true), .scan (fun _ => true),
        .complete 0, .scan (fun _ => true)]
        = { pending := [], in_flight := [1, 2], done := [0] } := by
  constructor <;> rfl

/-- C3: the stage runner of section 4.5, with the compatibility test of the repository
in its guard, does put two nodes in flight together whose access descriptors conflict
under the predicate of section 4.2. For every resource type `X`, in a stage of two nodes
without ordering edges and with conditions true, node 0 taking `Resource<X>` and node 1
taking `Resource<const X>`, two scan passes dispatch both: node 1 joins node 0 in flight
because `contrary_to` answers false for the pair in both directions, while rule 3 of
section 4.2 (node 0 writes a resource node 1 reads) makes the descriptors conflict. -/
theorem C3_writer_and_reader_in_flight_together
    (end_ne : List TypeInfo → List TypeInfo → TypeInfo → Bool) (X : TypeInfo) :
    let node : Nat → StageNode := fun n =>
      match n with
      | 0 => ⟨[.Resource ⟨X, false⟩], [], false⟩
      | _ => ⟨[.Resource ⟨X, true⟩], [], false⟩
    runner_run end_ne node [0, 1] [.scan (fun _ => true), .scan (fun _ => true)]
        = { pending := [], in_flight := [1, 0], done := [] }
      ∧ contrary_to end_ne (node 1).system (node 0).system = false
      ∧ contrary_to end_ne (node 0).system (node 1).system = false
      ∧ spec_conflict (node 0).access (node 1).access = true
      ∧ spec_conflict (node 1).access (node 0).access = true := by
  refine ⟨rfl, rfl, rfl, ?_, ?_⟩ <;>
    simp [StageNode.access, spec_access, spec_conflict, Param.is_command, Param.is_query,
      Param.resource_mut, Param.resource_ro, Param.event_read, Param.event_write,
      Param.state_read, Param.state_next_write, Param.query_triple]

/-! ## Nodes and their `user_defined_before` sets -/

theorem foldl_invariant {α β : Type} (I : β → Prop) (f : β → α → β) (xs : List α) (b : β)
    (hb : I b) (hstep : ∀ b x, x ∈ xs → I b → I (f b x)) : I (xs.foldl f b) := by
  induction xs generalizing b with
  | nil => exact hb
  | cons x xs ih =>
    simp only [List.foldl_cons]
    exact ih _ (hstep b x (List.mem_cons_self _ _) hb)
      (fun b y hy hI => hstep b y (List.mem_cons_of_mem _ hy) hI)

theorem update_node_length (heap : List SystemNode) (n : Nat) (f : SystemNode → SystemNode) :
    (update_node heap n f).length = heap.length := by
  unfold update_node
  split <;> simp

theorem getElem?_update_node (heap : List SystemNode) (n m : Nat)
    (f : SystemNode → SystemNode) :
    (update_node heap n f)[m]? = if m = n then (heap[n]?).map f else heap[m]? := by
  unfold update_node
  split
  · rename_i node h
    by_cases hm : m = n
    · subst hm
      have hlt : m < heap.length := (List.getElem?_eq_some_iff.1 h).1
      simp [h, List.getElem?_set, hlt]
    · simp [hm, List.getElem?_set, Ne.symm hm]
  · rename_i h
    by_cases hm : m = n
    · subst hm
      simp [h]
    · simp [hm]

theorem mem_user_before_iff (heap : List SystemNode) (a b : Nat) :
    a ∈ user_before heap b ↔ ∃ nb, heap[b]? = some nb ∧ a ∈ nb.user_defined_before := by
  unfold user_before
  split
  · rename_i node h
    simp [h]
  · rename_i h
    simp [h]

theorem option_map_eq_some {α β : Type} (f : α → β) (x : Option α) (b : β) :
    x.map f = some b ↔ ∃ a, x = some a ∧ f a = b := by
  cases x <;> simp

theorem mem_user_before_insert_before (heap : List SystemNode) (t x a b : Nat) :
    a ∈ user_before (insert_before heap t x) b ↔
      a ∈ user_before heap b ∨ (b = t ∧ a = x ∧ t < heap.length) := by
  simp only [mem_user_before_iff, insert_before, getElem?_update_node]
  by_cases hb : b = t
  · subst hb
    simp only [if_true, option_map_eq_some, true_and]
    constructor
    · rintro ⟨nb, ⟨n, hn, rfl⟩, ha⟩
      simp only [List.mem_insert_iff] at ha
      rcases ha with ha | ha
      · exact Or.inr ⟨ha, (List.getElem?_eq_some_iff.1 hn).1⟩
      · exact Or.inl ⟨n, hn, ha⟩
    · rintro (⟨nb, hn, ha⟩ | ⟨rfl, hlt⟩)
      · exact ⟨_, ⟨nb, hn, rfl⟩, by simp [ha]⟩
      · obtain ⟨n, hn⟩ : ∃ n, heap[b]? = some n := by
          rw [List.getElem?_eq_getElem hlt]; exact ⟨_, rfl⟩
        exact ⟨_, ⟨n, hn, rfl⟩, by simp⟩
  · simp [hb]

theorem HeapStep.same (P : Nat → Nat → Prop) (heap : List SystemNode) :
    HeapStep P heap heap :=
  ⟨rfl, fun _ n h => ⟨n, h, rfl⟩, fun _ _ h => h, fun _ _ h => Or.inl h⟩

theorem HeapStep.followed {P : Nat → Nat → Prop} {h1 h2 h3 : List SystemNode}
    (s12 : HeapStep P h1 h2) (s23 : HeapStep P h2 h3) : HeapStep P h1 h3 := by
  refine ⟨s23.length_eq.trans s12.length_eq, ?_, ?_, ?_⟩
  · intro m n hn
    obtain ⟨n2, hn2, e2⟩ := s12.frame m n hn
    obtain ⟨n3, hn3, e3⟩ := s23.frame m n2 hn2
    refine ⟨n3, hn3, ?_⟩
    rw [e3, e2]
  · intro a b h
    exact s23.kept a b (s12.kept a b h)
  · intro a b h
    rcases s23.added a b h with h | h
    · exact s12.added a b h
    · exact Or.inr h

theorem HeapStep.weaken {P Q : Nat → Nat → Prop} {h1 h2 : List SystemNode}
    (s : HeapStep P h1 h2) (hPQ : ∀ a b, P a b → Q a b) : HeapStep Q h1 h2 :=
  ⟨s.length_eq, s.frame, s.kept, fun a b h => (s.added a b h).imp id (hPQ a b)⟩

theorem heapStep_insert_before {P : Nat → Nat → Prop} (heap : List SystemNode) (t x : Nat)
    (hP : P x t) : HeapStep P heap (insert_before heap t x) := by
  refine ⟨update_node_length _ _ _, ?_, ?_, ?_⟩
  · intro m n hn
    simp only [insert_before, getElem?_update_node]
    by_cases hm : m = t
    · subst hm
      simp [hn]
    · simp [hm, hn]
  · intro a b h
    rw [mem_user_before_insert_before]
    exact Or.inl h
  · intro a b h
    rw [mem_user_before_insert_before] at h
    rcases h with h | ⟨rfl, rfl, _⟩
    · exact Or.inl h
    · exact Or.inr hP

/-- Under a `HeapStep` a pointer is allocated after exactly when it was before, and
the node behind it differs at most in its `user_defined_before`. -/
theorem HeapStep.frame_rev {P : Nat → Nat → Prop} {h1 h2 : List SystemNode}
    (s : HeapStep P h1 h2) (m : Nat) (n2 : SystemNode) (hn : h2[m]? = some n2) :
    ∃ n1, h1[m]? = some n1 ∧ n2 = { n1 with user_defined_before := n2.user_defined_before } := by
  have hlt : m < h1.length := by
    rw [← s.length_eq]; exact (List.getElem?_eq_some_iff.1 hn).1
  obtain ⟨n1, hn1⟩ : ∃ n, h1[m]? = some n := by
    rw [List.getElem?_eq_getElem hlt]; exact ⟨_, rfl⟩
  obtain ⟨n', hn', e⟩ := s.frame m n1 hn1
  rw [hn] at hn'
  cases hn'
  exact ⟨n1, hn1, e⟩

theorem HeapStep.stage_type_of_eq {P : Nat → Nat → Prop} {h1 h2 : List SystemNode}
    (s : HeapStep P h1 h2) (m : Nat) : stage_type_of h2 m = stage_type_of h1 m := by
  unfold stage_type_of
  cases h : h1[m]? with
  | some n =>
    obtain ⟨n', hn', e⟩ := s.frame m n h
    rw [hn', e]
  | none =>
    have : h2[m]? = none := by
      rw [List.getElem?_eq_none_iff] at h ⊢
      rw [s.length_eq]; exact h
    rw [this]

theorem HeapStep.scheduler_of_eq {P : Nat → Nat → Prop} {h1 h2 : List SystemNode}
    (s : HeapStep P h1 h2) (m : Nat) : scheduler_of h2 m = scheduler_of h1 m := by
  unfold scheduler_of
  cases h : h1[m]? with
  | some n =>
    obtain ⟨n', hn', e⟩ := s.frame m n h
    rw [hn', e]
  | none =>
    have : h2[m]? = none := by
      rw [List.getElem?_eq_none_iff] at h ⊢
      rw [s.length_eq]; exact h
    rw [this]

theorem HeapStep.set_value_of_eq {P : Nat → Nat → Prop} {h1 h2 : List SystemNode}
    (s : HeapStep P h1 h2) (m T : Nat) : set_value_of h2 m T = set_value_of h1 m T := by
  unfold set_value_of
  cases h : h1[m]? with
  | some n =>
    obtain ⟨n', hn', e⟩ := s.frame m n h
    rw [hn', e]
  | none =>
    have : h2[m]? = none := by
      rw [List.getElem?_eq_none_iff] at h ⊢
      rw [s.length_eq]; exact h
    rw [this]

/-! ## `configure_sets` -/

/-- The innermost statement of `configure_sets` (lines 495-497) inserts `system1` into
the set of `system2` exactly when both are allocated with the same `scheduler_type`. -/
theorem configure_sets_insert_eq (heap : List SystemNode) (system1 system2 : Nat) :
    configure_sets_insert heap system1 system2
      = if (∃ s, stage_type_of heap system1 = some s ∧ stage_type_of heap system2 = some s)
        then insert_before heap system2 system1 else heap := by
  unfold configure_sets_insert stage_type_of
  cases h1 : heap[system1]? <;> cases h2 : heap[system2]? <;> simp
  rename_i n1 n2
  by_cases h : n1.scheduler_type = n2.scheduler_type
  · simp [h]
  · simp [h, Ne.symm h]

theorem configure_sets_insert_step (heap0 heap : List SystemNode) (s1 s2 : Nat)
    (h0 : HeapStep (fun a b => ∃ s, stage_type_of heap0 a = some s
      ∧ stage_type_of heap0 b = some s) heap0 heap) :
    HeapStep (fun a b => ∃ s, stage_type_of heap0 a = some s
      ∧ stage_type_of heap0 b = some s) heap0 (configure_sets_insert heap s1 s2) := by
  rw [configure_sets_insert_eq]
  split
  · rename_i hs
    refine h0.followed (heapStep_insert_before _ _ _ ?_)
    simpa only [h0.stage_type_of_eq] using hs
  · exact h0

theorem configure_sets_group_pair_step (heap0 heap : List SystemNode) (gi gj : List Nat)
    (h0 : HeapStep (fun a b => ∃ s, stage_type_of heap0 a = some s
      ∧ stage_type_of heap0 b = some s) heap0 heap) :
    HeapStep (fun a b => ∃ s, stage_type_of heap0 a = some s
      ∧ stage_type_of heap0 b = some s) heap0 (configure_sets_group_pair gi gj heap) := by
  unfold configure_sets_group_pair
  apply foldl_invariant _ _ _ _ h0
  intro heap2 s1 _ h2
  apply foldl_invariant _ _ _ _ h2
  intro heap3 s2 _ h3
  exact configure_sets_insert_step heap0 heap3 s1 s2 h3

/-- The relation `configure_sets` keeps between the nodes before and after its loops:
a new entry `a` in the set of `b` has the same `scheduler_type` as `b`. -/
theorem configure_sets_edges_step (groups : List (List Nat)) (heap0 heap : List SystemNode)
    (h0 : HeapStep (fun a b => ∃ s, stage_type_of heap0 a = some s
      ∧ stage_type_of heap0 b = some s) heap0 heap) :
    HeapStep (fun a b => ∃ s, stage_type_of heap0 a = some s
      ∧ stage_type_of heap0 b = some s) heap0 (configure_sets_edges groups heap) := by
  induction groups generalizing heap with
  | nil => exact h0
  | cons g later ih =>
    unfold configure_sets_edges
    apply ih
    apply foldl_invariant _ _ _ _ h0
    intro heap1 gj _ h1
    exact configure_sets_group_pair_step heap0 heap1 g gj h1

theorem foldl_establish {α β : Type} (I Q : β → Prop) (f : β → α → β) (xs : List α) (x : α)
    (hx : x ∈ xs) (b : β) (hb : I b) (hstep : ∀ b y, I b → I (f b y))
    (hhit : ∀ b, I b → Q (f b x)) (hkeep : ∀ b y, I b → Q b → Q (f b y)) :
    Q (xs.foldl f b) := by
  induction xs generalizing b with
  | nil => cases hx
  | cons y ys ih =>
    simp only [List.foldl_cons]
    rcases List.mem_cons.1 hx with rfl | hx
    · have : I (f b x) ∧ Q (f b x) := ⟨hstep b x hb, hhit b hb⟩
      have key : I (ys.foldl f (f b x)) ∧ Q (ys.foldl f (f b x)) := by
        apply foldl_invariant (fun c => I c ∧ Q c) f ys _ this
        intro c y _ hc
        exact ⟨hstep c y hc.1, hkeep c y hc.1 hc.2⟩
      exact key.2
    · exact ih hx _ (hstep b y hb)

theorem configure_sets_group_pair_hit (heap0 heap : List SystemNode) (gi gj : List Nat)
    (a b s : Nat) (ha : a ∈ gi) (hb : b ∈ gj)
    (hsa : stage_type_of heap0 a = some s) (hsb : stage_type_of heap0 b = some s)
    (h0 : HeapStep (fun a b => ∃ s, stage_type_of heap0 a = some s
      ∧ stage_type_of heap0 b = some s) heap0 heap) :
    a ∈ user_before (configure_sets_group_pair gi gj heap) b := by
  unfold configure_sets_group_pair
  refine foldl_establish
    (HeapStep (fun a b => ∃ s, stage_type_of heap0 a = some s
      ∧ stage_type_of heap0 b = some s) heap0)
    (fun heap => a ∈ user_before heap b) _ gi a ha heap h0 ?_ ?_ ?_
  · intro heap1 s1 h1
    apply foldl_invariant _ _ _ _ h1
    intro heap2 s2 _ h2
    exact configure_sets_insert_step heap0 heap2 s1 s2 h2
  · intro heap1 h1
    refine foldl_establish
      (HeapStep (fun a b => ∃ s, stage_type_of heap0 a = some s
        ∧ stage_type_of heap0 b = some s) heap0)
      (fun heap => a ∈ user_before heap b) _ gj b hb heap1 h1 ?_ ?_ ?_
    · intro heap2 s2 h2
      exact configure_sets_insert_step heap0 heap2 a s2 h2
    · intro heap2 h2
      rw [configure_sets_insert_eq, if_pos, mem_user_before_insert_before]
      · refine Or.inr ⟨rfl, rfl, ?_⟩
        have : stage_type_of heap2 b = some s := by rw [h2.stage_type_of_eq]; exact hsb
        unfold stage_type_of at this
        split at this
        · rename_i hn
          exact (List.getElem?_eq_some_iff.1 hn).1
        · cases this
      · exact ⟨s, by rw [h2.stage_type_of_eq]; exact hsa, by rw [h2.stage_type_of_eq]; exact hsb⟩
    · intro heap2 s2 h2 hq
      exact ((configure_sets_insert_step heap2 heap2 a s2 (HeapStep.same _ _)).kept a b) hq
  · intro heap1 s1 h1 hq
    apply foldl_invariant (fun heap => a ∈ user_before heap b) _ _ _ hq
    intro heap2 s2 _ hq2
    exact ((configure_sets_insert_step heap2 heap2 s1 s2 (HeapStep.same _ _)).kept a b) hq2

/-- After the loops of `configure_sets`, a node of an earlier group is in the set of
every node of a later group that has the same `scheduler_type`. -/
theorem configure_sets_edges_hit (groups : List (List Nat)) (i j : Nat) (gi gj : List Nat)
    (a b s : Nat) (heap0 heap : List SystemNode) (hij : i < j)
    (hgi : groups[i]? = some gi) (hgj : groups[j]? = some gj) (ha : a ∈ gi) (hb : b ∈ gj)
    (hsa : stage_type_of heap0 a = some s) (hsb : stage_type_of heap0 b = some s)
    (h0 : HeapStep (fun a b => ∃ s, stage_type_of heap0 a = some s
      ∧ stage_type_of heap0 b = some s) heap0 heap) :
    a ∈ user_before (configure_sets_edges groups heap) b := by
  induction groups generalizing i j heap with
  | nil => simp at hgi
  | cons g later ih =>
    unfold configure_sets_edges
    have h1 : HeapStep (fun a b => ∃ s, stage_type_of heap0 a = some s
        ∧ stage_type_of heap0 b = some s) heap0
        (later.foldl (fun heap group_j => configure_sets_group_pair g group_j heap) heap) := by
      apply foldl_invariant _ _ _ _ h0
      intro heap1 gj' _ h1
      exact configure_sets_group_pair_step heap0 heap1 g gj' h1
    cases j with
    | zero => omega
    | succ j =>
      simp only [List.getElem?_cons_succ] at hgj
      cases i with
      | zero =>
        simp only [List.getElem?_cons_zero, Option.some.injEq] at hgi
        subst hgi
        have hin : a ∈ user_before
            (later.foldl (fun heap group_j => configure_sets_group_pair g group_j heap) heap)
            b := by
          refine foldl_establish
            (HeapStep (fun a b => ∃ s, stage_type_of heap0 a = some s
              ∧ stage_type_of heap0 b = some s) heap0)
            (fun heap => a ∈ user_before heap b) _ later gj (List.getElem?_mem hgj) heap h0
            ?_ ?_ ?_
          · intro heap1 gj' h1
            exact configure_sets_group_pair_step heap0 heap1 g gj' h1
          · intro heap1 h1
            exact configure_sets_group_pair_hit heap0 heap1 g gj a b s ha hb hsa hsb h1
          · intro heap1 gj' _ hq
            exact ((configure_sets_group_pair_step heap1 heap1 g gj' (HeapStep.same _ _)).kept
              a b) hq
        exact ((configure_sets_edges_step later _ _ (HeapStep.same _ _)).kept a b) hin
      | succ i =>
        simp only [List.getElem?_cons_succ] at hgi
        exact ih i j _ (by omega) hgi hgj h1

/-! ## `add_system_inner` and `add_system_main_inner` -/

theorem add_system_inner_eq (deps : Deps) (Sch : Nat) (args : List Param)
    (befores afters : List (Option Nat)) (conditions : List Nat)
    (in_sets : List (Nat × Nat)) (app : App) :
    add_system_inner deps Sch args befores afters conditions in_sets app
      = if deps.check_locked
            (node_prepared deps false Sch args befores afters conditions in_sets app)
            app.heap.length
        then .error .CycleDetected
        else .ok { node_prepared deps false Sch args befores afters conditions in_sets app with
          m_systems :=
            (node_prepared deps false Sch args befores afters conditions in_sets app).m_systems
              ++ [app.heap.length] } := rfl

theorem add_system_main_inner_eq (deps : Deps) (Sch : Nat) (args : List Param)
    (befores afters : List (Option Nat)) (conditions : List Nat)
    (in_sets : List (Nat × Nat)) (app : App) :
    add_system_main_inner deps Sch args befores afters conditions in_sets app
      = if deps.check_locked
            (node_prepared deps true Sch args befores afters conditions in_sets app)
            app.heap.length
        then .error .CycleDetected
        else .ok { node_prepared deps true Sch args befores afters conditions in_sets app with
          m_systems :=
            (node_prepared deps true Sch args befores afters conditions in_sets app).m_systems
              ++ [app.heap.length] } := rfl

theorem EdgeStep.same_edges (P : Nat → Nat → Prop) (heap : List SystemNode) :
    EdgeStep P heap heap :=
  ⟨rfl, fun _ => rfl, fun _ => rfl, fun _ _ h => h, fun _ _ h => Or.inl h⟩

theorem EdgeStep.followed_edges {P : Nat → Nat → Prop} {h1 h2 h3 : List SystemNode}
    (s12 : EdgeStep P h1 h2) (s23 : EdgeStep P h2 h3) : EdgeStep P h1 h3 :=
  ⟨s23.length_eq.trans s12.length_eq,
   fun m => (s23.scheduler_eq m).trans (s12.scheduler_eq m),
   fun m => (s23.stage_type_eq m).trans (s12.stage_type_eq m),
   fun a b h => s23.kept a b (s12.kept a b h),
   fun a b h => (s23.added a b h).elim (s12.added a b) Or.inr⟩

theorem EdgeStep.weaken_edges {P Q : Nat → Nat → Prop} {h1 h2 : List SystemNode}
    (s : EdgeStep P h1 h2) (hPQ : ∀ a b, P a b → Q a b) : EdgeStep Q h1 h2 :=
  ⟨s.length_eq, s.scheduler_eq, s.stage_type_eq, s.kept,
   fun a b h => (s.added a b h).imp id (hPQ a b)⟩

theorem HeapStep.edgeStep {P : Nat → Nat → Prop} {h1 h2 : List SystemNode}
    (s : HeapStep P h1 h2) : EdgeStep P h1 h2 :=
  ⟨s.length_eq, s.scheduler_of_eq, s.stage_type_of_eq, s.kept, s.added⟩

/-- Changing members of a node other than its scheduler, its `scheduler_type` and its
`user_defined_before` adds no ordering. -/
theorem edgeStep_update_node (P : Nat → Nat → Prop) (heap : List SystemNode) (n : Nat)
    (f : SystemNode → SystemNode)
    (hf : ∀ x, (f x).scheduler = x.scheduler ∧ (f x).scheduler_type = x.scheduler_type
      ∧ (f x).user_defined_before = x.user_defined_before) :
    EdgeStep P heap (update_node heap n f) := by
  have hs : ∀ m, scheduler_of (update_node heap n f) m = scheduler_of heap m := by
    intro m
    unfold scheduler_of
    rw [getElem?_update_node]
    by_cases hm : m = n
    · subst hm
      cases h : heap[m]? <;> simp [(hf _).1]
    · simp [hm]
  have ht : ∀ m, stage_type_of (update_node heap n f) m = stage_type_of heap m := by
    intro m
    unfold stage_type_of
    rw [getElem?_update_node]
    by_cases hm : m = n
    · subst hm
      cases h : heap[m]? <;> simp [(hf _).2.1]
    · simp [hm]
  have hu : ∀ m, user_before (update_node heap n f) m = user_before heap m := by
    intro m
    unfold user_before
    rw [getElem?_update_node]
    by_cases hm : m = n
    · subst hm
      cases h : heap[m]? <;> simp [(hf _).2.2]
    · simp [hm]
  exact ⟨update_node_length _ _ _, hs, ht, fun a b h => by rw [hu]; exact h,
    fun a b h => by rw [hu] at h; exact Or.inl h⟩

theorem scheduler_of_eq_some_iff (heap : List SystemNode) (m d : Nat) :
    scheduler_of heap m = some d ↔ ∃ n, heap[m]? = some n ∧ n.scheduler = d := by
  unfold scheduler_of
  cases heap[m]? <;> simp

/-- The body of the loop over `afters.nodes`. -/
theorem afters_loop_step (deps : Deps) (Sch new_node : Nat) (afters : List (Option Nat))
    (heap : List SystemNode) :
    HeapStep (fun a b => b = new_node ∧ some a ∈ afters
        ∧ ∃ d, scheduler_of heap a = some d ∧ dynamic_cast deps Sch d = true)
      heap (afters_loop deps Sch new_node afters heap) := by
  unfold afters_loop
  apply foldl_invariant _ _ _ _ (HeapStep.same _ _)
  intro heap1 r hr h1
  cases r with
  | none => exact h1
  | some b =>
    simp only
    cases hb : heap1[b]? with
    | none => exact h1
    | some bn =>
      simp only
      split
      · rename_i hc
        refine h1.followed (heapStep_insert_before _ _ _ ⟨rfl, hr, bn.scheduler, ?_, hc⟩)
        rw [← h1.scheduler_of_eq, scheduler_of_eq_some_iff]
        exact ⟨bn, hb, rfl⟩
      · exact h1

/-- The body of the loop over `befores.nodes`. -/
theorem befores_loop_step (deps : Deps) (Sch new_node : Nat) (befores : List (Option Nat))
    (heap : List SystemNode) :
    HeapStep (fun a b => a = new_node ∧ some b ∈ befores
        ∧ ∃ d, scheduler_of heap b = some d ∧ dynamic_cast deps Sch d = true)
      heap (befores_loop deps Sch new_node befores heap) := by
  unfold befores_loop
  apply foldl_invariant _ _ _ _ (HeapStep.same _ _)
  intro heap1 r hr h1
  cases r with
  | none => exact h1
  | some b =>
    simp only
    cases hb : heap1[b]? with
    | none => exact h1
    | some bn =>
      simp only
      split
      · rename_i hc
        refine h1.followed (heapStep_insert_before _ _ _ ⟨rfl, hr, bn.scheduler, ?_, hc⟩)
        rw [← h1.scheduler_of_eq, scheduler_of_eq_some_iff]
        exact ⟨bn, hb, rfl⟩
      · exact h1

/-! ## `configure_system_sets` -/

/-- The inner loop of `configure_system_sets`, run with `before` true, changes nothing
but the allocated nodes, and there only inserts into the set of `node` nodes whose
scheduler casts to `SchT`. -/
theorem configure_system_sets_inner_step (deps : Deps) (SchT T node set : Nat) (app : App) :
    configure_system_sets_inner deps SchT T node set true app
        = { app with heap := (configure_system_sets_inner deps SchT T node set true app).heap }
      ∧ HeapStep (fun a b => b = node
          ∧ ∃ d, scheduler_of app.heap a = some d ∧ dynamic_cast deps SchT d = true)
        app.heap (configure_system_sets_inner deps SchT T node set true app).heap := by
  unfold configure_system_sets_inner
  apply foldl_invariant
    (fun app1 : App => app1 = { app with heap := app1.heap }
      ∧ HeapStep (fun a b => b = node
          ∧ ∃ d, scheduler_of app.heap a = some d ∧ dynamic_cast deps SchT d = true)
        app.heap app1.heap)
  · exact ⟨rfl, HeapStep.same _ _⟩
  · intro app1 systems _ h1
    obtain ⟨e1, s1⟩ := h1
    cases hsn : app1.heap[systems]? with
    | none => simp only; exact ⟨e1, s1⟩
    | some sn =>
      simp only
      cases hset : sn.sets T with
      | none => simp only; exact ⟨e1, s1⟩
      | some sys_set =>
        simp only
        split
        · rename_i hc
          simp only [Bool.and_eq_true] at hc
          simp only [if_true]
          refine ⟨?_, s1.followed (heapStep_insert_before _ _ _ ⟨rfl, sn.scheduler, ?_, hc.2⟩)⟩
          · rw [e1]
          · rw [← s1.scheduler_of_eq, scheduler_of_eq_some_iff]
            exact ⟨sn, hsn, rfl⟩
        · exact ⟨e1, s1⟩

theorem configure_system_sets_loop_step (deps : Deps) (SchT T node set_of_T : Nat)
    (order : List Nat) (app : App) :
    configure_system_sets_loop deps SchT T node set_of_T true order app
        = { app with
            heap := (configure_system_sets_loop deps SchT T node set_of_T true order app).heap }
      ∧ HeapStep (fun a b => b = node
          ∧ ∃ d, scheduler_of app.heap a = some d ∧ dynamic_cast deps SchT d = true)
        app.heap (configure_system_sets_loop deps SchT T node set_of_T true order app).heap := by
  induction order generalizing app with
  | nil => exact ⟨rfl, HeapStep.same _ _⟩
  | cons set rest ih =>
    unfold configure_system_sets_loop
    split
    · exact ⟨rfl, HeapStep.same _ _⟩
    · obtain ⟨e1, s1⟩ := configure_system_sets_inner_step deps SchT T node set app
      obtain ⟨e2, s2⟩ := ih (configure_system_sets_inner deps SchT T node set true app)
      refine ⟨?_, s1.followed (s2.weaken ?_)⟩
      · rw [e2, e1]
      · rintro a b ⟨hb, d, hd, hc⟩
        exact ⟨hb, d, by rw [← s1.scheduler_of_eq]; exact hd, hc⟩

/-- The members of the app that `configure_system_sets` leaves alone. -/
theorem configure_system_sets_frame (deps : Deps) (SchT node : Nat)
    (in_sets : List (Nat × Nat)) (types : List Nat) (app : App) :
    (configure_system_sets deps SchT node in_sets types app).m_loop_enabled = app.m_loop_enabled
      ∧ (configure_system_sets deps SchT node in_sets types app).m_plugins = app.m_plugins
      ∧ (configure_system_sets deps SchT node in_sets types app).m_resources = app.m_resources
      ∧ (configure_system_sets deps SchT node in_sets types app).m_system_sets
          = app.m_system_sets
      ∧ (configure_system_sets deps SchT node in_sets types app).m_state_update
          = app.m_state_update
      ∧ (configure_system_sets deps SchT node in_sets types app).m_systems = app.m_systems := by
  induction types generalizing app with
  | nil => exact ⟨rfl, rfl, rfl, rfl, rfl, rfl⟩
  | cons T rest ih =>
    unfold configure_system_sets
    simp only
    have h1 : ∀ app1 : App,
        app1 = (match app.m_system_sets T with
          | some order =>
            configure_system_sets_loop deps SchT T node ((in_sets.lookup T).getD 0) true order app
          | none => app) →
        app1 = { app with heap := app1.heap } := by
      intro app1 e
      cases h : app.m_system_sets T with
      | none => rw [h] at e; rw [e]
      | some order =>
        rw [h] at e
        simp only at e
        rw [e]
        exact (configure_system_sets_loop_step deps SchT T node _ order app).1
    obtain ⟨a1, a2, a3, a4, a5, a6⟩ := ih
      { (match app.m_system_sets T with
          | some order =>
            configure_system_sets_loop deps SchT T node ((in_sets.lookup T).getD 0) true order app
          | none => app) with
        m_in_set_systems := map_push (match app.m_system_sets T with
          | some order =>
            configure_system_sets_loop deps SchT T node ((in_sets.lookup T).getD 0) true order app
          | none => app).m_in_set_systems T node
        heap := update_node (match app.m_system_sets T with
          | some order =>
            configure_system_sets_loop deps SchT T node ((in_sets.lookup T).getD 0) true order app
          | none => app).heap node
            (fun n => { n with sets := map_set n.sets T ((in_sets.lookup T).getD 0) }) }
    have e := h1 _ rfl
    have e1 := congrArg App.m_loop_enabled e
    have e2 := congrArg App.m_plugins e
    have e3 := congrArg App.m_resources e
    have e4 := congrArg App.m_system_sets e
    have e5 := congrArg App.m_state_update e
    have e6 := congrArg App.m_systems e
    exact ⟨a1.trans e1, a2.trans e2, a3.trans e3, a4.trans e4, a5.trans e5, a6.trans e6⟩

/-- The ordering `configure_system_sets` adds: only into the set of `node`, and only
nodes whose scheduler casts to `SchT`. -/
theorem configure_system_sets_step (deps : Deps) (SchT node : Nat)
    (in_sets : List (Nat × Nat)) (types : List Nat) (heap0 : List SystemNode) (app : App)
    (h0 : EdgeStep (fun a b => b = node
        ∧ ∃ d, scheduler_of heap0 a = some d ∧ dynamic_cast deps SchT d = true)
      heap0 app.heap) :
    EdgeStep (fun a b => b = node
        ∧ ∃ d, scheduler_of heap0 a = some d ∧ dynamic_cast deps SchT d = true)
      heap0 (configure_system_sets deps SchT node in_sets types app).heap := by
  induction types generalizing app with
  | nil => exact h0
  | cons T rest ih =>
    unfold configure_system_sets
    simp only
    apply ih
    simp only
    refine EdgeStep.followed_edges ?_ (edgeStep_update_node _ _ _ _ (fun x => ⟨rfl, rfl, rfl⟩))
    cases app.m_system_sets T with
    | none => exact h0
    | some order =>
      simp only
      refine h0.followed_edges
        ((configure_system_sets_loop_step deps SchT T node _ order app).2.edgeStep.weaken_edges ?_)
      rintro a b ⟨hb, d, hd, hc⟩
      exact ⟨hb, d, by rw [← h0.scheduler_eq]; exact hd, hc⟩

/-! ## The state at the call of `check_locked` -/

theorem user_before_append_new (heap : List SystemNode) (node : SystemNode)
    (hn : node.user_defined_before = []) (b : Nat) :
    user_before (heap ++ [node]) b = user_before heap b := by
  unfold user_before
  rcases Nat.lt_trichotomy b heap.length with h | h | h
  · rw [List.getElem?_append_left h]
  · subst h
    simp [hn]
  · have h1 : (heap ++ [node])[b]? = none := by
      rw [List.getElem?_eq_none_iff]; simp; omega
    have h2 : heap[b]? = none := by
      rw [List.getElem?_eq_none_iff]; omega
    rw [h1, h2]

theorem scheduler_of_append_new (heap : List SystemNode) (node : SystemNode) (m : Nat) :
    scheduler_of (heap ++ [node]) m
      = if m = heap.length then some node.scheduler else scheduler_of heap m := by
  unfold scheduler_of
  rcases Nat.lt_trichotomy m heap.length with h | h | h
  · rw [List.getElem?_append_left h, if_neg (by omega)]
  · subst h
    simp
  · have h1 : (heap ++ [node])[m]? = none := by
      rw [List.getElem?_eq_none_iff]; simp; omega
    have h2 : heap[m]? = none := by
      rw [List.getElem?_eq_none_iff]; omega
    rw [h1, h2, if_neg (by omega)]

/-- The ordering present when `check_locked` is called, against the nodes as they were
before the call with the new node appended: nothing is removed, and every new entry links
the new node with a node whose scheduler casts to `Sch`. -/
theorem node_prepared_step (deps : Deps) (in_main : Bool) (Sch : Nat) (args : List Param)
    (befores afters : List (Option Nat)) (conditions : List Nat)
    (in_sets : List (Nat × Nat)) (app : App) :
    EdgeStep (fun a b =>
        (b = app.heap.length ∧ ∃ d, scheduler_of app.heap a = some d
            ∧ dynamic_cast deps Sch d = true)
          ∨ (a = app.heap.length ∧ ∃ d, scheduler_of app.heap b = some d
            ∧ dynamic_cast deps Sch d = true)
          ∨ (a = app.heap.length ∧ b = app.heap.length))
      (app.heap ++ [new_system_node in_main Sch args])
      (node_prepared deps in_main Sch args befores afters conditions in_sets app).heap := by
  have hcast : dynamic_cast deps Sch Sch = true := by simp [dynamic_cast]
  have conv : ∀ (node : SystemNode), node.scheduler = Sch → ∀ a d,
      scheduler_of (app.heap ++ [node]) a = some d → dynamic_cast deps Sch d = true →
      (∃ d, scheduler_of app.heap a = some d ∧ dynamic_cast deps Sch d = true)
        ∨ a = app.heap.length := by
    intro node _ a d hd hc
    rw [scheduler_of_append_new] at hd
    split at hd
    · rename_i h; exact Or.inr h
    · exact Or.inl ⟨d, hd, hc⟩
  unfold node_prepared
  simp only
  set heap1 := app.heap ++ [new_system_node in_main Sch args] with hh1
  set heap2 := update_node heap1 app.heap.length
    (fun n => { n with conditions := conditions }) with hh2
  set heap3 := afters_loop deps Sch app.heap.length afters heap2 with hh3
  set heap4 := befores_loop deps Sch app.heap.length befores heap3 with hh4
  have s1 : EdgeStep (fun _ _ => False) heap1 heap2 :=
    edgeStep_update_node _ heap1 app.heap.length _ (fun x => ⟨rfl, rfl, rfl⟩)
  have s2 : EdgeStep _ heap2 heap3 :=
    (afters_loop_step deps Sch app.heap.length afters heap2).edgeStep
  have s3 : EdgeStep _ heap3 heap4 :=
    (befores_loop_step deps Sch app.heap.length befores heap3).edgeStep
  have s12 := (s1.weaken_edges (Q := fun a b =>
        (b = app.heap.length ∧ ∃ d, scheduler_of app.heap a = some d
            ∧ dynamic_cast deps Sch d = true)
          ∨ (a = app.heap.length ∧ ∃ d, scheduler_of app.heap b = some d
            ∧ dynamic_cast deps Sch d = true)
          ∨ (a = app.heap.length ∧ b = app.heap.length)) (fun _ _ h => h.elim)).followed_edges
    (s2.weaken_edges (by
      rintro a b ⟨hb, _, d, hd, hc⟩
      rw [s1.scheduler_eq, hh1] at hd
      rcases conv _ rfl a d hd hc with h | h
      · exact Or.inl ⟨hb, h⟩
      · exact Or.inr (Or.inr ⟨h, hb⟩)))
  have s123 := s12.followed_edges (s3.weaken_edges (by
      rintro a b ⟨ha, _, d, hd, hc⟩
      rw [s2.scheduler_eq, s1.scheduler_eq, hh1] at hd
      rcases conv _ rfl b d hd hc with h | h
      · exact Or.inr (Or.inl ⟨ha, h⟩)
      · exact Or.inr (Or.inr ⟨ha, h⟩)))
  have s4 := configure_system_sets_step deps Sch app.heap.length in_sets
    (in_sets.map (·.1)) heap4 { app with heap := heap4 } (EdgeStep.same_edges _ _)
  refine s123.followed_edges (s4.weaken_edges ?_)
  rintro a b ⟨hb, d, hd, hc⟩
  rw [s3.scheduler_eq, s2.scheduler_eq, s1.scheduler_eq, hh1] at hd
  rcases conv _ rfl a d hd hc with h | h
  · exact Or.inl ⟨hb, h⟩
  · exact Or.inr (Or.inr ⟨h, hb⟩)

theorem mem_user_before_lt (heap : List SystemNode) (a b : Nat)
    (h : a ∈ user_before heap b) : b < heap.length := by
  rw [mem_user_before_iff] at h
  obtain ⟨nb, hnb, _⟩ := h
  exact (List.getElem?_eq_some_iff.1 hnb).1

theorem scheduler_of_lt (heap : List SystemNode) (m d : Nat)
    (h : scheduler_of heap m = some d) : m < heap.length := by
  rw [scheduler_of_eq_some_iff] at h
  obtain ⟨n, hn, _⟩ := h
  exact (List.getElem?_eq_some_iff.1 hn).1

/-- A node listed in `afters` whose scheduler casts to `Sch` is in the set of the new
node after the loop. -/
theorem afters_loop_hit (deps : Deps) (Sch new_node : Nat) (afters : List (Option Nat))
    (heap : List SystemNode) (x d : Nat) (hx : some x ∈ afters)
    (hd : scheduler_of heap x = some d) (hc : dynamic_cast deps Sch d = true)
    (hnew : new_node < heap.length) :
    x ∈ user_before (afters_loop deps Sch new_node afters heap) new_node := by
  unfold afters_loop
  refine foldl_establish (fun h => HeapStep (fun _ _ => True) heap h)
    (fun h => x ∈ user_before h new_node) _ afters (some x) hx heap (HeapStep.same _ _)
    ?_ ?_ ?_
  · intro h1 r s1
    have := (afters_loop_step deps Sch new_node [r] h1).weaken (Q := fun _ _ => True)
      (fun _ _ _ => trivial)
    exact s1.followed this
  · intro h1 s1
    have hd1 : scheduler_of h1 x = some d := by rw [s1.scheduler_of_eq]; exact hd
    obtain ⟨n, hn, hnd⟩ := (scheduler_of_eq_some_iff _ _ _).1 hd1
    simp only [hn, hnd, hc, if_true]
    rw [mem_user_before_insert_before]
    exact Or.inr ⟨rfl, rfl, by rw [s1.length_eq]; exact hnew⟩
  · intro h1 r _ hq
    exact (afters_loop_step deps Sch new_node [r] h1).kept _ _ hq

/-- The new node is in the set of a node listed in `befores` whose scheduler casts to
`Sch` after the loop. -/
theorem befores_loop_hit (deps : Deps) (Sch new_node : Nat) (befores : List (Option Nat))
    (heap : List SystemNode) (y d : Nat) (hy : some y ∈ befores)
    (hd : scheduler_of heap y = some d) (hc : dynamic_cast deps Sch d = true) :
    new_node ∈ user_before (befores_loop deps Sch new_node befores heap) y := by
  unfold befores_loop
  refine foldl_establish (fun h => HeapStep (fun _ _ => True) heap h)
    (fun h => new_node ∈ user_before h y) _ befores (some y) hy heap (HeapStep.same _ _)
    ?_ ?_ ?_
  · intro h1 r s1
    have := (befores_loop_step deps Sch new_node [r] h1).weaken (Q := fun _ _ => True)
      (fun _ _ _ => trivial)
    exact s1.followed this
  · intro h1 s1
    have hd1 : scheduler_of h1 y = some d := by rw [s1.scheduler_of_eq]; exact hd
    obtain ⟨n, hn, hnd⟩ := (scheduler_of_eq_some_iff _ _ _).1 hd1
    simp only [hn, hnd, hc, if_true]
    rw [mem_user_before_insert_before]
    exact Or.inr ⟨rfl, rfl, scheduler_of_lt _ _ _ hd1⟩
  · intro h1 r _ hq
    exact (befores_loop_step deps Sch new_node [r] h1).kept _ _ hq

/-- The explicit ordering of a registration is present when `check_locked` is called. -/
theorem node_prepared_explicit (deps : Deps) (in_main : Bool) (Sch : Nat)
    (args : List Param) (befores afters : List (Option Nat)) (conditions : List Nat)
    (in_sets : List (Nat × Nat)) (app : App) :
    (∀ x d, some x ∈ afters → scheduler_of app.heap x = some d →
        dynamic_cast deps Sch d = true →
        x ∈ user_before
          (node_prepared deps in_main Sch args befores afters conditions in_sets app).heap
          app.heap.length)
      ∧ (∀ y d, some y ∈ befores → scheduler_of app.heap y = some d →
        dynamic_cast deps Sch d = true →
        app.heap.length ∈ user_before
          (node_prepared deps in_main Sch args befores afters conditions in_sets app).heap y) := by
  unfold node_prepared
  simp only
  set heap1 := app.heap ++ [new_system_node in_main Sch args] with hh1
  set heap2 := update_node heap1 app.heap.length
    (fun n => { n with conditions := conditions }) with hh2
  set heap3 := afters_loop deps Sch app.heap.length afters heap2 with hh3
  set heap4 := befores_loop deps Sch app.heap.length befores heap3 with hh4
  have s1 : EdgeStep (fun _ _ => False) heap1 heap2 :=
    edgeStep_update_node _ heap1 app.heap.length _ (fun x => ⟨rfl, rfl, rfl⟩)
  have s2 : EdgeStep _ heap2 heap3 :=
    (afters_loop_step deps Sch app.heap.length afters heap2).edgeStep
  have s3 : EdgeStep _ heap3 heap4 :=
    (befores_loop_step deps Sch app.heap.length befores heap3).edgeStep
  have s4 := configure_system_sets_step deps Sch app.heap.length in_sets
    (in_sets.map (·.1)) heap4 { app with heap := heap4 } (EdgeStep.same_edges _ _)
  have old : ∀ x d, scheduler_of app.heap x = some d → scheduler_of heap2 x = some d := by
    intro x d hd
    rw [s1.scheduler_eq, hh1, scheduler_of_append_new,
      if_neg (Nat.ne_of_lt (scheduler_of_lt _ _ _ hd))]
    exact hd
  have hlen : app.heap.length < heap2.length := by
    rw [s1.length_eq, hh1]; simp
  constructor
  · intro x d hx hd hc
    exact s4.kept _ _ (s3.kept _ _
      (afters_loop_hit deps Sch app.heap.length afters heap2 x d hx (old x d hd) hc hlen))
  · intro y d hy hd hc
    refine s4.kept _ _
      (befores_loop_hit deps Sch app.heap.length befores heap3 y d hy ?_ hc)
    rw [s2.scheduler_eq]
    exact old y d hd

/-! ## Sequences of registration calls -/

theorem add_plugin_ok_iff (deps : Deps) (T : PluginType) (value : Nat)
    (build : App → Except RegError App) (app app' : App) :
    add_plugin deps T value build app = .ok app' ↔
      (T ∈ app.m_plugins ∧ app' = app)
        ∨ (T ∉ app.m_plugins ∧ ∃ app1, build app = .ok app1
          ∧ app' = { app1 with
              m_plugins := app1.m_plugins.insert T
              m_resources := deps.insert_resource T.hash_code (.of T.hash_code value) app1.m_resources }) := by
  unfold add_plugin
  by_cases hT : T ∈ app.m_plugins
  · have hc : app.m_plugins.contains T = true := by simpa using hT
    rw [if_pos hc]
    constructor
    · intro h
      injection h with h
      exact Or.inl ⟨hT, h.symm⟩
    · rintro (⟨_, rfl⟩ | ⟨hn, _⟩)
      · rfl
      · exact absurd hT hn
  · have hc : ¬ (app.m_plugins.contains T = true) := by simpa using hT
    rw [if_neg hc]
    cases hb : build app with
    | error e =>
      simp only
      constructor
      · intro h; cases h
      · rintro (⟨h, _⟩ | ⟨_, a, ha, _⟩)
        · exact absurd h hT
        · cases ha
    | ok app1 =>
      simp only
      constructor
      · intro h
        injection h with h
        exact Or.inr ⟨hT, app1, rfl, h.symm⟩
      · rintro (⟨h, _⟩ | ⟨_, a, ha, rfl⟩)
        · exact absurd h hT
        · injection ha with ha
          subst ha
          rfl

mutual
/-- A property of the app that every registration call keeps is kept by every
registration call made of them, plugins included. -/
theorem apply_op_induct (deps : Deps) (I : App → Prop)
    (h_add : ∀ Sch args befores afters conditions in_sets app app', I app →
      add_system deps Sch args befores afters conditions in_sets app = .ok app' → I app')
    (h_main : ∀ Sch args befores afters conditions in_sets app app', I app →
      add_system_main deps Sch args befores afters conditions in_sets app = .ok app' → I app')
    (h_sets : ∀ T arg args app, I app → I (configure_sets T arg args app))
    (h_loop : ∀ app, I app → PluginType.LoopPlugin ∉ app.m_plugins →
      I { enable_loop app with
        m_plugins := (enable_loop app).m_plugins.insert .LoopPlugin
        m_resources := deps.insert_resource PluginType.LoopPlugin.hash_code
          (.of PluginType.LoopPlugin.hash_code 0)
          (enable_loop app).m_resources })
    (h_reg : ∀ T value app, I app → I { app with
        m_plugins := app.m_plugins.insert (.other T)
        m_resources :=
          deps.insert_resource (PluginType.other T).hash_code
            (.of (PluginType.other T).hash_code value) app.m_resources }) :
    ∀ (op : RegOp) (app app' : App), I app → apply_op deps op app = .ok app' → I app'
  | .add_system Sch args befores afters conditions in_sets, app, app', hi, h =>
    h_add Sch args befores afters conditions in_sets app app' hi (by simpa [apply_op] using h)
  | .add_system_main Sch args befores afters conditions in_sets, app, app', hi, h =>
    h_main Sch args befores afters conditions in_sets app app' hi (by simpa [apply_op] using h)
  | .configure_sets T arg args, app, app', hi, h => by
    simp only [apply_op, Except.ok.injEq] at h
    subst h
    exact h_sets T arg args app hi
  | .add_loop_plugin, app, app', hi, h => by
    simp only [apply_op, add_plugin_ok_iff] at h
    rcases h with ⟨_, rfl⟩ | ⟨hn, app1, hb, rfl⟩
    · exact hi
    · simp only [LoopPlugin_build, Except.ok.injEq] at hb
      subst hb
      exact h_loop app hi hn
  | .add_plugin type_hash value build, app, app', hi, h => by
    simp only [apply_op, add_plugin_ok_iff] at h
    rcases h with ⟨_, rfl⟩ | ⟨_, app1, hb, rfl⟩
    · exact hi
    · exact h_reg _ _ _
        (apply_ops_induct deps I h_add h_main h_sets h_loop h_reg build app app1 hi hb)
theorem apply_ops_induct (deps : Deps) (I : App → Prop)
    (h_add : ∀ Sch args befores afters conditions in_sets app app', I app →
      add_system deps Sch args befores afters conditions in_sets app = .ok app' → I app')
    (h_main : ∀ Sch args befores afters conditions in_sets app app', I app →
      add_system_main deps Sch args befores afters conditions in_sets app = .ok app' → I app')
    (h_sets : ∀ T arg args app, I app → I (configure_sets T arg args app))
    (h_loop : ∀ app, I app → PluginType.LoopPlugin ∉ app.m_plugins →
      I { enable_loop app with
        m_plugins := (enable_loop app).m_plugins.insert .LoopPlugin
        m_resources := deps.insert_resource PluginType.LoopPlugin.hash_code
          (.of PluginType.LoopPlugin.hash_code 0)
          (enable_loop app).m_resources })
    (h_reg : ∀ T value app, I app → I { app with
        m_plugins := app.m_plugins.insert (.other T)
        m_resources :=
          deps.insert_resource (PluginType.other T).hash_code
            (.of (PluginType.other T).hash_code value) app.m_resources }) :
    ∀ (ops : List RegOp) (app app' : App), I app → apply_ops deps ops app = .ok app' → I app'
  | [], app, app', hi, h => by
    simp only [apply_ops, Except.ok.injEq] at h
    subst h
    exact hi
  | op :: ops, app, app', hi, h => by
    simp only [apply_ops] at h
    cases h1 : apply_op deps op app with
    | error e => rw [h1] at h; cases h
    | ok app1 =>
      rw [h1] at h
      exact apply_ops_induct deps I h_add h_main h_sets h_loop h_reg ops app1 app'
        (apply_op_induct deps I h_add h_main h_sets h_loop h_reg op app app1 hi h1) h
end

/-! ## Reachable states list the members of every set type -/

theorem node_prepared_frame (deps : Deps) (in_main : Bool) (Sch : Nat) (args : List Param)
    (befores afters : List (Option Nat)) (conditions : List Nat)
    (in_sets : List (Nat × Nat)) (app : App) :
    (node_prepared deps in_main Sch args befores afters conditions in_sets app).m_loop_enabled
        = app.m_loop_enabled
      ∧ (node_prepared deps in_main Sch args befores afters conditions in_sets app).m_plugins
        = app.m_plugins
      ∧ (node_prepared deps in_main Sch args befores afters conditions in_sets app).m_resources
        = app.m_resources
      ∧ (node_prepared deps in_main Sch args befores afters conditions in_sets app).m_system_sets
        = app.m_system_sets
      ∧ (node_prepared deps in_main Sch args befores afters conditions in_sets app).m_state_update
        = app.m_state_update
      ∧ (node_prepared deps in_main Sch args befores afters conditions in_sets app).m_systems
        = app.m_systems := by
  unfold node_prepared
  exact configure_system_sets_frame deps Sch app.heap.length in_sets _ _

theorem sets_listed_of_heapStep {P : Nat → Nat → Prop} (app app' : App)
    (hs : HeapStep P app.heap app'.heap)
    (hm : app'.m_in_set_systems = app.m_in_set_systems) (h : sets_listed app) :
    sets_listed app' := by
  intro n T v hv
  rw [hs.set_value_of_eq] at hv
  rw [hm]
  exact h n T v hv

theorem configure_sets_heapStep (T arg : Nat) (args : List Nat) (app : App) :
    HeapStep (fun a b => ∃ s, stage_type_of app.heap a = some s
      ∧ stage_type_of app.heap b = some s) app.heap (configure_sets T arg args app).heap := by
  unfold configure_sets
  exact configure_sets_edges_step _ _ _ (HeapStep.same _ _)

theorem configure_sets_sets_listed (T arg : Nat) (args : List Nat) (app : App)
    (h : sets_listed app) : sets_listed (configure_sets T arg args app) :=
  sets_listed_of_heapStep app _ (configure_sets_heapStep T arg args app) rfl h

theorem set_value_of_update_sets (heap : List SystemNode) (node T v n T2 : Nat) :
    set_value_of (update_node heap node (fun x => { x with sets := map_set x.sets T v })) n T2
      = if n = node ∧ T2 = T ∧ node < heap.length then some v else set_value_of heap n T2 := by
  unfold set_value_of
  rw [getElem?_update_node]
  by_cases hn : n = node
  · subst hn
    cases h : heap[n]? with
    | none =>
      have : ¬ n < heap.length := by
        rw [List.getElem?_eq_none_iff] at h; omega
      simp [this]
    | some x =>
      have : n < heap.length := (List.getElem?_eq_some_iff.1 h).1
      by_cases hT : T2 = T
      · simp [map_set, hT, this]
      · simp [map_set, hT]
  · simp [hn]

theorem configure_system_sets_sets_listed (deps : Deps) (SchT node : Nat)
    (in_sets : List (Nat × Nat)) (types : List Nat) (app : App) (h : sets_listed app) :
    sets_listed (configure_system_sets deps SchT node in_sets types app) := by
  induction types generalizing app with
  | nil => exact h
  | cons T rest ih =>
    unfold configure_system_sets
    simp only
    apply ih
    have h1 : ∀ app1 : App,
        app1 = (match app.m_system_sets T with
          | some order =>
            configure_system_sets_loop deps SchT T node ((in_sets.lookup T).getD 0) true order app
          | none => app) → sets_listed app1 := by
      intro app1 e
      cases hs : app.m_system_sets T with
      | none => rw [hs] at e; rw [e]; exact h
      | some order =>
        rw [hs] at e
        simp only at e
        rw [e]
        have := configure_system_sets_loop_step deps SchT T node
          ((in_sets.lookup T).getD 0) order app
        exact sets_listed_of_heapStep app _ this.2 (by rw [this.1]) h
    have h2 := h1 _ rfl
    intro n T2 v hv
    simp only at hv ⊢
    rw [set_value_of_update_sets] at hv
    simp only [map_push]
    split at hv
    · rename_i hc
      rw [hc.1, hc.2.1, if_pos rfl]
      simp
    · have := h2 n T2 v hv
      split
      · rename_i hT
        subst hT
        exact List.mem_append_left _ this
      · exact this

theorem set_value_of_append_new (heap : List SystemNode) (node : SystemNode)
    (hn : node.sets = fun _ => none) (m T : Nat) :
    set_value_of (heap ++ [node]) m T = set_value_of heap m T := by
  unfold set_value_of
  rcases Nat.lt_trichotomy m heap.length with h | h | h
  · rw [List.getElem?_append_left h]
  · subst h
    simp [hn]
  · have h1 : (heap ++ [node])[m]? = none := by
      rw [List.getElem?_eq_none_iff]; simp; omega
    have h2 : heap[m]? = none := by
      rw [List.getElem?_eq_none_iff]; omega
    rw [h1, h2]

theorem set_value_of_update_conditions (heap : List SystemNode) (node : Nat)
    (conditions : List Nat) (m T : Nat) :
    set_value_of (update_node heap node (fun x => { x with conditions := conditions })) m T
      = set_value_of heap m T := by
  unfold set_value_of
  rw [getElem?_update_node]
  by_cases hm : m = node
  · subst hm
    cases h : heap[m]? <;> simp
  · simp [hm]

theorem node_prepared_sets_listed (deps : Deps) (in_main : Bool) (Sch : Nat)
    (args : List Param) (befores afters : List (Option Nat)) (conditions : List Nat)
    (in_sets : List (Nat × Nat)) (app : App) (h : sets_listed app) :
    sets_listed (node_prepared deps in_main Sch args befores afters conditions in_sets app) := by
  unfold node_prepared
  simp only
  apply configure_system_sets_sets_listed
  intro n T v hv
  simp only at hv ⊢
  rw [(befores_loop_step deps Sch app.heap.length befores _).set_value_of_eq,
    (afters_loop_step deps Sch app.heap.length afters _).set_value_of_eq,
    set_value_of_update_conditions, set_value_of_append_new _ _ rfl] at hv
  exact h n T v hv

theorem add_system_ok (deps : Deps) (Sch : Nat) (args : List Param)
    (befores afters : List (Option Nat)) (conditions : List Nat)
    (in_sets : List (Nat × Nat)) (app app' : App)
    (h : add_system deps Sch args befores afters conditions in_sets app = .ok app') :
    app' = { node_prepared deps false Sch args befores afters conditions in_sets app with
        m_systems := app.m_systems ++ [app.heap.length] } := by
  rw [add_system, add_system_inner_eq] at h
  split at h
  · cases h
  · injection h with h
    rw [← h, (node_prepared_frame deps false Sch args befores afters conditions in_sets app).2.2.2.2.2]

theorem add_system_main_ok (deps : Deps) (Sch : Nat) (args : List Param)
    (befores afters : List (Option Nat)) (conditions : List Nat)
    (in_sets : List (Nat × Nat)) (app app' : App)
    (h : add_system_main deps Sch args befores afters conditions in_sets app = .ok app') :
    app' = { node_prepared deps true Sch args befores afters conditions in_sets app with
        m_systems := app.m_systems ++ [app.heap.length] } := by
  rw [add_system_main, add_system_main_inner_eq] at h
  split at h
  · cases h
  · injection h with h
    rw [← h, (node_prepared_frame deps true Sch args befores afters conditions in_sets app).2.2.2.2.2]

/-- Every state reached from a new app by registration calls lists, under each set type,
the nodes that have a value in it. -/
theorem reachable_sets_listed (deps : Deps) (ops : List RegOp) (app : App)
    (h : apply_ops deps ops App_new = .ok app) : sets_listed app := by
  refine apply_ops_induct deps sets_listed ?_ ?_ ?_ ?_ ?_ ops App_new app ?_ h
  · intro Sch args befores afters conditions in_sets app app' hi h
    rw [add_system_ok _ _ _ _ _ _ _ _ _ h]
    exact node_prepared_sets_listed deps false Sch args befores afters conditions in_sets app hi
  · intro Sch args befores afters conditions in_sets app app' hi h
    rw [add_system_main_ok _ _ _ _ _ _ _ _ _ h]
    exact node_prepared_sets_listed deps true Sch args befores afters conditions in_sets app hi
  · intro T arg args app hi
    exact configure_sets_sets_listed T arg args app hi
  · intro app hi _
    exact hi
  · intro T value app hi
    exact hi
  · intro n T v hv
    simp [App_new, set_value_of] at hv

/-- A registration call that ends without error, followed by the remaining calls. -/
theorem apply_ops_step (deps : Deps) (op : RegOp) (ops : List RegOp) (app app1 app2 : App)
    (h1 : apply_op deps op app = .ok app1) (h2 : apply_ops deps ops app1 = .ok app2) :
    apply_ops deps (op :: ops) app = .ok app2 := by
  rw [apply_ops, h1]
  exact h2

/-! ## Claims about sets and ordering -/

/-- After `configure_sets`, a node listed under the set type with a value earlier in the
order is in the set of every listed node with a later value and the same
`scheduler_type`. -/
theorem configure_sets_orders (T arg : Nat) (args : List Nat) (app : App)
    (a b i j vi vj s : Nat)
    (ha : a ∈ app.m_in_set_systems T) (hb : b ∈ app.m_in_set_systems T)
    (hsa : set_value_of app.heap a T = some vi) (hsb : set_value_of app.heap b T = some vj)
    (hi : (arg :: args)[i]? = some vi) (hj : (arg :: args)[j]? = some vj) (hij : i < j)
    (hta : stage_type_of app.heap a = some s) (htb : stage_type_of app.heap b = some s) :
    a ∈ user_before (configure_sets T arg args app).heap b := by
  have hpred : ∀ (n v : Nat), set_value_of app.heap n T = some v →
      (match app.heap[n]? with
        | some sn =>
          (match sn.sets T with
           | some sys_set => sys_set == v
           | none => false)
        | none => false) = true := by
    intro n v hv
    unfold set_value_of at hv
    cases hn : app.heap[n]? with
    | none => rw [hn] at hv; cases hv
    | some sn =>
      rw [hn] at hv
      simp only at hv ⊢
      rw [hv]
      simp
  unfold configure_sets
  simp only [map_set, if_pos, Option.getD_some]
  exact configure_sets_edges_hit _ i j _ _ a b s app.heap app.heap hij
    (by rw [List.getElem?_map, hi]; rfl) (by rw [List.getElem?_map, hj]; rfl)
    (by rw [List.mem_filter]; exact ⟨ha, hpred a vi hsa⟩)
    (by rw [List.mem_filter]; exact ⟨hb, hpred b vj hsb⟩) hta htb (HeapStep.same _ _)

/-- C11: in every state reached by registration calls, after
`configure_sets<S>(v0, ..., vN)` every allocated node `a` with `sets[S] = vi` is in the
`user_defined_before` of every node `b` with `sets[S] = vj`, `i < j`, that has the same
`scheduler_type`. -/
theorem C11_configure_sets_orders_registered (deps : Deps) (ops : List RegOp) (app : App)
    (hreach : apply_ops deps ops App_new = .ok app) (S arg : Nat) (args : List Nat)
    (a b i j vi vj : Nat)
    (hsa : set_value_of app.heap a S = some vi) (hsb : set_value_of app.heap b S = some vj)
    (hi : (arg :: args)[i]? = some vi) (hj : (arg :: args)[j]? = some vj) (hij : i < j)
    (hst : stage_type_of app.heap a = stage_type_of app.heap b) :
    a ∈ user_before (configure_sets S arg args app).heap b := by
  have hl := reachable_sets_listed deps ops app hreach
  obtain ⟨s, hs⟩ : ∃ s, stage_type_of app.heap a = some s := by
    unfold set_value_of at hsa
    unfold stage_type_of
    cases h : app.heap[a]? with
    | none => rw [h] at hsa; cases hsa
    | some n => exact ⟨_, rfl⟩
  exact configure_sets_orders S arg args app a b i j vi vj s (hl a S vi hsa) (hl b S vj hsb)
    hsa hsb hi hj hij hs (hst ▸ hs)

/-- C11 at a concrete state: node 0 is registered with set value 1 and node 1 with set
value 0; after `configure_sets` with the order 0, 1 node 1 is before node 0. -/
theorem C11_configure_sets_orders_registered_witness :
    apply_ops spec_deps
        [.add_system 100 [] [] [] [] [(9, 1)], .add_system 100 [] [] [] [] [(9, 0)]] App_new
        = .ok (registered spec_deps
          [.add_system 100 [] [] [] [] [(9, 1)], .add_system 100 [] [] [] [] [(9, 0)]])
      ∧ 1 ∈ user_before (configure_sets 9 0 [1] (registered spec_deps
          [.add_system 100 [] [] [] [] [(9, 1)], .add_system 100 [] [] [] [] [(9, 0)]])).heap 0 :=
  ⟨rfl, C11_configure_sets_orders_registered spec_deps
    [.add_system 100 [] [] [] [] [(9, 1)], .add_system 100 [] [] [] [] [(9, 0)]] _ rfl
    9 0 [1] 1 0 0 1 0 1 (by decide) (by decide) (by decide) (by decide) (by decide)
    (by decide)⟩

/-- C12 (the code at the failing input): the order 0, 1 of set type 9 is configured
first; then node 0 is added in stage 100 with set value 1 and node 1 in stage 100 with
set value 0. Both registrations succeed, and node 1 is NOT in the `user_defined_before`
of node 0: the loop of `configure_system_sets` breaks at the value of the new node, so
the branch that would insert the new node into an existing node is never run. Added in
the other order, the edge is there. -/
theorem C12_earlier_set_added_later_not_ordered :
    (∃ app, apply_ops spec_deps
        [.configure_sets 9 0 [1], .add_system 100 [] [] [] [] [(9, 1)],
          .add_system 100 [] [] [] [] [(9, 0)]] App_new = .ok app
        ∧ set_value_of app.heap 0 9 = some 1 ∧ set_value_of app.heap 1 9 = some 0
        ∧ stage_type_of app.heap 0 = some 100 ∧ stage_type_of app.heap 1 = some 100
        ∧ app.m_systems = [0, 1]
        ∧ 1 ∉ user_before app.heap 0)
      ∧ (∃ app, apply_ops spec_deps
        [.configure_sets 9 0 [1], .add_system 100 [] [] [] [] [(9, 0)],
          .add_system 100 [] [] [] [] [(9, 1)]] App_new = .ok app
        ∧ set_value_of app.heap 0 9 = some 0 ∧ set_value_of app.heap 1 9 = some 1
        ∧ 0 ∈ user_before app.heap 1) :=
  ⟨⟨_, rfl, by decide, by decide, by decide, by decide, by decide, by decide⟩,
   ⟨_, rfl, by decide, by decide, by decide⟩⟩

/-- C13 (the code at the failing input): node 0 is added in stage 100 with set value 1,
node 1 is added in stage 100 with set value 0 and `after(node 0)`, then
`configure_sets` declares the order 0, 1. No call ends with an error, and afterwards
node 0 is in the `user_defined_before` of node 1 and node 1 in that of node 0: a cycle
within one stage. `configure_sets` inserts its edges without calling `check_locked`. -/
theorem C13_configure_sets_closes_cycle :
    ∃ app, apply_ops spec_deps
        [.add_system 100 [] [] [] [] [(9, 1)], .add_system 100 [] [] [some 0] [] [(9, 0)],
          .configure_sets 9 0 [1]] App_new = .ok app
      ∧ stage_type_of app.heap 0 = some 100 ∧ stage_type_of app.heap 1 = some 100
      ∧ 0 ∈ user_before app.heap 1 ∧ 1 ∈ user_before app.heap 0 :=
  ⟨configure_sets 9 0 [1]
      { m_in_set_systems := map_push (map_push (fun _ => []) 9 0) 9 1
        m_systems := [0, 1]
        heap := [{ in_main_thread := false, scheduler := 100, scheduler_type := 100,
                   system := System [], sets := map_set (fun _ => none) 9 1 },
                 { in_main_thread := false, scheduler := 100, scheduler_type := 100,
                   system := System [], user_defined_before := [0],
                   sets := map_set (fun _ => none) 9 0 }] },
    apply_ops_step _ _ _ _
      { m_in_set_systems := map_push (fun _ => []) 9 0
        m_systems := [0]
        heap := [{ in_main_thread := false, scheduler := 100, scheduler_type := 100,
                   system := System [], sets := map_set (fun _ => none) 9 1 }] } _ rfl
      (apply_ops_step _ _ _ _
        { m_in_set_systems := map_push (map_push (fun _ => []) 9 0) 9 1
          m_systems := [0, 1]
          heap := [{ in_main_thread := false, scheduler := 100, scheduler_type := 100,
                     system := System [], sets := map_set (fun _ => none) 9 1 },
                   { in_main_thread := false, scheduler := 100, scheduler_type := 100,
                     system := System [], user_defined_before := [0],
                     sets := map_set (fun _ => none) 9 0 }] } _ rfl rfl),
    by decide, by decide, by decide, by decide⟩

/-! ## Claims about explicit ordering and cycles -/

theorem reaches_self_two_cycle (heap : List SystemNode) (t s fuel : Nat)
    (h1 : s ∈ user_before heap t) (h2 : t ∈ user_before heap s) :
    reaches_self heap t (fuel + 2) t = true := by
  rw [mem_user_before_iff] at h1 h2
  obtain ⟨nt, hnt, hst⟩ := h1
  obtain ⟨ns, hns, hts⟩ := h2
  have inner : reaches_self heap t (fuel + 1) s = true := by
    unfold reaches_self
    simp only [hns, List.any_eq_true, Bool.or_eq_true, beq_iff_eq]
    exact ⟨t, hts, Or.inl rfl⟩
  unfold reaches_self
  simp only [hnt, List.any_eq_true, Bool.or_eq_true, beq_iff_eq]
  exact ⟨s, hst, Or.inr inner⟩

/-- C14 (counterexample): `s1` is registered in stage 100 with `after(s2)` while the
handle `s2` is still null, then `s2` is registered in stage 100 with `after(s1)`. No
error is raised: both nodes are registered, `s1` is in the `user_defined_before` of
`s2` and the set of `s1` is empty. -/
theorem C14_mutual_after_accepted :
    ∃ app, apply_ops spec_deps
        [.add_system 100 [] [] [none] [] [], .add_system 100 [] [] [some 0] [] []] App_new
        = .ok app
      ∧ app.m_systems = [0, 1]
      ∧ user_before app.heap 0 = [] ∧ user_before app.heap 1 = [0] :=
  ⟨_, rfl, by decide, by decide, by decide⟩

/-- C14 (amended): with `check_locked` as the specification describes it, registering a
node with both `after(s1)` and `before(s1)`, where `s1` is an allocated node whose
scheduler is of the stage type of the call, ends with `CycleDetected`; and the sequence
of the claim, where the first `after` holds a null handle, ends without error. -/
theorem C14_after_and_before_same_node_rejected (Sch : Nat) (args : List Param)
    (befores afters : List (Option Nat)) (conditions : List Nat)
    (in_sets : List (Nat × Nat)) (app : App) (s1 : Nat) (n1 : SystemNode)
    (h1 : app.heap[s1]? = some n1) (hs : n1.scheduler = Sch)
    (ha : some s1 ∈ afters) (hb : some s1 ∈ befores) :
    add_system spec_deps Sch args befores afters conditions in_sets app
        = .error .CycleDetected
      ∧ (apply_ops spec_deps
          [.add_system Sch args [] [none] conditions [],
            .add_system Sch args [] [some 0] conditions []] App_new).isOk = true := by
  constructor
  · rw [add_system, add_system_inner_eq]
    have hd : scheduler_of app.heap s1 = some Sch := by
      rw [scheduler_of_eq_some_iff]; exact ⟨n1, h1, hs⟩
    have hc : dynamic_cast spec_deps Sch Sch = true := by simp [dynamic_cast]
    obtain ⟨e1, e2⟩ := node_prepared_explicit spec_deps false Sch args befores afters
      conditions in_sets app
    have k1 := e1 s1 Sch ha hd hc
    have k2 := e2 s1 Sch hb hd hc
    have hlen : (node_prepared spec_deps false Sch args befores afters conditions in_sets
        app).heap.length = app.heap.length + 1 := by
      rw [(node_prepared_step spec_deps false Sch args befores afters conditions in_sets
        app).length_eq]
      simp
    have hpos : 0 < app.heap.length := by
      have := (List.getElem?_eq_some_iff.1 h1).1
      omega
    have hcheck : spec_deps.check_locked
        (node_prepared spec_deps false Sch args befores afters conditions in_sets app)
        app.heap.length = true := by
      show check_locked _ _ = true
      unfold check_locked
      rw [hlen]
      obtain ⟨k, hk⟩ : ∃ k, app.heap.length + 1 = k + 2 := ⟨app.heap.length - 1, by omega⟩
      rw [hk]
      exact reaches_self_two_cycle _ _ s1 k k1 k2
    rw [if_pos hcheck]
  · simp [apply_ops, apply_op, add_system, add_system_inner, App_new, afters_loop,
      befores_loop, update_node, configure_system_sets, spec_deps, check_locked,
      reaches_self, dynamic_cast, insert_before, Except.isOk, Except.toBool]

/-- C14 (amended) at a concrete state: node 0 is registered in stage 100, and the next
registration in stage 100 names it in both `after` and `before`. -/
theorem C14_after_and_before_same_node_rejected_witness :
    (registered spec_deps [.add_system 100 [] [] [] [] []]).heap[0]?.isSome = true
      ∧ add_system spec_deps 100 [] [some 0] [some 0] [] []
          (registered spec_deps [.add_system 100 [] [] [] [] []]) = .error .CycleDetected :=
  ⟨by decide,
   (C14_after_and_before_same_node_rejected 100 [] [some 0] [some 0] [] []
      (registered spec_deps [.add_system 100 [] [] [] [] []]) 0
      (new_system_node false 100 []) rfl rfl (by simp) (by simp)).1⟩

/-- C15: when `add_system` in stage type `Sch` completes, every allocated node of stage
`Sch` listed in `after(...)` is in the `user_defined_before` of the new node, the new
node is in the `user_defined_before` of every allocated node of stage `Sch` listed in
`before(...)`, and the new node is the last registered system. -/
theorem C15_explicit_edges_inserted (deps : Deps) (Sch : Nat) (args : List Param)
    (befores afters : List (Option Nat)) (conditions : List Nat)
    (in_sets : List (Nat × Nat)) (app app' : App)
    (h : add_system deps Sch args befores afters conditions in_sets app = .ok app') :
    (∀ x nx, some x ∈ afters → app.heap[x]? = some nx → nx.scheduler = Sch →
        x ∈ user_before app'.heap app.heap.length)
      ∧ (∀ y ny, some y ∈ befores → app.heap[y]? = some ny → ny.scheduler = Sch →
        app.heap.length ∈ user_before app'.heap y)
      ∧ app'.m_systems = app.m_systems ++ [app.heap.length]
      ∧ scheduler_of app'.heap app.heap.length = some Sch := by
  have hc : dynamic_cast deps Sch Sch = true := by simp [dynamic_cast]
  have e := add_system_ok deps Sch args befores afters conditions in_sets app app' h
  obtain ⟨e1, e2⟩ := node_prepared_explicit deps false Sch args befores afters conditions
    in_sets app
  have hheap : app'.heap
      = (node_prepared deps false Sch args befores afters conditions in_sets app).heap := by
    rw [e]
  refine ⟨?_, ?_, by rw [e], ?_⟩
  · intro x nx hx hnx hs
    rw [hheap]
    exact e1 x Sch hx ((scheduler_of_eq_some_iff _ _ _).2 ⟨nx, hnx, hs⟩) hc
  · intro y ny hy hny hs
    rw [hheap]
    exact e2 y Sch hy ((scheduler_of_eq_some_iff _ _ _).2 ⟨ny, hny, hs⟩) hc
  · rw [hheap, (node_prepared_step deps false Sch args befores afters conditions in_sets
      app).scheduler_eq, scheduler_of_append_new, if_pos rfl]
    rfl

/-- C15 at a concrete call: nodes 0 and 1 are registered in stage 100; a third node is
registered in stage 100 with `after(node 0)` and `before(node 1)`. -/
theorem C15_explicit_edges_inserted_witness :
    add_system spec_deps 100 [] [some 1] [some 0] [] []
        (registered spec_deps [.add_system 100 [] [] [] [] [], .add_system 100 [] [] [] [] []])
        = .ok { m_systems := [0, 1, 2]
                heap := [new_system_node false 100 [],
                         { new_system_node false 100 [] with user_defined_before := [2] },
                         { new_system_node false 100 [] with user_defined_before := [0] }] }
      ∧ (registered spec_deps
          [.add_system 100 [] [] [] [] [], .add_system 100 [] [] [] [] []]).heap.length = 2
      ∧ 0 ∈ user_before [new_system_node false 100 [],
            { new_system_node false 100 [] with user_defined_before := [2] },
            { new_system_node false 100 [] with user_defined_before := [0] }] 2
      ∧ 2 ∈ user_before [new_system_node false 100 [],
            { new_system_node false 100 [] with user_defined_before := [2] },
            { new_system_node false 100 [] with user_defined_before := [0] }] 1 :=
  ⟨rfl, rfl,
   (C15_explicit_edges_inserted spec_deps 100 [] [some 1] [some 0] [] []
      (registered spec_deps [.add_system 100 [] [] [] [] [], .add_system 100 [] [] [] [] []])
      _ rfl).1 0 (new_system_node false 100 []) (by simp) rfl rfl,
   (C15_explicit_edges_inserted spec_deps 100 [] [some 1] [some 0] [] []
      (registered spec_deps [.add_system 100 [] [] [] [] [], .add_system 100 [] [] [] [] []])
      _ rfl).2.1 1 (new_system_node false 100 []) (by simp) rfl rfl⟩

theorem afters_loop_cons (deps : Deps) (Sch new_node : Nat) (r : Option Nat)
    (rs : List (Option Nat)) (heap : List SystemNode) :
    afters_loop deps Sch new_node (r :: rs) heap
      = afters_loop deps Sch new_node rs (afters_loop deps Sch new_node [r] heap) := rfl

theorem befores_loop_cons (deps : Deps) (Sch new_node : Nat) (r : Option Nat)
    (rs : List (Option Nat)) (heap : List SystemNode) :
    befores_loop deps Sch new_node (r :: rs) heap
      = befores_loop deps Sch new_node rs (befores_loop deps Sch new_node [r] heap) := rfl

/-- A handle to a node whose scheduler does not cast to `Sch` can be removed from
`afters` without changing what the loop does. -/
theorem afters_loop_drop (deps : Deps) (Sch new_node x d : Nat)
    (hc : dynamic_cast deps Sch d = false) (afters : List (Option Nat))
    (heap : List SystemNode) (hd : scheduler_of heap x = some d) :
    afters_loop deps Sch new_node afters heap
      = afters_loop deps Sch new_node (afters.filter (fun r => r != some x)) heap := by
  induction afters generalizing heap with
  | nil => rfl
  | cons r rs ih =>
    rw [afters_loop_cons]
    by_cases hr : r = some x
    · subst hr
      have hstep : afters_loop deps Sch new_node [some x] heap = heap := by
        obtain ⟨n, hn, hnd⟩ := (scheduler_of_eq_some_iff _ _ _).1 hd
        simp [afters_loop, hn, hnd, hc]
      rw [hstep, List.filter_cons_of_neg (by simp)]
      exact ih heap hd
    · rw [List.filter_cons_of_pos (by simpa using hr),
        afters_loop_cons deps Sch new_node r (rs.filter (fun r => r != some x)) heap]
      apply ih
      rw [(afters_loop_step deps Sch new_node [r] heap).scheduler_of_eq]
      exact hd

/-- A handle to a node whose scheduler does not cast to `Sch` can be removed from
`befores` without changing what the loop does. -/
theorem befores_loop_drop (deps : Deps) (Sch new_node x d : Nat)
    (hc : dynamic_cast deps Sch d = false) (befores : List (Option Nat))
    (heap : List SystemNode) (hd : scheduler_of heap x = some d) :
    befores_loop deps Sch new_node befores heap
      = befores_loop deps Sch new_node (befores.filter (fun r => r != some x)) heap := by
  induction befores generalizing heap with
  | nil => rfl
  | cons r rs ih =>
    rw [befores_loop_cons]
    by_cases hr : r = some x
    · subst hr
      have hstep : befores_loop deps Sch new_node [some x] heap = heap := by
        obtain ⟨n, hn, hnd⟩ := (scheduler_of_eq_some_iff _ _ _).1 hd
        simp [befores_loop, hn, hnd, hc]
      rw [hstep, List.filter_cons_of_neg (by simp)]
      exact ih heap hd
    · rw [List.filter_cons_of_pos (by simpa using hr),
        befores_loop_cons deps Sch new_node r (rs.filter (fun r => r != some x)) heap]
      apply ih
      rw [(befores_loop_step deps Sch new_node [r] heap).scheduler_of_eq]
      exact hd

theorem node_prepared_drop (deps : Deps) (in_main : Bool) (Sch : Nat) (args : List Param)
    (befores afters : List (Option Nat)) (conditions : List Nat)
    (in_sets : List (Nat × Nat)) (app : App) (x d : Nat)
    (hd : scheduler_of app.heap x = some d) (hc : dynamic_cast deps Sch d = false) :
    node_prepared deps in_main Sch args befores afters conditions in_sets app
      = node_prepared deps in_main Sch args (befores.filter (fun r => r != some x))
          (afters.filter (fun r => r != some x)) conditions in_sets app := by
  unfold node_prepared
  simp only
  have s1 : EdgeStep (fun _ _ => False) (app.heap ++ [new_system_node in_main Sch args])
      (update_node (app.heap ++ [new_system_node in_main Sch args]) app.heap.length
        (fun n => { n with conditions := conditions })) :=
    edgeStep_update_node _ _ app.heap.length _ (fun x => ⟨rfl, rfl, rfl⟩)
  have hd2 : scheduler_of (update_node (app.heap ++ [new_system_node in_main Sch args])
      app.heap.length (fun n => { n with conditions := conditions })) x = some d := by
    rw [s1.scheduler_eq, scheduler_of_append_new,
      if_neg (Nat.ne_of_lt (scheduler_of_lt _ _ _ hd))]
    exact hd
  have hd3 : scheduler_of (afters_loop deps Sch app.heap.length afters
      (update_node (app.heap ++ [new_system_node in_main Sch args])
        app.heap.length (fun n => { n with conditions := conditions }))) x = some d := by
    rw [(afters_loop_step deps Sch app.heap.length afters _).scheduler_of_eq]
    exact hd2
  rw [befores_loop_drop deps Sch app.heap.length x d hc befores _ hd3,
    afters_loop_drop deps Sch app.heap.length x d hc afters _ hd2]

/-- C16: a handle in `before(...)` or `after(...)` to an allocated node whose scheduler
does not cast to the stage type of the call is ignored: the call has the outcome it has
with every occurrence of that handle removed (so the handle raises no error); and when
the call completes, the node is not in the `user_defined_before` of the new node, its
own `user_defined_before` is as it was, and the new node is appended to the registered
systems. -/
theorem C16_cross_stage_reference_ignored (deps : Deps) (Sch : Nat) (args : List Param)
    (befores afters : List (Option Nat)) (conditions : List Nat)
    (in_sets : List (Nat × Nat)) (app : App) (x : Nat) (nx : SystemNode)
    (hx : app.heap[x]? = some nx) (hcast : dynamic_cast deps Sch nx.scheduler = false) :
    add_system deps Sch args befores afters conditions in_sets app
        = add_system deps Sch args (befores.filter (fun r => r != some x))
            (afters.filter (fun r => r != some x)) conditions in_sets app
      ∧ ∀ app2, add_system deps Sch args befores afters conditions in_sets app = .ok app2 →
          x ∉ user_before app2.heap app.heap.length
          ∧ (∀ a, a ∈ user_before app2.heap x ↔ a ∈ user_before app.heap x)
          ∧ app2.m_systems = app.m_systems ++ [app.heap.length] := by
  have hd : scheduler_of app.heap x = some nx.scheduler :=
    (scheduler_of_eq_some_iff _ _ _).2 ⟨nx, hx, rfl⟩
  have hlt : x < app.heap.length := scheduler_of_lt _ _ _ hd
  constructor
  · rw [add_system, add_system, add_system_inner_eq, add_system_inner_eq,
      node_prepared_drop deps false Sch args befores afters conditions in_sets app x
        nx.scheduler hd hcast]
  · intro app2 h
    have e := add_system_ok deps Sch args befores afters conditions in_sets app app2 h
    have hheap : app2.heap
        = (node_prepared deps false Sch args befores afters conditions in_sets app).heap := by
      rw [e]
    have st := node_prepared_step deps false Sch args befores afters conditions in_sets app
    have hcontra : ¬ ∃ d, scheduler_of app.heap x = some d ∧ dynamic_cast deps Sch d = true := by
      rintro ⟨d, h1, h2⟩
      rw [hd] at h1
      injection h1 with h1
      rw [← h1, hcast] at h2
      cases h2
    refine ⟨?_, ?_, by rw [e]⟩
    · intro hin
      rw [hheap] at hin
      rcases st.added _ _ hin with h1 | ⟨_, h2⟩ | ⟨h2, _⟩ | ⟨h2, _⟩
      · rw [user_before_append_new _ _ rfl] at h1
        have := mem_user_before_lt _ _ _ h1
        omega
      · exact hcontra h2
      · omega
      · omega
    · intro a
      rw [hheap]
      constructor
      · intro hin
        rcases st.added _ _ hin with h1 | ⟨h2, _⟩ | ⟨_, h2⟩ | ⟨_, h2⟩
        · rw [user_before_append_new _ _ rfl] at h1
          exact h1
        · omega
        · exact absurd h2 hcontra
        · omega
      · intro hin
        apply st.kept
        rw [user_before_append_new _ _ rfl]
        exact hin

/-- C16 at a concrete call: node 0 is registered in stage 100; a node is registered in
stage 101 with `after(node 0)` and `before(node 0)`. The call completes as if the two
handles were absent and no edge links the two nodes. -/
theorem C16_cross_stage_reference_ignored_witness :
    add_system spec_deps 101 [] [some 0] [some 0] [] []
        (registered spec_deps [.add_system 100 [] [] [] [] []])
      = add_system spec_deps 101 [] [] [] [] []
        (registered spec_deps [.add_system 100 [] [] [] [] []])
      ∧ add_system spec_deps 101 [] [some 0] [some 0] [] []
          (registered spec_deps [.add_system 100 [] [] [] [] []])
        = .ok (registered spec_deps
            [.add_system 100 [] [] [] [] [], .add_system 101 [] [some 0] [some 0] [] []])
      ∧ 0 ∉ user_before (registered spec_deps
          [.add_system 100 [] [] [] [] [], .add_system 101 [] [some 0] [some 0] [] []]).heap 1
      ∧ (registered spec_deps
          [.add_system 100 [] [] [] [] [], .add_system 101 [] [some 0] [some 0] [] []]).m_systems
          = [0, 1] :=
  ⟨(C16_cross_stage_reference_ignored spec_deps 101 [] [some 0] [some 0] [] []
      (registered spec_deps [.add_system 100 [] [] [] [] []]) 0
      (new_system_node false 100 []) rfl (by decide)).1,
   rfl,
   ((C16_cross_stage_reference_ignored spec_deps 101 [] [some 0] [some 0] [] []
      (registered spec_deps [.add_system 100 [] [] [] [] []]) 0
      (new_system_node false 100 []) rfl (by decide)).2 _ rfl).1,
   ((C16_cross_stage_reference_ignored spec_deps 101 [] [some 0] [some 0] [] []
      (registered spec_deps [.add_system 100 [] [] [] [] []]) 0
      (new_system_node false 100 []) rfl (by decide)).2 _ rfl).2.2⟩

/-- C17: set membership orders only nodes of related stage types. An entry that
`configure_sets` adds to a `user_defined_before` set links two nodes with the same
`scheduler_type`; an entry that a completed `add_system` adds links two nodes whose
scheduler types are equal or one derived from the other, so with stage types unrelated
by inheritance they are equal. -/
theorem C17_sets_never_order_across_stages (deps : Deps) :
    (∀ (T arg : Nat) (args : List Nat) (app : App) (a b : Nat),
        a ∈ user_before (configure_sets T arg args app).heap b → a ∉ user_before app.heap b →
        ∃ s, stage_type_of app.heap a = some s ∧ stage_type_of app.heap b = some s)
      ∧ (∀ (Sch : Nat) (args : List Param) (befores afters : List (Option Nat))
          (conditions : List Nat) (in_sets : List (Nat × Nat)) (app app2 : App),
        add_system deps Sch args befores afters conditions in_sets app = .ok app2 →
        ∀ a b, a ∈ user_before app2.heap b → a ∉ user_before app.heap b →
        ∃ da db, scheduler_of app2.heap a = some da ∧ scheduler_of app2.heap b = some db
          ∧ (da = db ∨ deps.is_base_of db da = true ∨ deps.is_base_of da db = true)) := by
  constructor
  · intro T arg args app a b hin hnot
    rcases (configure_sets_heapStep T arg args app).added a b hin with h | h
    · exact absurd h hnot
    · exact h
  · intro Sch args befores afters conditions in_sets app app2 h a b hin hnot
    have e := add_system_ok deps Sch args befores afters conditions in_sets app app2 h
    have hheap : app2.heap
        = (node_prepared deps false Sch args befores afters conditions in_sets app).heap := by
      rw [e]
    have st := node_prepared_step deps false Sch args befores afters conditions in_sets app
    have hsched : ∀ m, scheduler_of app2.heap m
        = if m = app.heap.length then some Sch else scheduler_of app.heap m := by
      intro m
      rw [hheap, st.scheduler_eq, scheduler_of_append_new]
      rfl
    have hold : ∀ m d, scheduler_of app.heap m = some d → scheduler_of app2.heap m = some d := by
      intro m d hd
      rw [hsched, if_neg (Nat.ne_of_lt (scheduler_of_lt _ _ _ hd))]
      exact hd
    have hnew : scheduler_of app2.heap app.heap.length = some Sch := by
      rw [hsched, if_pos rfl]
    have hcast : ∀ d, dynamic_cast deps Sch d = true → d = Sch ∨ deps.is_base_of Sch d = true := by
      intro d hd
      simpa [dynamic_cast] using hd
    rw [hheap] at hin
    rcases st.added a b hin with h1 | ⟨hb, d, hd, hc⟩ | ⟨ha, d, hd, hc⟩ | ⟨ha, hb⟩
    · rw [user_before_append_new _ _ rfl] at h1
      exact absurd h1 hnot
    · subst hb
      refine ⟨d, Sch, hold a d hd, hnew, ?_⟩
      rcases hcast d hc with h2 | h2
      · exact Or.inl h2
      · exact Or.inr (Or.inl h2)
    · subst ha
      refine ⟨Sch, d, hnew, hold b d hd, ?_⟩
      rcases hcast d hc with h2 | h2
      · exact Or.inl h2.symm
      · exact Or.inr (Or.inr h2)
    · subst ha
      subst hb
      exact ⟨Sch, Sch, hnew, hnew, Or.inl rfl⟩

/-- C17 at concrete states: nodes 0 (stage 100) and 1 (stage 101) have the values 0 and
1 of set type 9. Neither `configure_sets` with the order 0, 1 nor the registration of
node 1 with the order already configured puts node 0 into the set of node 1. -/
theorem C17_sets_never_order_across_stages_witness :
    0 ∉ user_before (configure_sets 9 0 [1] (registered spec_deps
        [.add_system 100 [] [] [] [] [(9, 0)], .add_system 101 [] [] [] [] [(9, 1)]])).heap 1
      ∧ 0 ∉ user_before (registered spec_deps
        [.configure_sets 9 0 [1], .add_system 100 [] [] [] [] [(9, 0)],
          .add_system 101 [] [] [] [] [(9, 1)]]).heap 1 := by
  constructor
  · intro hin
    obtain ⟨s, h1, h2⟩ := (C17_sets_never_order_across_stages spec_deps).1 9 0 [1]
      (registered spec_deps
        [.add_system 100 [] [] [] [] [(9, 0)], .add_system 101 [] [] [] [] [(9, 1)]])
      0 1 hin (by decide)
    have e1 : stage_type_of (registered spec_deps
        [.add_system 100 [] [] [] [] [(9, 0)], .add_system 101 [] [] [] [] [(9, 1)]]).heap 0
        = some 100 := by decide
    have e2 : stage_type_of (registered spec_deps
        [.add_system 100 [] [] [] [] [(9, 0)], .add_system 101 [] [] [] [] [(9, 1)]]).heap 1
        = some 101 := by decide
    rw [e1] at h1
    rw [e2] at h2
    injection h1 with h1
    injection h2 with h2
    omega
  · intro hin
    obtain ⟨da, db, h1, h2, h3⟩ := (C17_sets_never_order_across_stages spec_deps).2 101 []
      [] [] [] [(9, 1)]
      (registered spec_deps [.configure_sets 9 0 [1], .add_system 100 [] [] [] [] [(9, 0)]])
      _ rfl 0 1 hin (by decide)
    have e1 : scheduler_of (registered spec_deps
        [.configure_sets 9 0 [1], .add_system 100 [] [] [] [] [(9, 0)],
          .add_system 101 [] [] [] [] [(9, 1)]]).heap 0 = some 100 := by decide
    have e2 : scheduler_of (registered spec_deps
        [.configure_sets 9 0 [1], .add_system 100 [] [] [] [] [(9, 0)],
          .add_system 101 [] [] [] [] [(9, 1)]]).heap 1 = some 101 := by decide
    have h1b : some 100 = some da := e1.symm.trans h1
    have h2b : some 101 = some db := e2.symm.trans h2
    injection h1b with h1b
    injection h2b with h2b
    subst h1b
    subst h2b
    rcases h3 with h3 | h3 | h3
    · omega
    · exact absurd h3 (by decide)
    · exact absurd h3 (by decide)

/-! ## Claims about runs and plugins -/

theorem System_run_foldl_descriptor (deltas : List ℚ) (s : BasicSystem) :
    (deltas.foldl System_run s).has_command = s.has_command
      ∧ (deltas.foldl System_run s).has_query = s.has_query
      ∧ (deltas.foldl System_run s).query_types = s.query_types
      ∧ (deltas.foldl System_run s).resource_types = s.resource_types
      ∧ (deltas.foldl System_run s).resource_const = s.resource_const
      ∧ (deltas.foldl System_run s).event_read_types = s.event_read_types
      ∧ (deltas.foldl System_run s).event_write_types = s.event_write_types
      ∧ (deltas.foldl System_run s).state_types = s.state_types
      ∧ (deltas.foldl System_run s).next_state_types = s.next_state_types := by
  induction deltas generalizing s with
  | nil => exact ⟨rfl, rfl, rfl, rfl, rfl, rfl, rfl, rfl, rfl⟩
  | cons d ds ih =>
    simp only [List.foldl_cons]
    exact ih (System_run s d)

/-- C18: a run of a system changes only `avg_time`: after any number of runs of the
system constructed from a parameter list, `has_command`, `has_query`, `query_types` and
the six type lists are the ones the constructor built. -/
theorem C18_run_keeps_descriptor (ps : List Param) (deltas : List ℚ) (delta : ℚ) :
    System_run (System ps) delta
        = { System ps with avg_time := delta * (1 / 10) + (System ps).avg_time * (9 / 10) }
      ∧ (deltas.foldl System_run (System ps)).has_command = (System ps).has_command
      ∧ (deltas.foldl System_run (System ps)).has_query = (System ps).has_query
      ∧ (deltas.foldl System_run (System ps)).query_types = (System ps).query_types
      ∧ (deltas.foldl System_run (System ps)).resource_types = (System ps).resource_types
      ∧ (deltas.foldl System_run (System ps)).resource_const = (System ps).resource_const
      ∧ (deltas.foldl System_run (System ps)).event_read_types = (System ps).event_read_types
      ∧ (deltas.foldl System_run (System ps)).event_write_types
          = (System ps).event_write_types
      ∧ (deltas.foldl System_run (System ps)).state_types = (System ps).state_types
      ∧ (deltas.foldl System_run (System ps)).next_state_types
          = (System ps).next_state_types :=
  ⟨rfl, System_run_foldl_descriptor deltas (System ps)⟩

/-- C19: once `add_plugin` of a plugin of type `T` has completed, another `add_plugin`
of a plugin of type `T`, whatever its value and its `build`, returns the app unchanged;
its `build` is not run. -/
theorem C19_second_add_plugin_ignored (deps : Deps) (T : PluginType) (value1 value2 : Nat)
    (build1 build2 : App → Except RegError App) (app app1 : App)
    (h : add_plugin deps T value1 build1 app = .ok app1) :
    add_plugin deps T value2 build2 app1 = .ok app1 := by
  have hin : T ∈ app1.m_plugins := by
    rcases (add_plugin_ok_iff deps T value1 build1 app app1).1 h with ⟨h1, rfl⟩ | ⟨_, a, _, rfl⟩
    · exact h1
    · simp
  exact (add_plugin_ok_iff deps T value2 build2 app1 app1).2 (Or.inl ⟨hin, rfl⟩)

/-- C19 at a concrete app: after a plugin of type 3 is added to a new app, adding a
plugin of type 3 whose `build` would end with an error returns the same app. -/
theorem C19_second_add_plugin_ignored_witness :
    add_plugin spec_deps (.other 3) 0 (fun app => apply_ops spec_deps [] app) App_new
        = .ok (registered spec_deps [.add_plugin 3 0 []])
      ∧ add_plugin spec_deps (.other 3) 7 (fun _ => .error .CycleDetected)
          (registered spec_deps [.add_plugin 3 0 []])
        = .ok (registered spec_deps [.add_plugin 3 0 []]) :=
  ⟨rfl, C19_second_add_plugin_ignored spec_deps (.other 3) 0 7
    (fun app => apply_ops spec_deps [] app) (fun _ => .error .CycleDetected) App_new _ rfl⟩

theorem add_system_loop_frame (deps : Deps) (Sch : Nat) (args : List Param)
    (befores afters : List (Option Nat)) (conditions : List Nat)
    (in_sets : List (Nat × Nat)) (app app2 : App)
    (h : add_system deps Sch args befores afters conditions in_sets app = .ok app2) :
    app2.m_loop_enabled = app.m_loop_enabled ∧ app2.m_plugins = app.m_plugins := by
  have e := add_system_ok deps Sch args befores afters conditions in_sets app app2 h
  have f := node_prepared_frame deps false Sch args befores afters conditions in_sets app
  rw [e]
  exact ⟨f.1, f.2.1⟩

theorem add_system_main_loop_frame (deps : Deps) (Sch : Nat) (args : List Param)
    (befores afters : List (Option Nat)) (conditions : List Nat)
    (in_sets : List (Nat × Nat)) (app app2 : App)
    (h : add_system_main deps Sch args befores afters conditions in_sets app = .ok app2) :
    app2.m_loop_enabled = app.m_loop_enabled ∧ app2.m_plugins = app.m_plugins := by
  have e := add_system_main_ok deps Sch args befores afters conditions in_sets app app2 h
  have f := node_prepared_frame deps true Sch args befores afters conditions in_sets app
  rw [e]
  exact ⟨f.1, f.2.1⟩

mutual
/-- The loop flag is set by no registration call other than `add_plugin(LoopPlugin)`. -/
theorem apply_op_loop_origin (deps : Deps) :
    ∀ (op : RegOp) (app app2 : App), apply_op deps op app = .ok app2 →
      app2.m_loop_enabled = true →
      app.m_loop_enabled = true ∨ op_adds_loop_plugin op = true
  | .add_system Sch args befores afters conditions in_sets, app, app2, h, hf => by
    simp only [apply_op] at h
    rw [(add_system_loop_frame deps Sch args befores afters conditions in_sets app app2 h).1]
      at hf
    exact Or.inl hf
  | .add_system_main Sch args befores afters conditions in_sets, app, app2, h, hf => by
    simp only [apply_op] at h
    rw [(add_system_main_loop_frame deps Sch args befores afters conditions in_sets app app2
      h).1] at hf
    exact Or.inl hf
  | .configure_sets T arg args, app, app2, h, hf => by
    simp only [apply_op, Except.ok.injEq] at h
    subst h
    exact Or.inl hf
  | .add_loop_plugin, app, app2, _, _ => by
    exact Or.inr (by rw [op_adds_loop_plugin])
  | .add_plugin type_hash value build, app, app2, h, hf => by
    simp only [apply_op, add_plugin_ok_iff] at h
    rcases h with ⟨_, rfl⟩ | ⟨_, app1, hb, rfl⟩
    · exact Or.inl hf
    · rcases apply_ops_loop_origin deps build app app1 hb hf with h2 | h2
      · exact Or.inl h2
      · exact Or.inr (by rw [op_adds_loop_plugin]; exact h2)
theorem apply_ops_loop_origin (deps : Deps) :
    ∀ (ops : List RegOp) (app app2 : App), apply_ops deps ops app = .ok app2 →
      app2.m_loop_enabled = true →
      app.m_loop_enabled = true ∨ adds_loop_plugin ops = true
  | [], app, app2, h, hf => by
    simp only [apply_ops, Except.ok.injEq] at h
    subst h
    exact Or.inl hf
  | op :: ops, app, app2, h, hf => by
    simp only [apply_ops] at h
    cases h1 : apply_op deps op app with
    | error e => rw [h1] at h; cases h
    | ok app1 =>
      rw [h1] at h
      simp only at h
      rw [adds_loop_plugin, Bool.or_eq_true]
      rcases apply_ops_loop_origin deps ops app1 app2 h hf with h2 | h2
      · rcases apply_op_loop_origin deps op app app1 h1 h2 with h3 | h3
        · exact Or.inl h3
        · exact Or.inr (Or.inl h3)
      · exact Or.inr (Or.inr h2)
end

theorem System_avg_time (ps : List Param) : (System ps).avg_time = 0 := by
  simp [System, add_infos_avg_time]

/-- C24: a system starts with the running average 0, and a run whose measured duration
is `d` milliseconds replaces the average `old` by `0.1 * d + 0.9 * old`, over exact
rationals; this holds for the first run and for a run after any number of runs. -/
theorem C24_run_updates_average (ps : List Param) (s : BasicSystem) (d : ℚ) (ds : List ℚ) :
    (System ps).avg_time = 0
      ∧ (System_run s d).avg_time = 0.1 * d + 0.9 * s.avg_time
      ∧ (System_run (System ps) d).avg_time = 0.1 * d
      ∧ ((ds ++ [d]).foldl System_run (System ps)).avg_time
          = 0.1 * d + 0.9 * (ds.foldl System_run (System ps)).avg_time := by
  have h1 : ∀ (s : BasicSystem), (System_run s d).avg_time = 0.1 * d + 0.9 * s.avg_time := by
    intro s
    show d * (1 / 10) + s.avg_time * (9 / 10) = 0.1 * d + 0.9 * s.avg_time
    norm_num
    ring
  refine ⟨System_avg_time ps, h1 s, ?_, ?_⟩
  · rw [h1, System_avg_time]
    ring
  · rw [List.foldl_append, List.foldl_cons, List.foldl_nil, h1]

/-- The conflict check gives the same answer in both directions for descriptors without
stored query triples. -/
theorem contrary_to_comm_of_query_types_nil
    (end_ne : List TypeInfo → List TypeInfo → TypeInfo → Bool) (a b : BasicSystem)
    (ha : a.query_types = []) (hb : b.query_types = []) :
    contrary_to end_ne a b = contrary_to end_ne b a := by
  rw [contrary_to_of_query_types_nil end_ne a b ha, contrary_to_of_query_types_nil end_ne b a hb]
  generalize a.has_command = ac
  generalize a.has_query = aq
  generalize b.has_command = bc
  generalize b.has_query = bq
  generalize a.resource_types.isEmpty = ae
  generalize b.resource_types.isEmpty = be
  generalize a.event_write_types.any
    (fun ty => b.event_write_types.contains ty || b.event_read_types.contains ty) = e1
  generalize b.event_write_types.any
    (fun ty => a.event_write_types.contains ty || a.event_read_types.contains ty) = e2
  generalize a.next_state_types.any (fun ty => b.next_state_types.contains ty) = s1
  generalize b.next_state_types.any (fun ty => a.next_state_types.contains ty) = s2
  cases ac <;> cases aq <;> cases bc <;> cases bq <;> cases ae <;> cases be <;>
    cases e1 <;> cases e2 <;> cases s1 <;> cases s2 <;> rfl

/-- C30: `contrary_to` is symmetric on the descriptors of constructed systems: for all
parameter lists `ps` and `qs`, `contrary_to(System ps, System qs)` equals
`contrary_to(System qs, System ps)`, also after any number of runs of either system. -/
theorem C30_contrary_to_symmetric
    (end_ne : List TypeInfo → List TypeInfo → TypeInfo → Bool) (ps qs : List Param)
    (ds es : List ℚ) :
    contrary_to end_ne (System ps) (System qs) = contrary_to end_ne (System qs) (System ps)
      ∧ contrary_to end_ne (ds.foldl System_run (System ps)) (es.foldl System_run (System qs))
        = contrary_to end_ne (es.foldl System_run (System qs))
            (ds.foldl System_run (System ps)) := by
  have hq : ∀ (ps : List Param) (ds : List ℚ),
      (ds.foldl System_run (System ps)).query_types = [] := by
    intro ps ds
    rw [(System_run_foldl_descriptor ds (System ps)).2.2.1]
    exact System_query_types ps
  exact ⟨contrary_to_comm_of_query_types_nil end_ne _ _ (System_query_types ps)
      (System_query_types qs),
    contrary_to_comm_of_query_types_nil end_ne _ _ (hq ps ds) (hq qs es)⟩

/-! ## Claims about system parameters, states and conditions -/

theorem map_set_same {α : Type} (m : Nat → Option α) (key : Nat) (value : α) :
    map_set m key value key = some value := by
  simp [map_set]

theorem map_set_other {α : Type} (m : Nat → Option α) (key k : Nat) (value : α)
    (h : k ≠ key) : map_set m key value k = m k := by
  simp [map_set, h]

/-- C25: after an `EventWriter<Evt>` or an `EventReader<Evt>` is obtained, `m_events` has
a deque for `Evt`: the one it had, or an empty one when it had none; every other deque
and every other member of the app is as before, and the accessor is built from the
deque of `Evt`. -/
theorem C25_event_parameter_creates_queue (Evt : Nat) (app : App) :
    ((value_type_EventWriter_get Evt app).1.m_events Evt = some ((app.m_events Evt).getD [])
        ∧ (∀ k, k ≠ Evt → (value_type_EventWriter_get Evt app).1.m_events k = app.m_events k)
        ∧ (value_type_EventWriter_get Evt app).1
            = { app with m_events := (value_type_EventWriter_get Evt app).1.m_events }
        ∧ (value_type_EventWriter_get Evt app).2.queue = Evt)
      ∧ ((value_type_EventReader_get Evt app).1.m_events Evt
            = some ((app.m_events Evt).getD [])
        ∧ (∀ k, k ≠ Evt → (value_type_EventReader_get Evt app).1.m_events k = app.m_events k)
        ∧ (value_type_EventReader_get Evt app).1
            = { app with m_events := (value_type_EventReader_get Evt app).1.m_events }
        ∧ (value_type_EventReader_get Evt app).2.queue = Evt) := by
  unfold value_type_EventWriter_get value_type_EventReader_get
  cases h : app.m_events Evt with
  | none =>
    refine ⟨⟨?_, ?_, rfl, rfl⟩, ⟨?_, ?_, rfl, rfl⟩⟩
    · exact map_set_same _ _ _
    · exact fun k hk => map_set_other _ _ _ _ hk
    · exact map_set_same _ _ _
    · exact fun k hk => map_set_other _ _ _ _ hk
  | some q =>
    exact ⟨⟨h, fun _ _ => rfl, rfl, rfl⟩, ⟨h, fun _ _ => rfl, rfl, rfl⟩⟩

theorem value_type_Resource_get_none (T : Nat) (app : App)
    (h : app.m_resources T = none) : value_type_Resource_get T app = (app, .empty) := by
  unfold value_type_Resource_get
  rw [h]
  rfl

theorem value_type_Resource_get_some (T : Nat) (app : App) (value : StdAny)
    (h : app.m_resources T = some value) :
    value_type_Resource_get T app = (app, .of T) := by
  unfold value_type_Resource_get resources_index
  rw [h]
  rfl

/-- C26: obtaining a `Resource<T>` leaves the app, and so the resource map, as it was;
when no resource is stored under `T` the accessor is the default constructed one, which
has no value, and when a resource is stored under `T` the accessor is built from the
address of that resource. -/
theorem C26_resource_parameter (T : Nat) (app : App) :
    (value_type_Resource_get T app).1 = app
      ∧ (app.m_resources T = none →
          (value_type_Resource_get T app).2 = Resource.empty
            ∧ (value_type_Resource_get T app).2.has_value = false
            ∧ (value_type_Resource_get T app).1.m_resources T = none)
      ∧ (∀ value, app.m_resources T = some value →
          (value_type_Resource_get T app).2 = Resource.of T
            ∧ (value_type_Resource_get T app).2.has_value = true
            ∧ (value_type_Resource_get T app).1.m_resources T = some value) := by
  cases h : app.m_resources T with
  | none =>
    rw [value_type_Resource_get_none T app h]
    exact ⟨rfl, fun _ => ⟨rfl, rfl, h⟩, fun _ hv => by cases hv⟩
  | some v =>
    rw [value_type_Resource_get_some T app v h]
    refine ⟨rfl, fun hv => ?_, fun value hv => ⟨rfl, rfl, ?_⟩⟩
    · cases hv
    · show app.m_resources T = some value
      rw [h, hv]

theorem map_set_map_set {α : Type} (m : Nat → Option α) (key : Nat) (v w : α) :
    map_set (map_set m key v) key w = map_set m key w := by
  funext k
  unfold map_set
  split <;> rfl

theorem map_set_of_eq {α : Type} (m : Nat → Option α) (key : Nat) (v : α)
    (h : m key = some v) : map_set m key v = m := by
  funext k
  unfold map_set
  split
  · rename_i hk
    rw [hk, h]
  · rfl

/-- The state-update function when both resources are stored. -/
theorem run_state_update_both (State_T NextState_T cur nxt : Nat) (just_created : Bool)
    (app : App) (hs : app.m_resources State_T = some (.State cur just_created))
    (hn : app.m_resources NextState_T = some (.NextState nxt)) :
    run_state_update State_T NextState_T app
      = { app with m_resources := map_set app.m_resources State_T (.State nxt false) } := by
  have hne : NextState_T ≠ State_T := by
    intro e
    rw [e, hs] at hn
    cases hn
  unfold run_state_update
  rw [value_type_Resource_get_some State_T app _ hs]
  simp only
  rw [value_type_Resource_get_some NextState_T app _ hn]
  simp only [state_update, Resource.has_value, Bool.and_self, if_true,
    State_set_just_created, hs, NextState_m_state, map_set_other _ _ _ _ hne, hn,
    State_set_m_state, map_set_same, map_set_map_set]

/-- The state-update function when a resource is missing. -/
theorem run_state_update_missing (State_T NextState_T : Nat) (app : App)
    (h : app.m_resources State_T = none ∨ app.m_resources NextState_T = none) :
    run_state_update State_T NextState_T app = app := by
  unfold run_state_update
  cases hs : app.m_resources State_T with
  | none =>
    rw [value_type_Resource_get_none State_T app hs]
    simp only [state_update, Resource.has_value, Bool.false_and, Bool.false_eq_true, if_false]
    cases hn : app.m_resources NextState_T with
    | none => rw [value_type_Resource_get_none NextState_T app hn]
    | some v => rw [value_type_Resource_get_some NextState_T app v hn]
  | some v =>
    rw [value_type_Resource_get_some State_T app v hs]
    simp only
    rcases h with h | h
    · rw [hs] at h
      cases h
    · rw [value_type_Resource_get_none NextState_T app h]
      simp only [state_update, Resource.has_value, Bool.and_false, Bool.false_eq_true,
        if_false]

/-- C21: when a `State<T>` and a `NextState<T>` are stored, the state-update function
makes the `State<T>` hold the value of the `NextState<T>` with `just_created` false and
changes nothing else, in particular not the `NextState<T>`; so does every number of
calls, the first one included. When one of the two resources is missing the app is
unchanged. -/
theorem C21_state_update_copies_next (State_T NextState_T cur nxt : Nat)
    (just_created : Bool) (app : App)
    (hs : app.m_resources State_T = some (.State cur just_created))
    (hn : app.m_resources NextState_T = some (.NextState nxt)) :
    run_state_update State_T NextState_T app
        = { app with m_resources := map_set app.m_resources State_T (.State nxt false) }
      ∧ (run_state_update State_T NextState_T app).m_resources State_T
        = some (.State nxt false)
      ∧ (run_state_update State_T NextState_T app).m_resources NextState_T
        = some (.NextState nxt)
      ∧ (∀ k, k ≠ State_T →
          (run_state_update State_T NextState_T app).m_resources k = app.m_resources k)
      ∧ (∀ n, (Nat.iterate (run_state_update State_T NextState_T) (n + 1) app).m_resources
          State_T = some (.State nxt false))
      ∧ (∀ app0 : App,
          app0.m_resources State_T = none ∨ app0.m_resources NextState_T = none →
          run_state_update State_T NextState_T app0 = app0) := by
  have hne : NextState_T ≠ State_T := by
    intro e
    rw [e, hs] at hn
    cases hn
  have e := run_state_update_both State_T NextState_T cur nxt just_created app hs hn
  have hs1 : (run_state_update State_T NextState_T app).m_resources State_T
      = some (.State nxt false) := by
    rw [e]
    exact map_set_same _ _ _
  have hn1 : (run_state_update State_T NextState_T app).m_resources NextState_T
      = some (.NextState nxt) := by
    rw [e]
    exact (map_set_other _ _ _ _ hne).trans hn
  have fix : run_state_update State_T NextState_T (run_state_update State_T NextState_T app)
      = run_state_update State_T NextState_T app := by
    rw [run_state_update_both State_T NextState_T nxt nxt false _ hs1 hn1,
      map_set_of_eq _ _ _ hs1]
  refine ⟨e, hs1, hn1, ?_, ?_, ?_⟩
  · intro k hk
    rw [e]
    exact map_set_other _ _ _ _ hk
  · intro n
    have it : ∀ n, Nat.iterate (run_state_update State_T NextState_T) (n + 1) app
        = run_state_update State_T NextState_T app := by
      intro n
      induction n with
      | zero => rfl
      | succ n ih =>
        rw [Function.iterate_succ_apply', ih, fix]
    rw [it n]
    exact hs1
  · intro app0 h
    exact run_state_update_missing State_T NextState_T app0 h

/-- C21 at a concrete app: `State<T>` is stored under key 1 with value 0 and
`just_created` true, `NextState<T>` under key 2 with value 5. -/
theorem C21_state_update_copies_next_witness :
    (run_state_update 1 2
        { m_resources := map_set (map_set (fun _ => none) 1 (.State 0 true)) 2
            (.NextState 5) }).m_resources 1 = some (.State 5 false)
      ∧ (run_state_update 1 2
        { m_resources := map_set (map_set (fun _ => none) 1 (.State 0 true)) 2
            (.NextState 5) }).m_resources 2 = some (.NextState 5) :=
  ⟨(C21_state_update_copies_next 1 2 0 5 true
      { m_resources := map_set (map_set (fun _ => none) 1 (.State 0 true)) 2
          (.NextState 5) } rfl rfl).2.1,
   (C21_state_update_copies_next 1 2 0 5 true
      { m_resources := map_set (map_set (fun _ => none) 1 (.State 0 true)) 2
          (.NextState 5) } rfl rfl).2.2.1⟩

/-- C22 (the code at the failing input): `insert_state<T>` and `init_state<T>` push a
state-update system onto `m_state_update` on every call, so a call never leaves the app
unchanged, whatever `insert_resource` and `init_resource` do. Called twice on a new app,
`insert_state<T>(7)` leaves the two resources as the first call made them and two
state-update systems for `T`. -/
theorem C22_insert_state_again_registers_again (deps : Deps)
    (State_T NextState_T state default_state : Nat) (app : App) :
    (insert_state deps State_T NextState_T state app).m_state_update
        = app.m_state_update ++ [state_update_system State_T NextState_T]
      ∧ insert_state deps State_T NextState_T state app ≠ app
      ∧ (init_state deps State_T NextState_T default_state app).m_state_update
        = app.m_state_update ++ [state_update_system State_T NextState_T]
      ∧ init_state deps State_T NextState_T default_state app ≠ app
      ∧ (insert_state spec_deps 1 2 7 App_new).m_state_update = [state_update_system 1 2]
      ∧ (insert_state spec_deps 1 2 7 (insert_state spec_deps 1 2 7 App_new)).m_state_update
        = [state_update_system 1 2, state_update_system 1 2]
      ∧ (insert_state spec_deps 1 2 7 (insert_state spec_deps 1 2 7 App_new)).m_resources
        = (insert_state spec_deps 1 2 7 App_new).m_resources
      ∧ (init_state spec_deps 1 2 0 (insert_state spec_deps 1 2 7 App_new)).m_state_update
        = [state_update_system 1 2, state_update_system 1 2] := by
  have hlen : ∀ (l : List BasicSystem) (x : BasicSystem), l ++ [x] ≠ l := by
    intro l x h
    have := congrArg List.length h
    simp at this
  refine ⟨rfl, ?_, rfl, ?_, rfl, rfl, rfl, rfl⟩
  · intro h
    exact hlen _ _ (congrArg App.m_state_update h)
  · intro h
    exact hlen _ _ (congrArg App.m_state_update h)

/-- C23 (the code at the failing input): no call of `in_state` yields a condition.
The member `condition_state<T>::if_run` is marked `override` (system.h line 369) while
`condition::if_run` is not virtual (line 355), so the check of the specifier fails and,
for every state type and every value `v`, a program that calls `in_state(v)` is
rejected when the class `condition_state<T>` is instantiated: there is no condition
whose evaluation could agree with `State<T>.current == v`. The check would pass for
every derived member were the base member virtual, and the body of
`condition_state<T>::if_run` does compare: on an app holding a `State<T>` it returns
true exactly when the stored value equals `v`. -/
theorem C23_in_state_is_rejected_at_instantiation :
    (∀ (State_T v : Nat),
        in_state State_T v = .error .marked_override_but_does_not_override)
      ∧ override_well_formed condition_if_run_decl condition_state_if_run_decl = false
      ∧ (∀ derived : MemberFunctionDecl,
          override_well_formed { condition_if_run_decl with is_virtual := true } derived
            = true)
      ∧ (∀ (State_T v cur : Nat) (just_created : Bool) (app : App),
          app.m_resources State_T = some (.State cur just_created) →
          (condition_state_if_run State_T v app = true ↔ cur = v)) := by
  refine ⟨fun _ _ => rfl, rfl, ?_, ?_⟩
  · intro derived
    simp [override_well_formed]
  · intro State_T v cur just_created app h
    unfold condition_state_if_run
    rw [value_type_Resource_get_some State_T app _ h]
    simp [State_is_state, h]

/-! ## Claims about the runners -/

theorem stage_type_of_append_new (heap : List SystemNode) (node : SystemNode) (m : Nat) :
    stage_type_of (heap ++ [node]) m
      = if m = heap.length then some node.scheduler_type else stage_type_of heap m := by
  unfold stage_type_of
  rcases Nat.lt_trichotomy m heap.length with h | h | h
  · rw [List.getElem?_append_left h, if_neg (by omega)]
  · subst h
    simp
  · have h1 : (heap ++ [node])[m]? = none := by
      apply List.getElem?_eq_none
      simp
      omega
    have h2 : heap[m]? = none := List.getElem?_eq_none (by omega)
    rw [h1, h2, if_neg (by omega)]

theorem node_prepared_systems_registered (deps : Deps) (in_main : Bool) (Sch : Nat)
    (args : List Param) (befores afters : List (Option Nat)) (conditions : List Nat)
    (in_sets : List (Nat × Nat)) (app : App) (h : systems_registered app) :
    systems_registered
      { node_prepared deps in_main Sch args befores afters conditions in_sets app with
        m_systems := app.m_systems ++ [app.heap.length] } := by
  have st := node_prepared_step deps in_main Sch args befores afters conditions in_sets app
  constructor
  · show app.m_systems ++ [app.heap.length] = List.range
      (node_prepared deps in_main Sch args befores afters conditions in_sets app).heap.length
    rw [st.length_eq, List.length_append, List.length_singleton, List.range_succ, h.1]
  · intro m
    show scheduler_of
        (node_prepared deps in_main Sch args befores afters conditions in_sets app).heap m
      = stage_type_of
        (node_prepared deps in_main Sch args befores afters conditions in_sets app).heap m
    rw [st.scheduler_eq, st.stage_type_eq, scheduler_of_append_new, stage_type_of_append_new,
      h.2 m]
    rfl

/-- Every state reached by registration calls has the registered systems in the order
of their creation. -/
theorem reachable_systems_registered (deps : Deps) (ops : List RegOp) (app : App)
    (h : apply_ops deps ops App_new = .ok app) : systems_registered app := by
  refine apply_ops_induct deps systems_registered ?_ ?_ ?_ ?_ ?_ ops App_new app ?_ h
  · intro Sch args befores afters conditions in_sets app app' hi h
    rw [add_system_ok _ _ _ _ _ _ _ _ _ h]
    exact node_prepared_systems_registered deps false Sch args befores afters conditions
      in_sets app hi
  · intro Sch args befores afters conditions in_sets app app' hi h
    rw [add_system_main_ok _ _ _ _ _ _ _ _ _ h]
    exact node_prepared_systems_registered deps true Sch args befores afters conditions
      in_sets app hi
  · intro T arg args app hi
    have st := configure_sets_heapStep T arg args app
    constructor
    · show app.m_systems = List.range (configure_sets T arg args app).heap.length
      rw [st.length_eq]
      exact hi.1
    · intro m
      rw [st.scheduler_of_eq, st.stage_type_of_eq]
      exact hi.2 m
  · intro app hi _
    exact hi
  · intro T value app hi
    exact hi
  · exact ⟨rfl, fun m => rfl⟩

theorem load_runner_foldl (deps : Deps) (T : Nat) (heap : List SystemNode) (xs : List Nat)
    (runner : SystemRunner) :
    (xs.foldl (fun runner node =>
        match heap[node]? with
        | none => runner
        | some n =>
          if dynamic_cast deps T n.scheduler then runner.add_system node else runner)
        runner).systems_all
      = runner.systems_all ++ xs.filter (fun node =>
          match scheduler_of heap node with
          | some d => dynamic_cast deps T d
          | none => false) := by
  induction xs generalizing runner with
  | nil => simp
  | cons x xs ih =>
    rw [List.foldl_cons, ih]
    cases h : heap[x]? with
    | none =>
      have hp : (match scheduler_of heap x with
          | some d => dynamic_cast deps T d
          | none => false) = false := by
        simp [scheduler_of, h]
      rw [List.filter_cons_of_neg (by simp [hp])]
    | some n =>
      have hp : (match scheduler_of heap x with
          | some d => dynamic_cast deps T d
          | none => false) = dynamic_cast deps T n.scheduler := by
        simp [scheduler_of, h]
      by_cases hc : dynamic_cast deps T n.scheduler = true
      · rw [List.filter_cons_of_pos (by simp [hp, hc])]
        simp [hc, SystemRunner.add_system]
      · rw [List.filter_cons_of_neg (by simp [hp, hc])]
        simp [hc]

/-- The runner that `load_runner<T>` builds holds the registered nodes whose scheduler
casts to `T`, in the order of `m_systems`. -/
theorem load_runner_loop_eq (deps : Deps) (T : Nat) (app : App) :
    (load_runner_loop deps T app).systems_all
      = app.m_systems.filter (fun node =>
          match scheduler_of app.heap node with
          | some d => dynamic_cast deps T d
          | none => false) := by
  exact (load_runner_foldl deps T app.heap app.m_systems {}).trans (List.nil_append _)

/-- C28: in every state reached by registration calls, the runner that `load_runner<T>`
builds holds exactly the registered nodes whose scheduler casts to `T`, each once and
in the order of registration, and it is stored under `T` when no runner was. When no
stage type is derived from another, these are exactly the registered nodes whose stage
type is `T`, and every registered node is in the runner of its own stage type and of no
other. -/
theorem C28_load_runner_holds_stage_nodes (deps : Deps) (ops : List RegOp) (app : App)
    (hreach : apply_ops deps ops App_new = .ok app) (T : Nat) :
    (∀ n, n ∈ (load_runner_loop deps T app).systems_all
        ↔ n ∈ app.m_systems
          ∧ ∃ d, scheduler_of app.heap n = some d ∧ dynamic_cast deps T d = true)
      ∧ (load_runner_loop deps T app).systems_all.Nodup
      ∧ (load_runner_loop deps T app).systems_all.Sublist app.m_systems
      ∧ (app.m_runners T = none →
          (load_runner deps T app).m_runners T = some (load_runner_loop deps T app))
      ∧ ((∀ base derived, deps.is_base_of base derived = false) →
          (∀ n, n ∈ (load_runner_loop deps T app).systems_all
            ↔ n ∈ app.m_systems ∧ stage_type_of app.heap n = some T)
          ∧ ∀ n, n ∈ app.m_systems → ∃ S, stage_type_of app.heap n = some S
            ∧ ∀ T2, n ∈ (load_runner_loop deps T2 app).systems_all ↔ T2 = S) := by
  have inv := reachable_systems_registered deps ops app hreach
  have hmem : ∀ T n, n ∈ (load_runner_loop deps T app).systems_all
      ↔ n ∈ app.m_systems
        ∧ ∃ d, scheduler_of app.heap n = some d ∧ dynamic_cast deps T d = true := by
    intro T n
    rw [load_runner_loop_eq, List.mem_filter]
    cases scheduler_of app.heap n with
    | none => simp
    | some d => simp
  have hplain : (∀ base derived, deps.is_base_of base derived = false) →
      ∀ T n, n ∈ (load_runner_loop deps T app).systems_all
        ↔ n ∈ app.m_systems ∧ stage_type_of app.heap n = some T := by
    intro hb T n
    rw [hmem, inv.2 n]
    constructor
    · rintro ⟨h1, d, h2, h3⟩
      refine ⟨h1, ?_⟩
      simp only [dynamic_cast, hb, Bool.or_false, beq_iff_eq] at h3
      rw [h2, h3]
    · rintro ⟨h1, h2⟩
      exact ⟨h1, T, h2, by simp [dynamic_cast]⟩
  refine ⟨hmem T, ?_, ?_, ?_, ?_⟩
  · rw [load_runner_loop_eq]
    apply List.Nodup.filter
    rw [inv.1]
    exact List.nodup_range _
  · rw [load_runner_loop_eq]
    exact List.filter_sublist _
  · intro hnone
    simp [load_runner, map_insert, hnone, map_set]
  · intro hb
    refine ⟨hplain hb T, ?_⟩
    intro n hn
    have hlt : n < app.heap.length := by
      rw [inv.1] at hn
      exact List.mem_range.1 hn
    obtain ⟨S, hS⟩ : ∃ S, stage_type_of app.heap n = some S := by
      unfold stage_type_of
      rw [List.getElem?_eq_getElem hlt]
      exact ⟨_, rfl⟩
    refine ⟨S, hS, ?_⟩
    intro T2
    rw [hplain hb T2 n, hS]
    constructor
    · rintro ⟨_, h⟩
      injection h with h
      exact h.symm
    · intro h
      exact ⟨hn, by rw [h]⟩

/-- C28 at a concrete state: node 0 is registered in stage 100 and node 1 in stage 101;
the runner of stage 100 holds node 0 only. -/
theorem C28_load_runner_holds_stage_nodes_witness :
    apply_ops spec_deps
        [.add_system 100 [] [] [] [] [], .add_system 101 [] [] [] [] []] App_new
        = .ok (registered spec_deps
          [.add_system 100 [] [] [] [] [], .add_system 101 [] [] [] [] []])
      ∧ (load_runner_loop spec_deps 100 (registered spec_deps
          [.add_system 100 [] [] [] [] [], .add_system 101 [] [] [] [] []])).systems_all = [0]
      ∧ (1 ∈ (load_runner_loop spec_deps 100 (registered spec_deps
            [.add_system 100 [] [] [] [] [], .add_system 101 [] [] [] [] []])).systems_all
          ↔ 1 ∈ (registered spec_deps
              [.add_system 100 [] [] [] [] [], .add_system 101 [] [] [] [] []]).m_systems
            ∧ stage_type_of (registered spec_deps
              [.add_system 100 [] [] [] [] [], .add_system 101 [] [] [] [] []]).heap 1
              = some 100) :=
  ⟨rfl, by decide,
   ((C28_load_runner_holds_stage_nodes spec_deps
      [.add_system 100 [] [] [] [] [], .add_system 101 [] [] [] [] []] _ rfl 100).2.2.2.2
      (fun _ _ => rfl)).1 1⟩
/-! ## The call `std::sort` returns a permutation in ascending order -/

theorem getD_set_self (a : List Nat) (i y : Nat) (h : i < a.length) :
    (a.set i y).getD i 0 = y := by
  simp [List.getD_eq_getElem?_getD, List.getElem?_set_self h]

theorem partition_scan_up_le (comp : Nat → Nat → Bool) (v : List Nat) (pivot : Nat) :
    ∀ (fuel first : Nat), partition_scan_up comp v pivot fuel first ≤ first + fuel
  | 0, first => by simp [partition_scan_up]
  | fuel + 1, first => by
    unfold partition_scan_up
    split
    · have := partition_scan_up_le comp v pivot fuel (first + 1)
      omega
    · omega

theorem partition_scan_down_le (comp : Nat → Nat → Bool) (v : List Nat) (pivot : Nat) :
    ∀ (last : Nat), partition_scan_down comp v pivot last ≤ last
  | 0 => by simp [partition_scan_down]
  | last + 1 => by
    unfold partition_scan_down
    split
    · have := partition_scan_down_le comp v pivot last
      omega
    · omega

theorem lg_loop_eq_log : ∀ (fuel n : Nat), n ≤ fuel → lg_loop fuel n = Nat.log 2 n
  | 0, n, h => by
    have : n = 0 := by omega
    subst this
    simp [lg_loop]
  | fuel + 1, n, h => by
    unfold lg_loop
    split
    · rename_i h2
      rw [Nat.log_of_one_lt_of_le (by omega) h2, lg_loop_eq_log fuel (n / 2) (by omega)]
    · rename_i h2
      rw [Nat.log_of_lt (by omega)]

/-- The model of `std::__lg` is the floor of the binary logarithm. -/
theorem lg_eq_log (n : Nat) : lg n = Nat.log 2 n :=
  lg_loop_eq_log n n (le_refl n)

theorem push_heap_fuel (comp : Nat → Nat → Bool) (first topIndex value : Nat) :
    ∀ (f1 f2 : Nat) (v : List Nat) (holeIndex : Nat), holeIndex ≤ f1 → holeIndex ≤ f2 →
      push_heap comp first topIndex value f1 v holeIndex
        = push_heap comp first topIndex value f2 v holeIndex
  | 0, 0, _, _, _, _ => rfl
  | 0, f2 + 1, v, holeIndex, h1, _ => by
    have : holeIndex = 0 := by omega
    subst this
    simp [push_heap]
  | f1 + 1, 0, v, holeIndex, _, h2 => by
    have : holeIndex = 0 := by omega
    subst this
    simp [push_heap]
  | f1 + 1, f2 + 1, v, holeIndex, h1, h2 => by
    unfold push_heap
    simp only
    split
    · rename_i hc
      have hpos : 0 < holeIndex := by
        simp only [Bool.and_eq_true, decide_eq_true_eq] at hc
        omega
      exact push_heap_fuel comp first topIndex value f1 f2 _ _ (by omega) (by omega)
    · rfl

theorem adjust_heap_loop_fuel (comp : Nat → Nat → Bool) (first len : Nat) :
    ∀ (f1 f2 : Nat) (v : List Nat) (holeIndex secondChild : Nat),
      (len - 1) / 2 - secondChild ≤ f1 → (len - 1) / 2 - secondChild ≤ f2 →
      adjust_heap_loop comp first len f1 v holeIndex secondChild
        = adjust_heap_loop comp first len f2 v holeIndex secondChild
  | 0, 0, _, _, _, _, _ => rfl
  | 0, f2 + 1, v, holeIndex, secondChild, h1, _ => by
    unfold adjust_heap_loop
    rw [if_neg (by omega)]
  | f1 + 1, 0, v, holeIndex, secondChild, _, h2 => by
    unfold adjust_heap_loop
    rw [if_neg (by omega)]
  | f1 + 1, f2 + 1, v, holeIndex, secondChild, h1, h2 => by
    unfold adjust_heap_loop
    split
    · simp only
      split
      · exact adjust_heap_loop_fuel comp first len f1 f2 _ _ _ (by omega) (by omega)
      · exact adjust_heap_loop_fuel comp first len f1 f2 _ _ _ (by omega) (by omega)
    · rfl

theorem length_iter_swap (a : List Nat) (i j : Nat) : (iter_swap a i j).length = a.length := by
  simp [iter_swap]

theorem unguarded_partition_loop_fuel (comp : Nat → Nat → Bool) (pivot : Nat) :
    ∀ (f1 f2 : Nat) (v : List Nat) (first last : Nat), last ≤ v.length →
      v.length - first ≤ f1 → v.length - first ≤ f2 →
      unguarded_partition_loop comp pivot f1 v first last
        = unguarded_partition_loop comp pivot f2 v first last
  | 0, 0, _, _, _, _, _, _ => rfl
  | 0, f2 + 1, v, first, last, hl, h1, _ => by
    unfold unguarded_partition_loop
    have e : v.length - first = 0 := by omega
    have hd := partition_scan_down_le comp v pivot (last - 1)
    simp only [e, partition_scan_up]
    rw [if_pos (by simp; omega)]
  | f1 + 1, 0, v, first, last, hl, _, h2 => by
    unfold unguarded_partition_loop
    have e : v.length - first = 0 := by omega
    have hd := partition_scan_down_le comp v pivot (last - 1)
    simp only [e, partition_scan_up]
    rw [if_pos (by simp; omega)]
  | f1 + 1, f2 + 1, v, first, last, hl, h1, h2 => by
    unfold unguarded_partition_loop
    have hu := partition_scan_up_le comp v pivot (v.length - first) first
    have hd := partition_scan_down_le comp v pivot (last - 1)
    simp only
    split
    · rfl
    · rename_i hlt
      simp only [Bool.not_eq_true, Bool.not_eq_false', decide_eq_true_eq] at hlt
      have hge : first ≤ partition_scan_up comp v pivot (v.length - first) first := by
        clear hu hd hlt h1 h2
        generalize v.length - first = fuel
        induction fuel generalizing first with
        | zero => simp [partition_scan_up]
        | succ fuel ih =>
          unfold partition_scan_up
          split
          · exact le_trans (Nat.le_succ first) (ih (first + 1))
          · exact le_refl _
      apply unguarded_partition_loop_fuel comp pivot f1 f2
      · rw [length_iter_swap]
        omega
      · rw [length_iter_swap]
        omega
      · rw [length_iter_swap]
        omega

/-- Two updates of nodes commute when the functions they apply do. -/
theorem update_node_comm (heap : List SystemNode) (t k : Nat) (g f : SystemNode → SystemNode)
    (hfg : ∀ n, g (f n) = f (g n)) :
    update_node (update_node heap k f) t g = update_node (update_node heap t g) k f := by
  apply List.ext_getElem?
  intro m
  simp only [getElem?_update_node]
  by_cases hmt : m = t
  · by_cases hmk : m = k
    · subst hmt
      subst hmk
      simp only [if_true, Option.map_map]
      congr 1
      funext n
      exact hfg n
    · subst hmt
      simp only [if_true, hmk, if_false]
  · by_cases hmk : m = k
    · subst hmk
      simp only [if_true, hmt, if_false]
    · simp only [hmt, hmk, if_false]

theorem insert_before_flag (heap : List SystemNode) (k target x : Nat) (b : Bool) :
    insert_before (update_node heap k (fun n => { n with in_main_thread := b })) target x
      = update_node (insert_before heap target x) k
          (fun n => { n with in_main_thread := b }) := by
  unfold insert_before
  exact update_node_comm heap target k _ _ (fun _ => rfl)

theorem getElem?_flag (heap : List SystemNode) (k m : Nat) (b : Bool) :
    (update_node heap k (fun n => { n with in_main_thread := b }))[m]?
      = (heap[m]?).map (fun n => if m = k then { n with in_main_thread := b } else n) := by
  rw [getElem?_update_node]
  by_cases h : m = k
  · subst h
    simp
  · simp [h]

theorem afters_loop_flag (deps : Deps) (Sch new_node k : Nat) (b : Bool)
    (afters : List (Option Nat)) (heap : List SystemNode) :
    afters_loop deps Sch new_node afters
        (update_node heap k (fun n => { n with in_main_thread := b }))
      = update_node (afters_loop deps Sch new_node afters heap) k
          (fun n => { n with in_main_thread := b }) := by
  induction afters generalizing heap with
  | nil => rfl
  | cons r rs ih =>
    rw [afters_loop_cons, afters_loop_cons deps Sch new_node r rs heap]
    have step : afters_loop deps Sch new_node [r]
        (update_node heap k (fun n => { n with in_main_thread := b }))
        = update_node (afters_loop deps Sch new_node [r] heap) k
          (fun n => { n with in_main_thread := b }) := by
      cases r with
      | none => rfl
      | some x =>
        simp only [afters_loop, List.foldl_cons, List.foldl_nil, getElem?_flag]
        cases hx : heap[x]? with
        | none => rfl
        | some n =>
          simp only [Option.map_some']
          by_cases hxk : x = k
          · simp only [hxk, if_true]
            by_cases hc : dynamic_cast deps Sch n.scheduler = true
            · simp only [hc, if_true]
              exact insert_before_flag heap k new_node k b
            · simp [hc]
          · simp only [hxk, if_false]
            by_cases hc : dynamic_cast deps Sch n.scheduler = true
            · simp only [hc, if_true]
              exact insert_before_flag heap k new_node x b
            · simp [hc]
    rw [step]
    exact ih _

theorem befores_loop_flag (deps : Deps) (Sch new_node k : Nat) (b : Bool)
    (befores : List (Option Nat)) (heap : List SystemNode) :
    befores_loop deps Sch new_node befores
        (update_node heap k (fun n => { n with in_main_thread := b }))
      = update_node (befores_loop deps Sch new_node befores heap) k
          (fun n => { n with in_main_thread := b }) := by
  induction befores generalizing heap with
  | nil => rfl
  | cons r rs ih =>
    rw [befores_loop_cons, befores_loop_cons deps Sch new_node r rs heap]
    have step : befores_loop deps Sch new_node [r]
        (update_node heap k (fun n => { n with in_main_thread := b }))
        = update_node (befores_loop deps Sch new_node [r] heap) k
          (fun n => { n with in_main_thread := b }) := by
      cases r with
      | none => rfl
      | some x =>
        simp only [befores_loop, List.foldl_cons, List.foldl_nil, getElem?_flag]
        cases hx : heap[x]? with
        | none => rfl
        | some n =>
          simp only [Option.map_some']
          by_cases hxk : x = k
          · simp only [hxk, if_true]
            by_cases hc : dynamic_cast deps Sch n.scheduler = true
            · simp only [hc, if_true]
              exact insert_before_flag heap k k new_node b
            · simp [hc]
          · simp only [hxk, if_false]
            by_cases hc : dynamic_cast deps Sch n.scheduler = true
            · simp only [hc, if_true]
              exact insert_before_flag heap k x new_node b
            · simp [hc]
    rw [step]
    exact ih _

theorem foldl_comm {α β : Type} (G : β → β) (f : β → α → β) (xs : List α) (b : β)
    (h : ∀ b x, f (G b) x = G (f b x)) : xs.foldl f (G b) = G (xs.foldl f b) := by
  induction xs generalizing b with
  | nil => rfl
  | cons x xs ih =>
    rw [List.foldl_cons, List.foldl_cons, h, ih]

theorem configure_system_sets_inner_flag (deps : Deps) (SchT T node set k : Nat)
    (before b : Bool) (app : App) :
    configure_system_sets_inner deps SchT T node set before (with_in_main_thread k b app)
      = with_in_main_thread k b
          (configure_system_sets_inner deps SchT T node set before app) := by
  unfold configure_system_sets_inner
  show List.foldl _ (with_in_main_thread k b app) (app.m_in_set_systems T) = _
  apply foldl_comm (with_in_main_thread k b)
  intro a systems
  simp only [with_in_main_thread, getElem?_flag]
  cases hx : a.heap[systems]? with
  | none => rfl
  | some sn =>
    simp only [Option.map_some']
    have hsets : (if systems = k then { sn with in_main_thread := b } else sn).sets = sn.sets := by
      split <;> rfl
    have hsch : (if systems = k then { sn with in_main_thread := b } else sn).scheduler
        = sn.scheduler := by
      split <;> rfl
    rw [hsets, hsch]
    cases sn.sets T with
    | none => rfl
    | some sys_set =>
      simp only
      by_cases hc : (sys_set == set && dynamic_cast deps SchT sn.scheduler) = true
      · simp only [hc, if_true]
        cases before with
        | true =>
          simp only [if_true]
          rw [insert_before_flag]
        | false =>
          simp only [Bool.false_eq_true, if_false]
          rw [insert_before_flag]
      · simp [hc]

theorem configure_system_sets_loop_flag (deps : Deps) (SchT T node set_of_T k : Nat)
    (b : Bool) (before : Bool) (order : List Nat) (app : App) :
    configure_system_sets_loop deps SchT T node set_of_T before order
        (with_in_main_thread k b app)
      = with_in_main_thread k b
          (configure_system_sets_loop deps SchT T node set_of_T before order app) := by
  induction order generalizing app with
  | nil => rfl
  | cons set rest ih =>
    by_cases hs : (set == set_of_T) = true
    · simp [configure_system_sets_loop, hs]
    · simp [configure_system_sets_loop, hs, configure_system_sets_inner_flag, ih]

theorem configure_system_sets_flag (deps : Deps) (SchT node k : Nat) (b : Bool)
    (in_sets : List (Nat × Nat)) (types : List Nat) (app : App) :
    configure_system_sets deps SchT node in_sets types (with_in_main_thread k b app)
      = with_in_main_thread k b (configure_system_sets deps SchT node in_sets types app) := by
  induction types generalizing app with
  | nil => rfl
  | cons T Args ih =>
    have hm : (with_in_main_thread k b app).m_system_sets = app.m_system_sets := rfl
    have hupd : ∀ (Z : App),
        ({ { (with_in_main_thread k b Z) with
              m_in_set_systems :=
                map_push (with_in_main_thread k b Z).m_in_set_systems T node } with
            heap := update_node (with_in_main_thread k b Z).heap node
              (fun n => { n with sets := map_set n.sets T ((in_sets.lookup T).getD 0) }) } : App)
          = with_in_main_thread k b
            { { Z with m_in_set_systems := map_push Z.m_in_set_systems T node } with
              heap := update_node Z.heap node
                (fun n => { n with sets := map_set n.sets T ((in_sets.lookup T).getD 0) }) } := by
      intro Z
      simp only [with_in_main_thread]
      congr 1
      exact update_node_comm _ node k _ _ (fun _ => rfl)
    cases h : app.m_system_sets T with
    | none =>
      simp only [configure_system_sets, hm, h]
      rw [← ih]
      exact congrArg _ (hupd app)
    | some order =>
      simp only [configure_system_sets, hm, h, configure_system_sets_loop_flag]
      rw [← ih]
      exact congrArg _ (hupd _)

/-- The state in which `add_system_main_inner` calls `check_locked` is the state in which
`add_system_inner` does, with the flag of the new node set; the flag of the new node is
the one the constructor was given. -/
theorem node_prepared_flag (deps : Deps) (b c : Bool) (Sch : Nat) (args : List Param)
    (befores afters : List (Option Nat)) (conditions : List Nat)
    (in_sets : List (Nat × Nat)) (app : App) :
    node_prepared deps b Sch args befores afters conditions in_sets app
      = with_in_main_thread app.heap.length b
          (node_prepared deps c Sch args befores afters conditions in_sets app) := by
  have h0 : app.heap ++ [new_system_node b Sch args]
      = update_node (app.heap ++ [new_system_node c Sch args]) app.heap.length
          (fun n => { n with in_main_thread := b }) := by
    apply List.ext_getElem?
    intro m
    rw [getElem?_flag]
    rcases Nat.lt_trichotomy m app.heap.length with h | h | h
    · rw [List.getElem?_append_left h, List.getElem?_append_left h]
      cases app.heap[m]? with
      | none => rfl
      | some n => simp [Nat.ne_of_lt h]
    · subst h
      simp [new_system_node]
    · have h1 : ∀ (node : SystemNode), (app.heap ++ [node])[m]? = none := by
        intro node
        apply List.getElem?_eq_none
        simp
        omega
      rw [h1, h1]
      rfl
  unfold node_prepared
  simp only
  rw [h0, update_node_comm _ app.heap.length app.heap.length
      (fun n => { n with conditions := conditions })
      (fun n => { n with in_main_thread := b }) (fun _ => rfl),
    afters_loop_flag, befores_loop_flag]
  set heap4 := befores_loop deps Sch app.heap.length befores
    (afters_loop deps Sch app.heap.length afters
      (update_node (app.heap ++ [new_system_node c Sch args]) app.heap.length
        (fun n => { n with conditions := conditions }))) with hh4
  exact configure_system_sets_flag deps Sch app.heap.length app.heap.length b in_sets _
    { app with heap := heap4 }

theorem reaches_self_flag (heap : List SystemNode) (k node2 : Nat) (b : Bool) :
    ∀ (fuel node : Nat),
      reaches_self (update_node heap k (fun n => { n with in_main_thread := b })) node2 fuel
          node
        = reaches_self heap node2 fuel node
  | 0, _ => rfl
  | fuel + 1, node => by
    unfold reaches_self
    rw [getElem?_flag]
    cases heap[node]? with
    | none => rfl
    | some n =>
      simp only [Option.map_some']
      have hu : (if node = k then { n with in_main_thread := b } else n).user_defined_before
          = n.user_defined_before := by
        split <;> rfl
      rw [hu]
      congr 1
      funext before
      rw [reaches_self_flag heap k node2 b fuel before]

/-- The cycle check of the specification does not read `in_main_thread`. -/
theorem check_locked_flag (app : App) (node k : Nat) (b : Bool) :
    spec_deps.check_locked (with_in_main_thread k b app) node
      = spec_deps.check_locked app node := by
  show check_locked _ _ = check_locked _ _
  unfold check_locked with_in_main_thread
  simp only [update_node_length]
  exact reaches_self_flag app.heap k node b _ _

/-- C27: for every `check_locked` that does not read the member `in_main_thread`,
`add_system_main` ends with an error exactly when `add_system` with the same arguments
does, and otherwise leaves the app that `add_system` leaves with `in_main_thread` of the
new node true instead of false: same edges, conditions, set memberships and
registered systems. -/
theorem C27_add_system_main_sets_only_flag (deps : Deps)
    (hcl : ∀ (app : App) (node k : Nat) (b : Bool),
      deps.check_locked (with_in_main_thread k b app) node = deps.check_locked app node)
    (Sch : Nat) (args : List Param) (befores afters : List (Option Nat))
    (conditions : List Nat) (in_sets : List (Nat × Nat)) (app : App) :
    add_system_main deps Sch args befores afters conditions in_sets app
        = (add_system deps Sch args befores afters conditions in_sets app).map
            (with_in_main_thread app.heap.length true)
      ∧ (∀ app1, add_system deps Sch args befores afters conditions in_sets app = .ok app1 →
          (app1.heap[app.heap.length]?).map (fun n => n.in_main_thread) = some false
          ∧ ((with_in_main_thread app.heap.length true app1).heap[app.heap.length]?).map
              (fun n => n.in_main_thread) = some true
          ∧ ∀ m, m ≠ app.heap.length →
              (with_in_main_thread app.heap.length true app1).heap[m]? = app1.heap[m]?) := by
  constructor
  · rw [add_system_main, add_system, add_system_main_inner_eq, add_system_inner_eq,
      node_prepared_flag deps true false, hcl]
    by_cases hc : deps.check_locked
        (node_prepared deps false Sch args befores afters conditions in_sets app)
        app.heap.length = true
    · rw [if_pos hc, if_pos hc]
      rfl
    · rw [if_neg hc, if_neg hc]
      rfl
  · intro app1 h
    have e := add_system_ok deps Sch args befores afters conditions in_sets app app1 h
    have st := node_prepared_step deps false Sch args befores afters conditions in_sets app
    have hlen : app1.heap.length = app.heap.length + 1 := by
      rw [e]
      show (node_prepared deps false Sch args befores afters conditions in_sets
        app).heap.length = _
      rw [st.length_eq]
      simp
    obtain ⟨n, hn⟩ : ∃ n, app1.heap[app.heap.length]? = some n :=
      ⟨_, List.getElem?_eq_getElem (by omega)⟩
    have hflag : n.in_main_thread = false := by
      have e2 : app1.heap = (with_in_main_thread app.heap.length false
          (node_prepared deps false Sch args befores afters conditions in_sets app)).heap := by
        rw [← node_prepared_flag deps false false, e]
      rw [e2] at hn
      simp only [with_in_main_thread, getElem?_flag] at hn
      cases hx : (node_prepared deps false Sch args befores afters conditions in_sets
          app).heap[app.heap.length]? with
      | none =>
        rw [hx] at hn
        cases hn
      | some x =>
        rw [hx] at hn
        simp only [Option.map_some', if_true, Option.some.injEq] at hn
        rw [← hn]
    refine ⟨?_, ?_, ?_⟩
    · rw [hn]
      simp [hflag]
    · simp only [with_in_main_thread, getElem?_flag, hn]
      simp
    · intro m hm
      simp only [with_in_main_thread, getElem?_flag]
      cases app1.heap[m]? with
      | none => rfl
      | some x => simp [hm]

/-- C27 at a concrete call: node 0 is registered in stage 100; a second system is
registered in stage 100 with `after(node 0)`, once with `add_system_main` and once with
`add_system`. -/
theorem C27_add_system_main_sets_only_flag_witness :
    add_system_main spec_deps 100 [] [] [some 0] [] []
        (registered spec_deps [.add_system 100 [] [] [] [] []])
      = (add_system spec_deps 100 [] [] [some 0] [] []
          (registered spec_deps [.add_system 100 [] [] [] [] []])).map
            (with_in_main_thread 1 true)
      ∧ add_system spec_deps 100 [] [] [some 0] [] []
          (registered spec_deps [.add_system 100 [] [] [] [] []])
        = .ok { m_systems := [0, 1]
                heap := [new_system_node false 100 [],
                         { new_system_node false 100 [] with user_defined_before := [0] }] } :=
  ⟨(C27_add_system_main_sets_only_flag spec_deps check_locked_flag 100 [] [] [some 0] [] []
      (registered spec_deps [.add_system 100 [] [] [] [] []])).1, rfl⟩

/-! ## Claims about readers, commands and the bound of the running average -/

theorem pure_readers_facts (ps : List Param)
    (hps : ∀ p ∈ ps, (∃ t, p = Param.Resource t ∧ t.is_const = true)
      ∨ (∃ t, p = Param.EventReader t) ∨ (∃ t, p = Param.State t)) :
    ps.any Param.is_command = false ∧ ps.any Param.is_query = false
      ∧ ps.filterMap Param.resource_mut = [] ∧ ps.filterMap Param.event_write = []
      ∧ ps.filterMap Param.state_next_write = [] := by
  refine ⟨?_, ?_, ?_, ?_, ?_⟩
  · rw [List.any_eq_false]
    intro p hp
    rcases hps p hp with ⟨t, rfl, _⟩ | ⟨t, rfl⟩ | ⟨t, rfl⟩ <;> simp [Param.is_command]
  · rw [List.any_eq_false]
    intro p hp
    rcases hps p hp with ⟨t, rfl, _⟩ | ⟨t, rfl⟩ | ⟨t, rfl⟩ <;> simp [Param.is_query]
  · rw [List.filterMap_eq_nil_iff]
    intro p hp
    rcases hps p hp with ⟨t, rfl, ht⟩ | ⟨t, rfl⟩ | ⟨t, rfl⟩
    · simp [Param.resource_mut, ht]
    · simp [Param.resource_mut]
    · simp [Param.resource_mut]
  · rw [List.filterMap_eq_nil_iff]
    intro p hp
    rcases hps p hp with ⟨t, rfl, _⟩ | ⟨t, rfl⟩ | ⟨t, rfl⟩ <;> simp [Param.event_write]
  · rw [List.filterMap_eq_nil_iff]
    intro p hp
    rcases hps p hp with ⟨t, rfl, _⟩ | ⟨t, rfl⟩ | ⟨t, rfl⟩ <;> simp [Param.state_next_write]

/-- C31: two systems whose parameters are only `Resource<const T>`, `EventReader<T>`
and `State<T>` are not contrary to each other, in either direction, whatever the types
and also when both read the same types. -/
theorem C31_pure_readers_compatible
    (end_ne : List TypeInfo → List TypeInfo → TypeInfo → Bool) (ps qs : List Param)
    (hps : ∀ p ∈ ps, (∃ t, p = Param.Resource t ∧ t.is_const = true)
      ∨ (∃ t, p = Param.EventReader t) ∨ (∃ t, p = Param.State t))
    (hqs : ∀ q ∈ qs, (∃ t, q = Param.Resource t ∧ t.is_const = true)
      ∨ (∃ t, q = Param.EventReader t) ∨ (∃ t, q = Param.State t)) :
    contrary_to end_ne (System ps) (System qs) = false
      ∧ contrary_to end_ne (System qs) (System ps) = false := by
  obtain ⟨p1, p2, p3, p4, p5⟩ := pure_readers_facts ps hps
  obtain ⟨q1, q2, q3, q4, q5⟩ := pure_readers_facts qs hqs
  constructor
  · rw [contrary_to_System, p1, p2, p3, p4, p5, q3, q4, q5]
    rfl
  · rw [contrary_to_System, p3, p4, p5, q1, q2, q3, q4, q5]
    rfl

/-- C31 at a concrete pair: both systems read the resource 1, the events 2 and the
state 3. -/
theorem C31_pure_readers_compatible_witness :
    contrary_to (fun _ _ _ => false)
        (System [.Resource ⟨1, true⟩, .EventReader ⟨2, false⟩, .State ⟨3, false⟩])
        (System [.State ⟨3, false⟩, .Resource ⟨1, true⟩, .EventReader ⟨2, false⟩]) = false :=
  (C31_pure_readers_compatible _
    [.Resource ⟨1, true⟩, .EventReader ⟨2, false⟩, .State ⟨3, false⟩]
    [.State ⟨3, false⟩, .Resource ⟨1, true⟩, .EventReader ⟨2, false⟩]
    (by simp) (by simp)).1

/-- C32: a system whose only parameter is `Command` and a system without `Command` and
without `Query` parameters are not contrary to each other, in either direction, whatever
resources, events and next states the second one writes. -/
theorem C32_command_only_compatible
    (end_ne : List TypeInfo → List TypeInfo → TypeInfo → Bool) (qs : List Param)
    (hc : Param.Command ∉ qs) (hq : ∀ i w x, Param.Query i w x ∉ qs) :
    contrary_to end_ne (System [.Command]) (System qs) = false
      ∧ contrary_to end_ne (System qs) (System [.Command]) = false := by
  have q1 : qs.any Param.is_command = false := by
    rw [Bool.eq_false_iff]
    intro h
    exact hc ((any_is_command_iff qs).1 h)
  have q2 : qs.any Param.is_query = false := by
    rw [Bool.eq_false_iff]
    intro h
    obtain ⟨i, w, x, hx⟩ := (any_is_query_iff qs).1 h
    exact hq i w x hx
  constructor
  · rw [contrary_to_System, q1, q2]
    simp [Param.is_command, Param.is_query, Param.resource_mut, Param.event_write,
      Param.event_read, Param.state_next_write]
    constructor <;> intro x _ <;> split <;> rfl
  · rw [contrary_to_System, q1, q2]
    simp [Param.is_command, Param.is_query, Param.resource_mut, Param.event_write,
      Param.event_read, Param.state_next_write]
    constructor <;> intro x _ <;> split <;> rfl

/-- C32 at a concrete pair: the second system writes the resource 1, the events 2 and
the next state 3. -/
theorem C32_command_only_compatible_witness :
    contrary_to (fun _ _ _ => false) (System [.Command])
        (System [.Resource ⟨1, false⟩, .EventWriter ⟨2, false⟩, .NextState ⟨3, false⟩]) = false
      ∧ contrary_to (fun _ _ _ => false)
        (System [.Resource ⟨1, false⟩, .EventWriter ⟨2, false⟩, .NextState ⟨3, false⟩])
        (System [.Command]) = false :=
  C32_command_only_compatible _
    [.Resource ⟨1, false⟩, .EventWriter ⟨2, false⟩, .NextState ⟨3, false⟩]
    (by simp) (by simp)

theorem System_run_foldl_bounds (M : ℚ) (ds : List ℚ) (s : BasicSystem)
    (hs0 : 0 ≤ s.avg_time) (hsM : s.avg_time ≤ M)
    (hd : ∀ d ∈ ds, 0 ≤ d ∧ d ≤ M) :
    0 ≤ (ds.foldl System_run s).avg_time ∧ (ds.foldl System_run s).avg_time ≤ M := by
  induction ds generalizing s with
  | nil => exact ⟨hs0, hsM⟩
  | cons d ds ih =>
    rw [List.foldl_cons]
    obtain ⟨hd0, hdM⟩ := hd d (List.mem_cons_self _ _)
    apply ih
    · show 0 ≤ d * (1 / 10) + s.avg_time * (9 / 10)
      positivity
    · show d * (1 / 10) + s.avg_time * (9 / 10) ≤ M
      linarith
    · intro e he
      exact hd e (List.mem_cons_of_mem _ he)

/-- C36: after every sequence of runs of a constructed system whose measured durations
are not negative, the running average is not negative and is at most every bound of
the durations measured so far, so at most the largest of them. -/
theorem C36_average_within_durations (ps : List Param) (ds : List ℚ)
    (hd : ∀ d ∈ ds, 0 ≤ d) :
    0 ≤ (ds.foldl System_run (System ps)).avg_time
      ∧ (∀ M, (∀ d ∈ ds, d ≤ M) → ds ≠ [] → (ds.foldl System_run (System ps)).avg_time ≤ M)
      ∧ (ds ≠ [] → ∃ d ∈ ds, (ds.foldl System_run (System ps)).avg_time ≤ d)
      ∧ ∀ n, 0 ≤ ((ds.take n).foldl System_run (System ps)).avg_time
          ∧ ∀ M, (∀ d ∈ ds.take n, d ≤ M) → ds.take n ≠ [] →
            ((ds.take n).foldl System_run (System ps)).avg_time ≤ M := by
  have key : ∀ (l : List ℚ), (∀ d ∈ l, 0 ≤ d) →
      0 ≤ (l.foldl System_run (System ps)).avg_time
        ∧ ∀ M, (∀ d ∈ l, d ≤ M) → l ≠ [] → (l.foldl System_run (System ps)).avg_time ≤ M := by
    intro l hl
    have h0 : (System ps).avg_time = 0 := System_avg_time ps
    constructor
    · obtain ⟨M, hM⟩ : ∃ M : ℚ, 0 ≤ M ∧ ∀ d ∈ l, d ≤ M := by
        refine ⟨(l.map id).sum, List.sum_nonneg (by simpa using hl), ?_⟩
        intro d hd
        simpa using List.single_le_sum (by simpa using hl) d (by simpa using hd)
      exact (System_run_foldl_bounds M l (System ps) (by rw [h0]) (by rw [h0]; exact hM.1)
        (fun d hd => ⟨hl d hd, hM.2 d hd⟩)).1
    · intro M hM hne
      have hM0 : 0 ≤ M := by
        cases l with
        | nil => exact absurd rfl hne
        | cons d l =>
          exact le_trans (hl d (List.mem_cons_self _ _)) (hM d (List.mem_cons_self _ _))
      exact (System_run_foldl_bounds M l (System ps) (by rw [h0]) (by rw [h0]; exact hM0)
        (fun d hd => ⟨hl d hd, hM d hd⟩)).2
  refine ⟨(key ds hd).1, (key ds hd).2, ?_, ?_⟩
  · intro hne
    obtain ⟨m, hm, hmax⟩ : ∃ m ∈ ds, ∀ d ∈ ds, d ≤ m := by
      clear key hd
      induction ds with
      | nil => exact absurd rfl hne
      | cons d l ih =>
        cases l with
        | nil => exact ⟨d, List.mem_cons_self _ _, by simp⟩
        | cons e l =>
          obtain ⟨m, hm, hmax⟩ := ih (by simp)
          rcases le_total d m with h | h
          · refine ⟨m, List.mem_cons_of_mem _ hm, ?_⟩
            intro x hx
            rcases List.mem_cons.1 hx with rfl | hx
            · exact h
            · exact hmax x hx
          · refine ⟨d, List.mem_cons_self _ _, ?_⟩
            intro x hx
            rcases List.mem_cons.1 hx with rfl | hx
            · exact le_refl _
            · exact le_trans (hmax x hx) h
    exact ⟨m, hm, (key ds hd).2 m hmax hne⟩
  · intro n
    exact key (ds.take n) (fun d hx => hd d (List.mem_of_mem_take hx))

/-- C36 at a concrete sequence: runs of 0, 10 and 4 milliseconds. -/
theorem C36_average_within_durations_witness :
    (∀ d ∈ ([0, 10, 4] : List ℚ), 0 ≤ d)
      ∧ 0 ≤ (([0, 10, 4] : List ℚ).foldl System_run (System [])).avg_time
      ∧ (([0, 10, 4] : List ℚ).foldl System_run (System [])).avg_time ≤ 10 :=
  have h : ∀ d ∈ ([0, 10, 4] : List ℚ), 0 ≤ d := by
    intro d hd
    simp only [List.mem_cons, List.mem_singleton, List.not_mem_nil, or_false] at hd
    rcases hd with rfl | rfl | rfl <;> norm_num
  ⟨h, (C36_average_within_durations [] [0, 10, 4] h).1,
    (C36_average_within_durations [] [0, 10, 4] h).2.1 10 (by
      intro d hd
      simp only [List.mem_cons, List.mem_singleton, List.not_mem_nil, or_false] at hd
      rcases hd with rfl | rfl | rfl <;> norm_num) (by simp)⟩

/-! ## Claims about null handles and set processing -/

/-- Null handles in `afters` are skipped by the loop. -/
theorem afters_loop_filter_isSome (deps : Deps) (Sch new_node : Nat)
    (afters : List (Option Nat)) (heap : List SystemNode) :
    afters_loop deps Sch new_node afters heap
      = afters_loop deps Sch new_node (afters.filter Option.isSome) heap := by
  induction afters generalizing heap with
  | nil => rfl
  | cons r rs ih =>
    cases r with
    | none =>
      rw [afters_loop_cons, List.filter_cons_of_neg (by simp)]
      exact ih heap
    | some x =>
      rw [afters_loop_cons, List.filter_cons_of_pos (by simp),
        afters_loop_cons deps Sch new_node (some x) (rs.filter Option.isSome) heap]
      exact ih _

/-- Null handles in `befores` are skipped by the loop. -/
theorem befores_loop_filter_isSome (deps : Deps) (Sch new_node : Nat)
    (befores : List (Option Nat)) (heap : List SystemNode) :
    befores_loop deps Sch new_node befores heap
      = befores_loop deps Sch new_node (befores.filter Option.isSome) heap := by
  induction befores generalizing heap with
  | nil => rfl
  | cons r rs ih =>
    cases r with
    | none =>
      rw [befores_loop_cons, List.filter_cons_of_neg (by simp)]
      exact ih heap
    | some x =>
      rw [befores_loop_cons, List.filter_cons_of_pos (by simp),
        befores_loop_cons deps Sch new_node (some x) (rs.filter Option.isSome) heap]
      exact ih _

theorem node_prepared_filter_isSome (deps : Deps) (in_main : Bool) (Sch : Nat)
    (args : List Param) (befores afters : List (Option Nat)) (conditions : List Nat)
    (in_sets : List (Nat × Nat)) (app : App) :
    node_prepared deps in_main Sch args befores afters conditions in_sets app
      = node_prepared deps in_main Sch args (befores.filter Option.isSome)
          (afters.filter Option.isSome) conditions in_sets app := by
  unfold node_prepared
  simp only
  rw [afters_loop_filter_isSome deps Sch app.heap.length afters,
    befores_loop_filter_isSome deps Sch app.heap.length befores]

/-- C35: null handles in `before(...)` and `after(...)` have no effect: two calls of
`add_system`, or of `add_system_main`, whose `before` lists and whose `after` lists
differ only in null handles have the same outcome, so the same error or the same app
with the same `user_defined_before` sets; in particular a call with a null handle
added at the front of both lists is the call without it. -/
theorem C35_null_handle_ignored (deps : Deps) (Sch : Nat) (args : List Param)
    (befores afters befores2 afters2 : List (Option Nat)) (conditions : List Nat)
    (in_sets : List (Nat × Nat)) (app : App)
    (hb : befores.filter Option.isSome = befores2.filter Option.isSome)
    (ha : afters.filter Option.isSome = afters2.filter Option.isSome) :
    add_system deps Sch args befores afters conditions in_sets app
        = add_system deps Sch args befores2 afters2 conditions in_sets app
      ∧ add_system_main deps Sch args befores afters conditions in_sets app
        = add_system_main deps Sch args befores2 afters2 conditions in_sets app
      ∧ add_system deps Sch args (none :: befores) (none :: afters) conditions in_sets app
        = add_system deps Sch args befores2 afters2 conditions in_sets app
      ∧ (∀ app1 app2,
          add_system deps Sch args befores afters conditions in_sets app = .ok app1 →
          add_system deps Sch args befores2 afters2 conditions in_sets app = .ok app2 →
          ∀ b, user_before app1.heap b = user_before app2.heap b) := by
  have e : ∀ (in_main : Bool) (bs as : List (Option Nat)),
      bs.filter Option.isSome = befores2.filter Option.isSome →
      as.filter Option.isSome = afters2.filter Option.isSome →
      node_prepared deps in_main Sch args bs as conditions in_sets app
        = node_prepared deps in_main Sch args befores2 afters2 conditions in_sets app := by
    intro in_main bs as h1 h2
    rw [node_prepared_filter_isSome deps in_main Sch args bs as, h1, h2,
      ← node_prepared_filter_isSome]
  have e1 : add_system deps Sch args befores afters conditions in_sets app
      = add_system deps Sch args befores2 afters2 conditions in_sets app := by
    rw [add_system, add_system, add_system_inner_eq, add_system_inner_eq, e false _ _ hb ha]
  refine ⟨e1, ?_, ?_, ?_⟩
  · rw [add_system_main, add_system_main, add_system_main_inner_eq, add_system_main_inner_eq,
      e true _ _ hb ha]
  · rw [add_system, add_system, add_system_inner_eq, add_system_inner_eq,
      e false (none :: befores) (none :: afters)
        (by rw [List.filter_cons_of_neg (by simp)]; exact hb)
        (by rw [List.filter_cons_of_neg (by simp)]; exact ha)]
  · intro app1 app2 h1 h2 b
    rw [e1, h2] at h1
    injection h1 with h1
    rw [h1]

/-- C35 at a concrete call: node 0 is registered in stage 100; the next system is
registered in stage 100 with `after(null, node 0)` and `before(null)`, and with
`after(node 0)` alone. -/
theorem C35_null_handle_ignored_witness :
    add_system spec_deps 100 [] [none] [none, some 0] [] []
        (registered spec_deps [.add_system 100 [] [] [] [] []])
      = add_system spec_deps 100 [] [] [some 0] [] []
        (registered spec_deps [.add_system 100 [] [] [] [] []])
      ∧ add_system spec_deps 100 [] [] [some 0] [] []
          (registered spec_deps [.add_system 100 [] [] [] [] []])
        = .ok { m_systems := [0, 1]
                heap := [new_system_node false 100 [],
                         { new_system_node false 100 [] with user_defined_before := [0] }] } :=
  ⟨(C35_null_handle_ignored spec_deps 100 [] [none] [none, some 0] [] [some 0] [] []
      (registered spec_deps [.add_system 100 [] [] [] [] []]) rfl rfl).1, rfl⟩

/-- C33: `configure_system_sets` changes the `user_defined_before` set of no node other
than the node it is called for, so the branch that inserts the new node into the set of
a listed node is never taken; and after `add_system` with `in_set(...)` the set of every
node other than the new one has the members it has after the same call without
`in_set`. -/
theorem C33_set_processing_keeps_other_nodes (deps : Deps) (Sch : Nat) (args : List Param)
    (befores afters : List (Option Nat)) (conditions : List Nat)
    (in_sets : List (Nat × Nat)) (app : App) (b : Nat) (hb : b ≠ app.heap.length) :
    (∀ (SchT node : Nat) (types : List Nat) (app0 : App) (a c : Nat), c ≠ node →
        (a ∈ user_before (configure_system_sets deps SchT node in_sets types app0).heap c
          ↔ a ∈ user_before app0.heap c))
      ∧ (∀ a in_main,
          a ∈ user_before
              (node_prepared deps in_main Sch args befores afters conditions in_sets app).heap b
            ↔ a ∈ user_before
              (node_prepared deps in_main Sch args befores afters conditions [] app).heap b)
      ∧ (∀ app1 app2,
          add_system deps Sch args befores afters conditions in_sets app = .ok app1 →
          add_system deps Sch args befores afters conditions [] app = .ok app2 →
          ∀ a, a ∈ user_before app1.heap b ↔ a ∈ user_before app2.heap b)
      ∧ (∀ app1 app2,
          add_system_main deps Sch args befores afters conditions in_sets app = .ok app1 →
          add_system_main deps Sch args befores afters conditions [] app = .ok app2 →
          ∀ a, a ∈ user_before app1.heap b ↔ a ∈ user_before app2.heap b) := by
  have css : ∀ (SchT node : Nat) (types : List Nat) (app0 : App) (a c : Nat), c ≠ node →
      (a ∈ user_before (configure_system_sets deps SchT node in_sets types app0).heap c
        ↔ a ∈ user_before app0.heap c) := by
    intro SchT node types app0 a c hc
    have st := configure_system_sets_step deps SchT node in_sets types app0.heap app0
      (EdgeStep.same_edges _ _)
    constructor
    · intro h
      rcases st.added a c h with h1 | ⟨h2, _⟩
      · exact h1
      · exact absurd h2 hc
    · exact st.kept a c
  have prep : ∀ a in_main,
      a ∈ user_before
          (node_prepared deps in_main Sch args befores afters conditions in_sets app).heap b
        ↔ a ∈ user_before
          (node_prepared deps in_main Sch args befores afters conditions [] app).heap b := by
    intro a in_main
    unfold node_prepared
    simp only [List.map_nil, configure_system_sets]
    exact css Sch app.heap.length _ _ a b hb
  refine ⟨css, prep, ?_, ?_⟩
  · intro app1 app2 h1 h2 a
    rw [add_system_ok _ _ _ _ _ _ _ _ _ h1, add_system_ok _ _ _ _ _ _ _ _ _ h2]
    exact prep a false
  · intro app1 app2 h1 h2 a
    rw [add_system_main_ok _ _ _ _ _ _ _ _ _ h1, add_system_main_ok _ _ _ _ _ _ _ _ _ h2]
    exact prep a true

/-- C33 at a concrete state: the order 0, 1 of set type 9 is configured and node 0 is
registered in stage 100 with the value 1; registering a node in stage 100 with the value
0 leaves the set of node 0 with the members it has when the node is registered without
`in_set`. -/
theorem C33_set_processing_keeps_other_nodes_witness :
    0 ≠ (registered spec_deps
        [.configure_sets 9 0 [1], .add_system 100 [] [] [] [] [(9, 1)]]).heap.length
      ∧ ∀ a in_main,
        a ∈ user_before (node_prepared spec_deps in_main 100 [] [] [] [] [(9, 0)]
            (registered spec_deps
              [.configure_sets 9 0 [1], .add_system 100 [] [] [] [] [(9, 1)]])).heap 0
          ↔ a ∈ user_before (node_prepared spec_deps in_main 100 [] [] [] [] []
            (registered spec_deps
              [.configure_sets 9 0 [1], .add_system 100 [] [] [] [] [(9, 1)]])).heap 0 :=
  ⟨by decide,
   (C33_set_processing_keeps_other_nodes spec_deps 100 [] [] [] [] [(9, 0)]
      (registered spec_deps [.configure_sets 9 0 [1], .add_system 100 [] [] [] [] [(9, 1)]])
      0 (by decide)).2.1⟩

theorem set_value_of_eq_some_iff (heap : List SystemNode) (m T v : Nat) :
    set_value_of heap m T = some v ↔ ∃ n, heap[m]? = some n ∧ n.sets T = some v := by
  unfold set_value_of
  cases heap[m]? <;> simp

/-- The inner loop of `configure_system_sets` inserts into the set of `node` every
listed node with the value `set` whose scheduler casts to `SchT`. -/
theorem configure_system_sets_inner_hit (deps : Deps) (SchT T node set : Nat) (app : App)
    (b d : Nat) (hb : b ∈ app.m_in_set_systems T)
    (hset : set_value_of app.heap b T = some set)
    (hd : scheduler_of app.heap b = some d) (hc : dynamic_cast deps SchT d = true)
    (hnode : node < app.heap.length) :
    b ∈ user_before (configure_system_sets_inner deps SchT T node set true app).heap node := by
  unfold configure_system_sets_inner
  apply foldl_establish
    (fun app1 : App => HeapStep (fun _ _ => True) app.heap app1.heap)
    (fun app1 : App => b ∈ user_before app1.heap node) _ _ b hb app (HeapStep.same _ _)
  · intro app1 y h1
    cases hsn : app1.heap[y]? with
    | none => simp only; exact h1
    | some sn =>
      simp only
      cases hs : sn.sets T with
      | none => simp only; exact h1
      | some sys_set =>
        simp only
        split
        · simp only [if_true]
          exact h1.followed (heapStep_insert_before _ _ _ trivial)
        · exact h1
  · intro app1 h1
    obtain ⟨sn, hsn, hs⟩ := (set_value_of_eq_some_iff _ _ _ _).1
      ((h1.set_value_of_eq b T).trans hset)
    obtain ⟨sn2, hsn2, hsch⟩ := (scheduler_of_eq_some_iff _ _ _).1
      ((h1.scheduler_of_eq b).trans hd)
    rw [hsn] at hsn2
    injection hsn2 with hsn2
    subst hsn2
    simp only [hsn, hs, hsch, hc, beq_self_eq_true, Bool.and_self, if_true]
    rw [mem_user_before_insert_before]
    exact Or.inr ⟨rfl, rfl, by rw [h1.length_eq]; exact hnode⟩
  · intro app1 y h1 hq
    cases hsn : app1.heap[y]? with
    | none => simp only; exact hq
    | some sn =>
      simp only
      cases hs : sn.sets T with
      | none => simp only; exact hq
      | some sys_set =>
        simp only
        split
        · simp only [if_true]
          rw [mem_user_before_insert_before]
          exact Or.inl hq
        · exact hq

/-- The loop of `configure_system_sets` over an order that does not hold the value of
the new node inserts into the set of `node` every listed node whose value is in the
order and whose scheduler casts to `SchT`. -/
theorem configure_system_sets_loop_hit (deps : Deps) (SchT T node set_of_T : Nat)
    (order : List Nat) (app : App) (b w d : Nat)
    (hv : set_of_T ∉ order) (hw : w ∈ order) (hb : b ∈ app.m_in_set_systems T)
    (hset : set_value_of app.heap b T = some w)
    (hd : scheduler_of app.heap b = some d) (hc : dynamic_cast deps SchT d = true)
    (hnode : node < app.heap.length) :
    b ∈ user_before
      (configure_system_sets_loop deps SchT T node set_of_T true order app).heap node := by
  induction order generalizing app with
  | nil => cases hw
  | cons set rest ih =>
    have hne : (set == set_of_T) = false := by
      rw [beq_eq_false_iff_ne]
      intro e
      exact hv (e ▸ List.mem_cons_self _ _)
    have hv2 : set_of_T ∉ rest := fun h => hv (List.mem_cons_of_mem _ h)
    obtain ⟨e1, s1⟩ := configure_system_sets_inner_step deps SchT T node set app
    unfold configure_system_sets_loop
    simp only [hne, Bool.false_eq_true, if_false]
    rcases List.mem_cons.1 hw with hws | hwr
    · subst hws
      have hit := configure_system_sets_inner_hit deps SchT T node w app b d hb hset hd hc hnode
      exact (configure_system_sets_loop_step deps SchT T node set_of_T rest _).2.kept _ _ hit
    · apply ih _ hv2 hwr
      · rw [e1]
        exact hb
      · rw [s1.set_value_of_eq]
        exact hset
      · rw [s1.scheduler_of_eq]
        exact hd
      · rw [s1.length_eq]
        exact hnode

/-- What `configure_system_sets` does for the first type of the pack before it turns to
the rest: only the allocated nodes change, by insertions into `user_defined_before`. -/
theorem configure_system_sets_head (deps : Deps) (SchT T node set_of_T : Nat) (app : App) :
    (match app.m_system_sets T with
      | some order => configure_system_sets_loop deps SchT T node set_of_T true order app
      | none => app)
        = { app with heap := (match app.m_system_sets T with
            | some order => configure_system_sets_loop deps SchT T node set_of_T true order app
            | none => app).heap }
      ∧ HeapStep (fun _ _ => True) app.heap
        (match app.m_system_sets T with
          | some order => configure_system_sets_loop deps SchT T node set_of_T true order app
          | none => app).heap := by
  cases app.m_system_sets T with
  | none => exact ⟨rfl, HeapStep.same _ _⟩
  | some order =>
    obtain ⟨e, s⟩ := configure_system_sets_loop_step deps SchT T node set_of_T order app
    exact ⟨e, s.weaken (fun _ _ _ => trivial)⟩

/-- A set type of the pack with a configured order that does not hold the value of the
new node: every listed node whose value is in the order and whose scheduler casts to
`SchT` is in the set of `node` afterwards. -/
theorem configure_system_sets_hit (deps : Deps) (SchT node : Nat)
    (in_sets : List (Nat × Nat)) (types : List Nat) (app : App) (S : Nat)
    (order : List Nat) (b w d : Nat)
    (hS : S ∈ types) (hord : app.m_system_sets S = some order)
    (hv : (in_sets.lookup S).getD 0 ∉ order) (hw : w ∈ order)
    (hb : b ∈ app.m_in_set_systems S) (hset : set_value_of app.heap b S = some w)
    (hd : scheduler_of app.heap b = some d) (hc : dynamic_cast deps SchT d = true)
    (hnode : node < app.heap.length) :
    b ∈ user_before (configure_system_sets deps SchT node in_sets types app).heap node := by
  induction types generalizing app with
  | nil => cases hS
  | cons T rest ih =>
    unfold configure_system_sets
    simp only
    obtain ⟨e1, s1⟩ := configure_system_sets_head deps SchT T node
      ((in_sets.lookup T).getD 0) app
    by_cases hT : T = S
    · subst hT
      have hit : b ∈ user_before (match app.m_system_sets T with
          | some order => configure_system_sets_loop deps SchT T node
              ((in_sets.lookup T).getD 0) true order app
          | none => app).heap node := by
        rw [hord]
        exact configure_system_sets_loop_hit deps SchT T node _ order app b w d hv hw hb hset
          hd hc hnode
      refine (configure_system_sets_step deps SchT node in_sets rest _ _
        (EdgeStep.same_edges _ _)).kept _ _ ?_
      exact (edgeStep_update_node (fun _ _ => False) _ node
        (fun n => { n with sets := map_set n.sets T ((in_sets.lookup T).getD 0) })
        (fun x => ⟨rfl, rfl, rfl⟩)).kept _ _ hit
    · have hS2 : S ∈ rest := by
        rcases List.mem_cons.1 hS with h | h
        · exact absurd h.symm hT
        · exact h
      apply ih _ hS2
      · have hm := congrArg (fun a : App => a.m_system_sets S) e1
        exact hm.trans hord
      · have key : ∀ l : Nat → List Nat, l = app.m_in_set_systems →
            b ∈ map_push l T node S := by
          intro l hl
          rw [hl]
          simp only [map_push, if_neg (Ne.symm hT)]
          exact hb
        have hm := congrArg App.m_in_set_systems e1
        exact key _ hm
      · refine (set_value_of_update_sets _ node T _ b S).trans ?_
        rw [if_neg (fun h => hT h.2.1.symm)]
        exact (s1.set_value_of_eq b S).trans hset
      · exact ((edgeStep_update_node (fun _ _ => False) _ node
          (fun n => { n with sets := map_set n.sets T ((in_sets.lookup T).getD 0) })
          (fun x => ⟨rfl, rfl, rfl⟩)).scheduler_eq b).trans ((s1.scheduler_of_eq b).trans hd)
      · show node < (update_node _ node _).length
        rw [update_node_length]
        exact lt_of_lt_of_eq hnode s1.length_eq.symm

theorem lookup_some_mem_map_fst (in_sets : List (Nat × Nat)) (S v : Nat)
    (h : in_sets.lookup S = some v) : S ∈ in_sets.map (fun x => x.1) := by
  induction in_sets with
  | nil => simp at h
  | cons e es ih =>
    obtain ⟨k, x⟩ := e
    by_cases hk : S = k
    · subst hk
      simp
    · have hb : (S == k) = false := by simpa using hk
      rw [List.lookup_cons, hb] at h
      exact List.mem_cons_of_mem _ (ih h)

/-- When `check_locked` is called for a new node given a value of set type `S` that the
configured order of `S` does not hold, every listed node whose value is in the order
and whose scheduler casts to the stage type is in the set of the new node. -/
theorem node_prepared_unordered_hit (deps : Deps) (in_main : Bool) (Sch : Nat)
    (args : List Param) (befores afters : List (Option Nat)) (conditions : List Nat)
    (in_sets : List (Nat × Nat)) (app : App) (S v : Nat) (order : List Nat) (b w d : Nat)
    (hS : in_sets.lookup S = some v) (hord : app.m_system_sets S = some order)
    (hv : v ∉ order) (hw : w ∈ order) (hb : b ∈ app.m_in_set_systems S)
    (hset : set_value_of app.heap b S = some w)
    (hd : scheduler_of app.heap b = some d) (hc : dynamic_cast deps Sch d = true) :
    b ∈ user_before
      (node_prepared deps in_main Sch args befores afters conditions in_sets app).heap
      app.heap.length := by
  have hlt : b < app.heap.length := scheduler_of_lt _ _ _ hd
  unfold node_prepared
  simp only
  have s1 : EdgeStep (fun _ _ => False) (app.heap ++ [new_system_node in_main Sch args])
      (update_node (app.heap ++ [new_system_node in_main Sch args]) app.heap.length
        (fun n => { n with conditions := conditions })) :=
    edgeStep_update_node _ _ app.heap.length _ (fun x => ⟨rfl, rfl, rfl⟩)
  have s2 := afters_loop_step deps Sch app.heap.length afters
    (update_node (app.heap ++ [new_system_node in_main Sch args]) app.heap.length
      (fun n => { n with conditions := conditions }))
  have s3 := befores_loop_step deps Sch app.heap.length befores
    (afters_loop deps Sch app.heap.length afters
      (update_node (app.heap ++ [new_system_node in_main Sch args]) app.heap.length
        (fun n => { n with conditions := conditions })))
  have h1 : set_value_of (befores_loop deps Sch app.heap.length befores
      (afters_loop deps Sch app.heap.length afters
        (update_node (app.heap ++ [new_system_node in_main Sch args]) app.heap.length
          (fun n => { n with conditions := conditions })))) b S = some w := by
    rw [s3.set_value_of_eq, s2.set_value_of_eq, set_value_of_update_conditions,
      set_value_of_append_new _ _ rfl]
    exact hset
  have h2 : scheduler_of (befores_loop deps Sch app.heap.length befores
      (afters_loop deps Sch app.heap.length afters
        (update_node (app.heap ++ [new_system_node in_main Sch args]) app.heap.length
          (fun n => { n with conditions := conditions })))) b = some d := by
    rw [s3.scheduler_of_eq, s2.scheduler_of_eq, s1.scheduler_eq, scheduler_of_append_new,
      if_neg (Nat.ne_of_lt hlt)]
    exact hd
  have h3 : app.heap.length < (befores_loop deps Sch app.heap.length befores
      (afters_loop deps Sch app.heap.length afters
        (update_node (app.heap ++ [new_system_node in_main Sch args]) app.heap.length
          (fun n => { n with conditions := conditions })))).length := by
    rw [s3.length_eq, s2.length_eq, s1.length_eq]
    simp
  set heap4 := befores_loop deps Sch app.heap.length befores
    (afters_loop deps Sch app.heap.length afters
      (update_node (app.heap ++ [new_system_node in_main Sch args]) app.heap.length
        (fun n => { n with conditions := conditions }))) with hh4
  exact configure_system_sets_hit deps Sch app.heap.length in_sets _
    { app with heap := heap4 } S order b w d
    (lookup_some_mem_map_fst in_sets S v hS) hord (by rw [hS]; exact hv) hw hb h1 h2 hc h3

/-- C34: in a state reached by registration calls where set type `S` has a configured
order, a node added by `add_system` or `add_system_main` with a value of `S` that is not
in the order gets in its `user_defined_before` every node of the same stage type whose
value of `S` is in the order. -/
theorem C34_value_outside_order_after_all (deps : Deps) (ops : List RegOp) (app : App)
    (hreach : apply_ops deps ops App_new = .ok app) (Sch : Nat) (args : List Param)
    (befores afters : List (Option Nat)) (conditions : List Nat)
    (in_sets : List (Nat × Nat)) (app2 : App)
    (hadd : add_system deps Sch args befores afters conditions in_sets app = .ok app2
      ∨ add_system_main deps Sch args befores afters conditions in_sets app = .ok app2)
    (S v : Nat) (order : List Nat) (hS : in_sets.lookup S = some v)
    (hord : app.m_system_sets S = some order) (hv : v ∉ order)
    (b w : Nat) (hset : set_value_of app.heap b S = some w) (hw : w ∈ order)
    (hst : stage_type_of app.heap b = some Sch) :
    b ∈ user_before app2.heap app.heap.length := by
  have hb : b ∈ app.m_in_set_systems S := reachable_sets_listed deps ops app hreach b S w hset
  have hd : scheduler_of app.heap b = some Sch := by
    rw [(reachable_systems_registered deps ops app hreach).2 b]
    exact hst
  have hc : dynamic_cast deps Sch Sch = true := by simp [dynamic_cast]
  rcases hadd with h | h
  · rw [add_system_ok _ _ _ _ _ _ _ _ _ h]
    exact node_prepared_unordered_hit deps false Sch args befores afters conditions in_sets
      app S v order b w Sch hS hord hv hw hb hset hd hc
  · rw [add_system_main_ok _ _ _ _ _ _ _ _ _ h]
    exact node_prepared_unordered_hit deps true Sch args befores afters conditions in_sets
      app S v order b w Sch hS hord hv hw hb hset hd hc

/-- C34 at a concrete state: the order 0, 1 of set type 9 is configured and node 0 is
registered in stage 100 with the value 1; a node registered in stage 100 with the value
5, which is not in the order, has node 0 in its `user_defined_before`. -/
theorem C34_value_outside_order_after_all_witness :
    apply_ops spec_deps
        [.configure_sets 9 0 [1], .add_system 100 [] [] [] [] [(9, 1)]] App_new
        = .ok (registered spec_deps
          [.configure_sets 9 0 [1], .add_system 100 [] [] [] [] [(9, 1)]])
      ∧ add_system spec_deps 100 [] [] [] [] [(9, 5)] (registered spec_deps
          [.configure_sets 9 0 [1], .add_system 100 [] [] [] [] [(9, 1)]])
        = .ok { m_system_sets := map_set (fun _ => none) 9 [0, 1]
                m_in_set_systems := map_push (map_push (fun _ => []) 9 0) 9 1
                m_systems := [0, 1]
                heap := [{ new_system_node false 100 [] with
                           sets := map_set (fun _ => none) 9 1 },
                         { new_system_node false 100 [] with
                           user_defined_before := [0]
                           sets := map_set (fun _ => none) 9 5 }] }
      ∧ 0 ∈ user_before [{ new_system_node false 100 [] with
                           sets := map_set (fun _ => none) 9 1 },
                         { new_system_node false 100 [] with
                           user_defined_before := [0]
                           sets := map_set (fun _ => none) 9 5 }] 1 :=
  ⟨rfl, rfl,
   C34_value_outside_order_after_all spec_deps
     [.configure_sets 9 0 [1], .add_system 100 [] [] [] [] [(9, 1)]] _ rfl
     100 [] [] [] [] [(9, 5)] _ (Or.inl rfl) 9 5 [0, 1] rfl rfl (by decide)
     0 1 (by decide) (by decide) (by decide)⟩

end pixel_engine.entity
